import Mathlib

/-!
# Pairing-based data possession audit and verifiable secret sharing

A shallow embedding of `crypto/core/pdp/pairing` (setup.go, type.go), of
`crypto/core/secret_share/complex_secret_share` and of
`crypto/core/machine_learning` (feature_import.go, validation.go), followed by
the properties proved about them.

Go values are embedded as follows.

* `*big.Int` is `Int`; `[]byte` is a list of `Fin 256`; a Go `string` is a
  list of characters, and a `String` in the machine-learning packages.
* A Go result `(v, error)` is an `Except Error v`, or a tuple of options when
  the property speaks about the individual return values.
* The pairing groups, SHA-256, the elliptic curve handed to the secret
  sharing functions and the entropy source are parameters of the functions
  that use them.
-/

/-! ## Bytes and `math/big` -/

/-- One octet. -/
abbrev Byte := Fin 256

/-- A Go byte slice. -/
abbrev Octets := List Byte

/-- The errors the embedded functions return. -/
inductive Error where
  /-- `fmt.Errorf("failed to retrieve big int from string: %s", s)` -/
  | badBigIntString (s : List Char)
  /-- The error of `rand.Int` when the entropy source fails. -/
  | entropyFailure
  /-- The package variable `InvalidTotalShareNumberError`. -/
  | InvalidTotalShareNumberError
  /-- The package variable `InvalidShareNumberError`. -/
  | InvalidShareNumberError
  /-- The error of `ecc.NewPoint` for coordinates that are not on the curve. -/
  | pointNotOnCurve
  /-- The error of `Unmarshal` for a buffer that is not a point encoding. -/
  | badPointEncoding
  /-- The protocol error of the specification, for a challenge whose lists do
  not match or whose indices repeat. -/
  | protocolError
  /-- The errors of `errors.New(s)` and `fmt.Errorf`, given by their text. -/
  | msg (s : String)
  deriving DecidableEq, Repr

/-- Method `Bytes` of `big.Int`: the big-endian bytes of the absolute value,
without leading zero byte (the empty slice for zero). -/
def BigInt.Bytes (x : Int) : Octets :=
  ((Nat.digits 256 x.natAbs).reverse).map (fun d => (Fin.ofNat d : Byte))

/-- Method `SetBytes` of `big.Int`: the buffer read as a big-endian unsigned
integer. -/
def BigInt.SetBytes (b : Octets) : Int :=
  ((Nat.ofDigits 256 ((b.reverse).map Fin.val) : Nat) : Int)

/-- The decimal digits of a natural number, most significant first; `0` is
written with one digit. -/
def decDigits (n : Nat) : List Char :=
  if n = 0 then ['0'] else ((Nat.digits 10 n).reverse).map Nat.digitChar

/-- Method `String` of `big.Int`: the decimal representation, with a leading
minus sign for a negative number. -/
def BigInt.String (x : Int) : List Char :=
  if x < 0 then '-' :: decDigits x.natAbs else decDigits x.natAbs

/-- The value of a decimal digit character, if it is one. -/
def digitVal (c : Char) : Option Nat :=
  if '0' ≤ c ∧ c ≤ '9' then some (c.toNat - '0'.toNat) else none

/-- Reads a run of decimal digits onto an accumulator; fails at the first
character that is not a digit. -/
def scanDigits : List Char → Nat → Option Nat
  | [], acc => some acc
  | c :: cs, acc =>
    match digitVal c with
    | some d => scanDigits cs (acc * 10 + d)
    | none => none

/-- Method `SetString(s, 10)` of `big.Int`: an optional sign followed by at
least one decimal digit and nothing else. -/
def BigInt.SetString (s : List Char) : Option Int :=
  match s with
  | [] => none
  | c :: r =>
    if c = '-' then
      (if r = [] then none else Option.map (fun n => -Int.ofNat n) (scanDigits r 0))
    else if c = '+' then
      (if r = [] then none else Option.map Int.ofNat (scanDigits r 0))
    else Option.map Int.ofNat (scanDigits (c :: r) 0)

/-- The positional value of a string of decimal digits (leading zeros
allowed, the empty string has value zero). -/
def decimalValue (s : List Char) : Nat :=
  s.foldl (fun acc c => acc * 10 + (c.toNat - '0'.toNat)) 0

/-! ## setup.go -/

/-- One turn of the loop of `concatBigInt`. `Mod` is the Euclidean modulus;
on a zero modulus Go panics, and the properties below take a positive one. -/
def concatBigIntStep (modulus : Int) (ret n : Int) : Except Error Int :=
  let s := BigInt.String ret ++ BigInt.String n
  match BigInt.SetString s with
  | none => .error (Error.badBigIntString s)
  | some concatN => .ok (concatN % modulus)

/-- The loop of `concatBigInt`, started from the value `ret`. -/
def concatBigIntFrom (modulus : Int) : List Int → Int → Except Error Int
  | [], ret => .ok ret
  | n :: rest, ret =>
    match concatBigIntStep modulus ret n with
    | .error e => .error e
    | .ok ret1 => concatBigIntFrom modulus rest ret1

/-- Function `concatBigInt` of setup.go. -/
def concatBigInt (list : List Int) (modulus : Int) : Except Error Int :=
  concatBigIntFrom modulus list 0

/-- The package variables `g1Gen`, `g2Gen` and `order`, set once by `init`,
together with the library functions the package applies to group elements:
SHA-256 and the decimal strings of the affine coordinates of a point of G1.
Scalar multiplication and addition of points are those of the groups `G1`
and `G2`. -/
structure PairingParams (G1 G2 : Type) where
  /-- The generator of G1. -/
  g1Gen : G1
  /-- The generator of G2. -/
  g2Gen : G2
  /-- The order of the scalar field. -/
  order : Int
  /-- SHA-256 (`sha256.Sum256` and `hash.HashUsingSha256`). -/
  sha256 : Octets → Octets
  /-- Method `String` of the affine coordinate `X` of a point of G1: its
  decimal representation. -/
  XString : G1 → List Char
  /-- Method `String` of the affine coordinate `Y` of a point of G1: its
  decimal representation. -/
  YString : G1 → List Char

/-- Type `PrivateKey` of type.go. -/
structure PrivateKey where
  /-- The private scalar. -/
  X : Int
  deriving DecidableEq, Repr

/-- Type `PublicKey` of type.go. -/
structure PublicKey (G2 : Type) where
  /-- The public point. -/
  P : G2

/-- Type `CalculateSigmaIParams` of type.go. -/
structure CalculateSigmaIParams where
  /-- The file content. -/
  Content : Octets
  /-- The file segment index. -/
  Index : Int
  /-- A random V. -/
  RandomV : Int
  /-- A random U. -/
  RandomU : Int
  /-- The client private key. -/
  Privkey : PrivateKey
  /-- The challenge round, an `int64`. -/
  Round : Int

/-- The conversion `[]byte(s)` of a string of ASCII characters, which is what
the decimal strings are. -/
def stringBytes (s : List Char) : Octets :=
  s.map (fun c => (Fin.ofNat c.toNat : Byte))

section Setup

variable {G1 G2 : Type} [AddCommGroup G1] [AddCommGroup G2]

/-- Function `RandomWithinOrder` of setup.go: `rand.Int(rand.Reader, order)`.
The argument is what the entropy source delivers: an error, or raw
randomness, of which the function returns the residue below `order`. -/
def RandomWithinOrder (P : PairingParams G1 G2) (entropy : Except Error Nat) :
    Except Error Int :=
  match entropy with
  | .error err => .error err
  | .ok r => .ok ((r : Int) % P.order)

/-- Function `GenKeyPair` of setup.go, with its three return values. -/
def GenKeyPair (P : PairingParams G1 G2) (entropy : Except Error Nat) :
    Option PrivateKey × Option (PublicKey G2) × Option Error :=
  match RandomWithinOrder P entropy with
  | .error err => (none, none, some err)
  | .ok sk =>
    let pk := sk • P.g2Gen
    let privkey : PrivateKey := { X := sk }
    let pubkey : PublicKey G2 := { P := pk }
    (some privkey, some pubkey, none)

/-- Function `hashToG1` of setup.go. -/
def hashToG1 (P : PairingParams G1 G2) (data : Int) : G1 :=
  let hash := P.sha256 (BigInt.Bytes data)
  let scalar := BigInt.SetBytes hash
  scalar • P.g1Gen

/-- Function `hashG1toBigInt` of setup.go. -/
def hashG1toBigInt (P : PairingParams G1 G2) (p : G1) : Int :=
  let xy := P.XString p ++ P.YString p
  let hash := P.sha256 (stringBytes xy)
  let res := BigInt.SetBytes hash
  res % P.order

/-- Function `genRandNumByRound` of setup.go. -/
def genRandNumByRound (P : PairingParams G1 G2) (round : Int) (sk : Int) : Octets :=
  let jsk := round * sk
  let jskG1 := jsk • P.g1Gen
  BigInt.Bytes (hashG1toBigInt P jskG1)

/-- Function `CalculateSigmaI` of setup.go: the value it returns. What its
`append` writes into the caller's array is in `CalculateSigmaI.withBuffer`. -/
def CalculateSigmaI (P : PairingParams G1 G2) (param : CalculateSigmaIParams) :
    Except Error G1 :=
  match concatBigInt [param.RandomV, param.Index] P.order with
  | .error err => .error err
  | .ok vi =>
    let hvi := hashToG1 P vi
    let rj := genRandNumByRound P param.Round param.Privkey.X
    let hashMi := P.sha256 (param.Content ++ rj)
    let hashMiInt := BigInt.SetBytes hashMi
    let mig1 := hashMiInt • P.g1Gen
    let miug1 := param.RandomU • mig1
    let add := hvi + miug1
    let sigmaI := param.Privkey.X • add
    .ok sigmaI

end Setup

/-- A map into a third group is bilinear when it is additive in each
argument; this is what the pairing of the curve provides. -/
structure IsBilinear {G1 G2 GT : Type} [AddCommGroup G1] [AddCommGroup G2] [AddCommGroup GT]
    (e : G1 → G2 → GT) : Prop where
  /-- Additivity in the first argument. -/
  add_left : ∀ a b q, e (a + b) q = e a q + e b q
  /-- Additivity in the second argument. -/
  add_right : ∀ p a b, e p (a + b) = e p a + e p b

/-- One challenged segment of an audit round: its content, its index and
the challenge coefficient `v_i` chosen for it. -/
structure ChallengedSegment where
  /-- The content of the segment. -/
  content : Octets
  /-- The index of the segment. -/
  index : Int
  /-- The challenge coefficient. -/
  coeff : Int

/-- An instance of the group parameters on which the definitions can be
evaluated: both groups are the integers under addition with generator 1,
the scalar order is the order of BLS12-381, the hash is the identity and a
point `p` has the coordinates `(|p|, 0)`. -/
def sampleParams : PairingParams Int Int where
  g1Gen := 1
  g2Gen := 1
  order := 52435875175126190479447740508185965837690552500527637822603658699938581184513
  sha256 := fun b => b
  XString := fun p => decDigits p.natAbs
  YString := fun _ => ['0']

/-- The bytes of the string "alpha". -/
def alphaBytes : Octets := [97, 108, 112, 104, 97]

/-- The bytes of the string "beta". -/
def betaBytes : Octets := [98, 101, 116, 97]

/-- A bilinear map on the groups of `sampleParams`: the product of integers. -/
def samplePairing (a b : Int) : Int := a * b

/-- The two challenged segments of the audit scenario: contents "alpha" and
"beta", indices 1 and 2, coefficients 3 and 5. -/
def sampleSegments : List ChallengedSegment :=
  [{ content := alphaBytes, index := 1, coeff := 3 },
   { content := betaBytes, index := 2, coeff := 5 }]

/-- The tag parameters used to evaluate `CalculateSigmaI`. -/
def sampleSigmaParams : CalculateSigmaIParams where
  Content := alphaBytes
  Index := 1
  RandomV := 7
  RandomU := 3
  Privkey := { X := 5 }
  Round := 2

/-! ## The polynomial and curve libraries used by the secret sharing -/

/-- Method `ModInverse` of `big.Int` for a modulus `n`: the residue `z` in
`[0, n)` with `g * z = 1` modulo `n` when `g` and `n` are coprime, computed
with the extended Euclidean algorithm. -/
def BigInt.ModInverse (g n : Int) : Int :=
  Int.gcdA g n % n

/-- Sum of two coefficient lists (constant term first). -/
def polyAdd : List Int → List Int → List Int
  | [], q => q
  | a :: p, [] => a :: p
  | a :: p, b :: q => (a + b) :: polyAdd p q

/-- Product of a coefficient list with a scalar. -/
def polyScale (c : Int) (p : List Int) : List Int :=
  p.map (fun a => c * a)

/-- Product of a coefficient list (constant term first) with `X - a`. -/
def polyMulLinear (a : Int) (p : List Int) : List Int :=
  polyAdd (0 :: p) (polyScale (-a) p)

/-- The constant term of a coefficient list (constant term first). -/
def constantTerm : List Int → Int
  | [] => 0
  | c :: _ => c

/-- Modelled from the spec: method `Evaluate` of the package `big_polynomial`,
which is not in src ("direct evaluation", "evaluates at x=1..n"): the value
at `x` of the polynomial with the coefficients `poly`, constant term first,
reduced modulo the prime of the client. -/
def BigPolynomial.Evaluate (prime : Int) (poly : List Int) (x : Int) : Int :=
  (poly.foldr (fun c acc => c + x * acc) 0) % prime

/-- Modelled from the spec: method `RandomGenerate` of the package
`big_polynomial`, which is not in src ("encodes secret as scalar constant
term, generates t-1 random coefficients"; it fails only when the entropy
source fails): the secret read as an integer, followed by `degree`
coefficients drawn below the prime. The entropy source delivers an error or a
sequence of raw random numbers. -/
def BigPolynomial.RandomGenerate (prime : Int) (degree : Int) (secret : Octets)
    (entropy : Except Error (Nat → Nat)) : Except Error (List Int) :=
  match entropy with
  | .error err => .error err
  | .ok draw =>
    .ok (BigInt.SetBytes secret
          :: (List.range degree.toNat).map (fun i => ((draw i : Nat) : Int) % prime))

/-- The numerator of the Lagrange basis polynomial of the node `x` among the
given points: the product of `X - x_j` over the other nodes. -/
def lagrangeNumerator (points : List (Int × Int)) (x : Int) : List Int :=
  ((points.filter (fun q => q.1 ≠ x)).map Prod.fst).foldr polyMulLinear [1]

/-- The denominator of the Lagrange basis polynomial of the node `x`: the
product of `x - x_j` over the other nodes. -/
def lagrangeDenominator (points : List (Int × Int)) (x : Int) : Int :=
  ((points.filter (fun q => q.1 ≠ x)).map (fun q => x - q.1)).prod

/-- Modelled from the spec: method `GetPolynomialByPoints` of the package
`big_polynomial`, which is not in src ("Lagrange interpolation of the
constant term"): the coefficients, reduced modulo the prime, of the Lagrange
polynomial through the points of the map, with the constant term last, which
is where `lagrangeInterpolate` reads the secret. A map is a list of pairs
with distinct keys, in the order the iteration visits them. -/
def BigPolynomial.GetPolynomialByPoints (prime : Int) (points : List (Int × Int)) :
    List Int :=
  let terms := points.map (fun p =>
    polyScale (p.2 * BigInt.ModInverse (lagrangeDenominator points p.1) prime)
      (lagrangeNumerator points p.1))
  ((terms.foldr polyAdd []).map (fun c => c % prime)).reverse

/-- The interface `elliptic.Curve` as the package uses it; `Pt` is the type
of the coordinate pairs `(x, y)`. -/
structure Curve (Pt : Type) where
  /-- The order `Params().N` of the base point. -/
  N : Int
  /-- Method `ScalarBaseMult`: the coordinates of `k * G` for the base point
  `G` of the curve and the big-endian scalar `k`. -/
  ScalarBaseMult : Octets → Pt
  /-- Method `IsOnCurve`. -/
  IsOnCurve : Pt → Bool

/-- Type `ecc.Point`: a curve and coordinates on it. -/
structure Point (Pt : Type) where
  /-- The curve of the point. -/
  Curve : Curve Pt
  /-- The coordinates of the point. -/
  XY : Pt

/-- Modelled from the spec: function `NewPoint` of the package `ecc`, which is
not in src; the callers treat it as the constructor of a point of the given
curve from coordinates, which fails for coordinates that are not on the
curve. -/
def NewPoint {Pt : Type} (curve : Curve Pt) (xy : Pt) : Except Error (Point Pt) :=
  if curve.IsOnCurve xy then .ok { Curve := curve, XY := xy } else .error Error.pointNotOnCurve

/-! ## complex_secret_split.go and complex_secret_retrieve.go -/

/-- A Go `map[int]*big.Int`: pairs with distinct keys. -/
abbrev ShareMap := List (Int × Int)

/-- Function `ComplexSecretToPolynomial`. -/
def ComplexSecretToPolynomial {Pt : Type} (totalShareNumber minimumShareNumber : Int)
    (secret : Octets) (curve : Curve Pt) (entropy : Except Error (Nat → Nat)) :
    Except Error (List Int) :=
  if totalShareNumber < 2 then .error Error.InvalidTotalShareNumberError
  else if minimumShareNumber > totalShareNumber then .error Error.InvalidShareNumberError
  else
    match BigPolynomial.RandomGenerate curve.N (minimumShareNumber - 1) secret entropy with
    | .error err => .error err
    | .ok poly => .ok poly

/-- The loop `for x := 1; x <= totalShareNumber; x++` of the two split
functions: the map from `x` to the value of the polynomial at `x`. -/
def evaluateShares (prime : Int) (poly : List Int) (totalShareNumber : Int) : ShareMap :=
  (List.range totalShareNumber.toNat).map
    (fun i => (((i : Nat) : Int) + 1, BigPolynomial.Evaluate prime poly (((i : Nat) : Int) + 1)))

/-- Function `ComplexSecretSplit`, with its two return values. -/
def ComplexSecretSplit {Pt : Type} (totalShareNumber minimumShareNumber : Int)
    (secret : Octets) (curve : Curve Pt) (entropy : Except Error (Nat → Nat)) :
    Option ShareMap × Option Error :=
  match ComplexSecretToPolynomial totalShareNumber minimumShareNumber secret curve entropy with
  | .error err => (none, some err)
  | .ok poly => (some (evaluateShares curve.N poly totalShareNumber), none)

/-- The loop over the coefficients of `ComplexSecretSplitWithVerifyPoints`:
one point per coefficient, appended to the slice `points`; `none` is the nil
slice. -/
def verifyPointsLoop {Pt : Type} (P256 curve : Curve Pt) :
    List Int → Option (List (Point Pt)) → Except Error (Option (List (Point Pt)))
  | [], points => .ok points
  | coefficient :: rest, points =>
    match NewPoint curve (P256.ScalarBaseMult (BigInt.Bytes coefficient)) with
    | .error err => .error err
    | .ok point => verifyPointsLoop P256 curve rest (some (points.getD [] ++ [point]))

/-- Function `ComplexSecretSplitWithVerifyPoints`, with its three return
values; `P256` is the curve `elliptic.P256()` of the standard library. -/
def ComplexSecretSplitWithVerifyPoints {Pt : Type} (P256 : Curve Pt)
    (totalShareNumber minimumShareNumber : Int) (secret : Octets) (curve : Curve Pt)
    (entropy : Except Error (Nat → Nat)) :
    Option ShareMap × Option (List (Point Pt)) × Option Error :=
  match ComplexSecretToPolynomial totalShareNumber minimumShareNumber secret curve entropy with
  | .error err => (none, none, some err)
  | .ok poly =>
    match verifyPointsLoop P256 curve poly none with
    | .error err => (none, none, some err)
    | .ok points => (some (evaluateShares curve.N poly totalShareNumber), points, none)

/-- Function `GetVerifyPointByPolynomial`; `none` is the run-time panic of
`poly[0]` on an empty polynomial. -/
def GetVerifyPointByPolynomial {Pt : Type} (P256 : Curve Pt) (poly : List Int)
    (curve : Curve Pt) : Option (Except Error (Point Pt)) :=
  match poly with
  | [] => none
  | c :: _ => some (NewPoint curve (P256.ScalarBaseMult (BigInt.Bytes c)))

/-- Function `GetSpecifiedSecretShareByPolynomial`. -/
def GetSpecifiedSecretShareByPolynomial {Pt : Type} (poly : List Int) (index : Int)
    (curve : Curve Pt) : Int :=
  BigPolynomial.Evaluate curve.N poly index

/-- Function `lagrangeInterpolate`; `none` is the run-time panic of
`result[len(result)-1]` on an empty result. -/
def lagrangeInterpolate {Pt : Type} (points : ShareMap) (curve : Curve Pt) : Option Int :=
  let result := BigPolynomial.GetPolynomialByPoints curve.N points
  result.getLast?

/-- Function `ComplexSecretRetrieve`, with its two return values; `none` is
the run-time panic of `lagrangeInterpolate`. -/
def ComplexSecretRetrieve {Pt : Type} (shares : ShareMap) (curve : Curve Pt) :
    Option (Octets × Option Error) :=
  match lagrangeInterpolate shares curve with
  | none => none
  | some secretInt => some (BigInt.Bytes secretInt, none)

/-- A curve on which the definitions can be evaluated: the cyclic group of
the residues modulo the prime 65537, with base point 1 and the zero residue
as the point at infinity, which is not on the curve. It stands in for
`elliptic.P256()` where a concrete curve is needed. -/
def sampleP256 : Curve (ZMod 65537) where
  N := 65537
  ScalarBaseMult := fun k => ((BigInt.SetBytes k : Int) : ZMod 65537)
  IsOnCurve := fun p => decide (p ≠ 0)

/-- The same group as `sampleP256` with another base point, the residue 2:
a curve a caller can supply that is not `elliptic.P256()`. -/
def sampleOtherCurve : Curve (ZMod 65537) where
  N := 65537
  ScalarBaseMult := fun k => 2 * ((BigInt.SetBytes k : Int) : ZMod 65537)
  IsOnCurve := fun p => decide (p ≠ 0)

/-- An entropy source that works. -/
def sampleEntropy : Except Error (Nat → Nat) := .ok (fun i => 1000 * i + 77777)

/-! ## type.go -/

/-- The point encodings of the curve library: methods `Marshal` and
`Unmarshal` of the points of G1 and of G2. `Unmarshal` fails on a buffer that
is not the encoding of a point. -/
structure PointEncoding (G1 G2 : Type) where
  /-- Method `Marshal` of a point of G1. -/
  G1Marshal : G1 → Octets
  /-- Method `Unmarshal` of a point of G1. -/
  G1Unmarshal : Octets → Except Error G1
  /-- Method `Marshal` of a point of G2. -/
  G2Marshal : G2 → Octets
  /-- Method `Unmarshal` of a point of G2. -/
  G2Unmarshal : Octets → Except Error G2

/-- Type `ProofParams` of type.go. A slice is a list, the nil slice the empty
list. -/
structure ProofParams (G1 : Type) where
  /-- The file contents. -/
  Content : List Octets
  /-- The index list. -/
  Indices : List Int
  /-- The random challenge number list. -/
  RandomVs : List Int
  /-- The list of the stored tags. -/
  Sigmas : List G1
  /-- The random number of this challenge round. -/
  RandThisRound : Octets

/-- Type `VerifyParams` of type.go. A pointer field is an option, `none`
being nil; a slice is a list, the nil slice the empty list. -/
structure VerifyParams (G1 G2 : Type) where
  /-- The sigma of the proof. -/
  Sigma : Option G1
  /-- The mu of the proof. -/
  Mu : Option G1
  /-- A random V. -/
  RandomV : Option Int
  /-- A random U. -/
  RandomU : Option Int
  /-- The index list. -/
  Indices : List Int
  /-- The random challenge number list. -/
  RandomVs : List Int
  /-- The client public key. -/
  Pubkey : Option (PublicKey G2)

/-- The zero value `ProofParams{}`. -/
def ProofParams.zero {G1 : Type} : ProofParams G1 where
  Content := []
  Indices := []
  RandomVs := []
  Sigmas := []
  RandThisRound := []

/-- The zero value `VerifyParams{}`. -/
def VerifyParams.zero {G1 G2 : Type} : VerifyParams G1 G2 where
  Sigma := none
  Mu := none
  RandomV := none
  RandomU := none
  Indices := []
  RandomVs := []
  Pubkey := none

/-- Function `PrivateKeyToByte` of type.go. -/
def PrivateKeyToByte (privkey : PrivateKey) : Octets :=
  BigInt.Bytes privkey.X

/-- Function `PrivateKeyFromByte` of type.go. -/
def PrivateKeyFromByte (privkey : Octets) : PrivateKey :=
  let x := BigInt.SetBytes privkey
  { X := x }

/-- Function `PublicKeyToByte` of type.go. -/
def PublicKeyToByte {G1 G2 : Type} (E : PointEncoding G1 G2) (pubkey : PublicKey G2) : Octets :=
  E.G2Marshal pubkey.P

/-- Function `PublicKeyFromByte` of type.go, with its two return values. -/
def PublicKeyFromByte {G1 G2 : Type} (E : PointEncoding G1 G2) (pubkey : Octets) :
    Option (PublicKey G2) × Option Error :=
  match E.G2Unmarshal pubkey with
  | .error err => (none, some err)
  | .ok pub => (some { P := pub }, none)

/-- Function `CalculateSigmaIParamsFromBytes` of type.go. -/
def CalculateSigmaIParamsFromBytes (content index randomV randomU privkey : Octets)
    (round : Int) : CalculateSigmaIParams where
  Content := content
  Index := BigInt.SetBytes index
  RandomV := BigInt.SetBytes randomV
  RandomU := BigInt.SetBytes randomU
  Privkey := PrivateKeyFromByte privkey
  Round := round

/-- Function `G1ToByte` of type.go. -/
def G1ToByte {G1 G2 : Type} (E : PointEncoding G1 G2) (sigma : G1) : Octets :=
  E.G1Marshal sigma

/-- Function `G1FromByte` of type.go, with its two return values. -/
def G1FromByte {G1 G2 : Type} (E : PointEncoding G1 G2) (sigma : Octets) :
    Option G1 × Option Error :=
  match E.G1Unmarshal sigma with
  | .error err => (none, some err)
  | .ok s => (some s, none)

/-- The loop of `G1sFromBytes`, with the slice `ret` built so far. -/
def G1sFromBytesLoop {G1 G2 : Type} (E : PointEncoding G1 G2) :
    List Octets → List G1 → List G1 × Option Error
  | [], ret => (ret, none)
  | g :: rest, ret =>
    match E.G1Unmarshal g with
    | .error err => ([], some err)
    | .ok g1 => G1sFromBytesLoop E rest (ret ++ [g1])

/-- Function `G1sFromBytes` of type.go, with its two return values. -/
def G1sFromBytes {G1 G2 : Type} (E : PointEncoding G1 G2) (gs : List Octets) :
    List G1 × Option Error :=
  G1sFromBytesLoop E gs []

/-- Function `IntListToBytes` of type.go. -/
def IntListToBytes (intList : List Int) : List Octets :=
  intList.foldl (fun ret n => ret ++ [BigInt.Bytes n]) []

/-- Function `IntListFromBytes` of type.go. -/
def IntListFromBytes (intList : List Octets) : List Int :=
  intList.foldl (fun ret n => ret ++ [BigInt.SetBytes n]) []

/-- Function `ProofParamsFromBytes` of type.go, with its two return values. -/
def ProofParamsFromBytes {G1 G2 : Type} (E : PointEncoding G1 G2)
    (content indices randVs sigmas : List Octets) (rand : Octets) :
    ProofParams G1 × Option Error :=
  match G1sFromBytes E sigmas with
  | (_, some err) => (ProofParams.zero, some err)
  | (s, none) =>
    ({ Content := content
       Indices := IntListFromBytes indices
       RandomVs := IntListFromBytes randVs
       Sigmas := s
       RandThisRound := rand }, none)

/-- Function `VerifyParamsFromBytes` of type.go, with its two return values. -/
def VerifyParamsFromBytes {G1 G2 : Type} (E : PointEncoding G1 G2)
    (sigma mu randV randU pubkey : Octets) (indices randVs : List Octets) :
    VerifyParams G1 G2 × Option Error :=
  match G1FromByte E sigma with
  | (_, some err) => (VerifyParams.zero, some err)
  | (s, none) =>
    match G1FromByte E mu with
    | (_, some err) => (VerifyParams.zero, some err)
    | (m, none) =>
      match PublicKeyFromByte E pubkey with
      | (_, some err) => (VerifyParams.zero, some err)
      | (pub, none) =>
        ({ Sigma := s
           Mu := m
           RandomV := some (BigInt.SetBytes randV)
           RandomU := some (BigInt.SetBytes randU)
           Indices := IntListFromBytes indices
           RandomVs := IntListFromBytes randVs
           Pubkey := pub }, none)

/-- The big-endian value `sum_i b[i] * 256^(len-1-i)` of a buffer, by
recursion on the buffer: the first byte has the weight `256^(len-1)`. -/
def bigEndianValue : Octets → Nat
  | [] => 0
  | x :: r => x.val * 256 ^ r.length + bigEndianValue r

/-- A point encoding on which the definitions can be evaluated, for the
groups of `sampleParams`: a point is encoded as the bytes of its absolute
value, the empty buffer is not an encoding, and a buffer with a leading zero
byte is rejected with another error. -/
def sampleEncoding : PointEncoding Int Int where
  G1Marshal := fun p => BigInt.Bytes p
  G1Unmarshal := fun b =>
    if b = [] then .error Error.badPointEncoding
    else if b.head? = some 0 then .error Error.pointNotOnCurve
    else .ok (BigInt.SetBytes b)
  G2Marshal := fun p => BigInt.Bytes p
  G2Unmarshal := fun b =>
    if b = [] then .error Error.badPointEncoding
    else if b.head? = some 0 then .error Error.pointNotOnCurve
    else .ok (BigInt.SetBytes b)

/-! ## The proof and its verification -/

/-- The step-1 points `H(v||i)` of the indices of a challenge, which need
public data only; the error is the one of `concatBigInt`. -/
def recomputeHashes {G1 G2 : Type} [AddCommGroup G1] (P : PairingParams G1 G2) (V : Int) :
    List Int → Except Error (List G1)
  | [] => .ok []
  | i :: rest =>
    match concatBigInt [V, i] P.order with
    | .error err => .error err
    | .ok vi =>
      match recomputeHashes P V rest with
      | .error err => .error err
      | .ok hs => .ok (hashToG1 P vi :: hs)

/-- Modelled from the spec: the function that builds the proof from a
`ProofParams`, which is not in src ("weighted sum of challenged tags and of
masked content-hash points; fails if any challenged index's tag/content is
absent", "indices must not repeat within a round"): the pair of
`sum v_i * sigma_i` and `sum v_i * (SHA256(content_i || r_j) * g1)`. -/
def Prove {G1 G2 : Type} [AddCommGroup G1] (P : PairingParams G1 G2) (param : ProofParams G1) :
    Except Error (G1 × G1) :=
  if param.Indices.length = param.RandomVs.length
      ∧ param.Indices.length = param.Sigmas.length
      ∧ param.Indices.length = param.Content.length
      ∧ param.Indices.Nodup then
    let sigma := (List.zipWith (fun v s => v • s) param.RandomVs param.Sigmas).sum
    let mu := (List.zipWith (fun v m =>
      v • (BigInt.SetBytes (P.sha256 (m ++ param.RandThisRound)) • P.g1Gen))
      param.RandomVs param.Content).sum
    .ok (sigma, mu)
  else .error Error.protocolError

/-- Modelled from the spec: the verification of a `VerifyParams`, which is not
in src ("recompute the challenge-weighted sum of step-1 points using only
public data, then test the bilinear-pairing identity between (aggregated tag,
generator2) and (recomputed-sum + aggregated blinding, public key)";
"out-of-range/duplicate index: ProtocolError"): the test
`pairing(sigma, g2) = pairing(sum v_i * H(v||i_i) + RandomU * mu, pk)`, in
which `RandomU`, a field of `VerifyParams` only, blinds the aggregated point
as it does in `CalculateSigmaI`. The result `true` is acceptance, `false`
rejection; `none` is the nil dereference on an unpopulated field. -/
def Verify {G1 G2 GT : Type} [AddCommGroup G1] [DecidableEq GT] (P : PairingParams G1 G2)
    (e : G1 → G2 → GT) (param : VerifyParams G1 G2) : Option (Except Error Bool) :=
  match param.Sigma, param.Mu, param.RandomV, param.RandomU, param.Pubkey with
  | some sigma, some mu, some V, some U, some pk =>
    some (
      if param.Indices.length = param.RandomVs.length ∧ param.Indices.Nodup then
        match recomputeHashes P V param.Indices with
        | .error err => .error err
        | .ok hs =>
          .ok (decide (e sigma P.g2Gen
            = e ((List.zipWith (fun v h => v • h) param.RandomVs hs).sum + U • mu) pk.P))
      else .error Error.protocolError)
  | _, _, _, _, _ => none

/-- Two challenged segments, the second with the challenge coefficient 0. -/
def sampleSegmentsZeroCoeff : List ChallengedSegment :=
  [{ content := alphaBytes, index := 1, coeff := 3 },
   { content := betaBytes, index := 2, coeff := 0 }]

/-! ## Machine learning: tables, numbers and maps

The packages `machine_learning/common` and
`machine_learning/evaluation/validation` work on the rows of a file, a Go
`[][]string`, here a list of rows of `String` cells. -/

/-- The rows of a file or of a fold: a Go `[][]string`. -/
abbrev Rows := List (List String)

/-- A Go `float64`, as far as the comparisons of the code can tell: not a
number, an infinity, or a finite value (every finite `float64` is a rational;
the two zeros compare equal and are one value here). -/
inductive F64 where
  | nan
  | negInf
  | posInf
  | fin (q : ℚ)
  deriving DecidableEq

/-- Go `a <= b` on `float64`: false as soon as one side is not a number. -/
def F64.le : F64 → F64 → Bool
  | .nan, _ => false
  | _, .nan => false
  | .negInf, _ => true
  | _, .posInf => true
  | .posInf, _ => false
  | _, .negInf => false
  | .fin a, .fin b => decide (a ≤ b)

/-- Go `a < b` on `float64`: false as soon as one side is not a number. -/
def F64.lt : F64 → F64 → Bool
  | .nan, _ => false
  | _, .nan => false
  | .posInf, _ => false
  | _, .negInf => false
  | .negInf, _ => true
  | _, .posInf => true
  | .fin a, .fin b => decide (a < b)

/-- A Go `map[int]V` (also the `sync.Map` fields, which the code keys by
`int`): the value stored under each key, if any. -/
abbrev GoMap (V : Type) := Int → Option V

/-- The map of `make(map[int]V)`. -/
def GoMap.empty {V : Type} : GoMap V := fun _ => none

/-- The assignment `m[k] = v`, and `Store(k, v)` of `sync.Map`. -/
def GoMap.store {V : Type} (m : GoMap V) (k : Int) (v : V) : GoMap V :=
  fun j => if j = k then some v else m j

/-- Indexing `xs[i]` of a Go slice by an `int`: `none` stands for the run-time
panic when `i` is negative or not below the length. -/
def sliceIndex {α : Type} (xs : List α) (i : Int) : Option α :=
  if i < 0 then none else xs[i.toNat]?

/-- The loop `idx := -1; for i, v := range header { if v == label { idx = i;
break } }`, started at position `i`: the first position of `label`, `none`
for the `-1` that is left when the label does not occur. -/
def labelIndexFrom (label : String) : List String → Nat → Option Nat
  | [], _ => none
  | v :: vs, i => if v = label then some i else labelIndexFrom label vs (i + 1)

/-! ## `common/feature_import.go` -/

/-- The type `DataFeature` of package `common`, with the two fields that
feature_import.go assigns. -/
structure DataFeature where
  FeatureName : String
  Sets : GoMap F64

/-- The type `DTDataFeature` of package `common`, with the two fields that
feature_import.go assigns. -/
structure DTDataFeature where
  FeatureName : String
  Sets : GoMap String

/-- The inner loop `for i := 0; i < featureNum; i++` of
`ImportFeaturesForLinReg` on one row: features and cells are walked in step.
`none` is the panic of `fileRows[row][i]` on a row with fewer cells than the
header, `.error` the early return on a cell that does not parse. -/
def linRegCells (ParseFloat : String → Except String F64) (sample : Int) :
    List DataFeature → List String → Option (Except Error (List DataFeature))
  | [], _ => some (.ok [])
  | _ :: _, [] => none
  | f :: fs, cell :: cells =>
    match ParseFloat cell with
    | .error err => some (.error (Error.msg ("failed to parse value, err: " ++ err)))
    | .ok value =>
      match linRegCells ParseFloat sample fs cells with
      | none => none
      | some (.error e) => some (.error e)
      | some (.ok fs') => some (.ok ({ f with Sets := f.Sets.store sample value } :: fs'))

/-- The outer loop `for row := 1; row < len(fileRows); row++` of
`ImportFeaturesForLinReg`, on the rows after the header. -/
def linRegRows (ParseFloat : String → Except String F64) :
    Rows → Int → List DataFeature → Option (Except Error (List DataFeature))
  | [], _, features => some (.ok features)
  | r :: rs, sample, features =>
    match linRegCells ParseFloat sample features r with
    | none => none
    | some (.error e) => some (.error e)
    | some (.ok features') => linRegRows ParseFloat rs (sample + 1) features'

/-- Function `ImportFeaturesForLinReg`. The argument is `none` for the nil
slice and `some rows` for a slice that is not nil; the outer `none` of the
result is a run-time panic, and the pair is the Go result
`([]*DataFeature, error)` with `none` for nil. `strconv.ParseFloat(s, 64)` is a
parameter; its error is given by its text. -/
def ImportFeaturesForLinReg (ParseFloat : String → Except String F64)
    (fileRows : Option Rows) : Option (Option (List DataFeature) × Option Error) :=
  match fileRows with
  | none => some (none, some (Error.msg "empty file content"))
  | some [] => none
  | some (header :: rows) =>
    match linRegRows ParseFloat rows 0
        (header.map (fun name => { FeatureName := name, Sets := GoMap.empty })) with
    | none => none
    | some (.error e) => some (none, some e)
    | some (.ok features) => some (some features, none)

/-- The inner loop of `ImportFeaturesForLogReg` on one row: the cell of a
feature named `label` becomes 1 or 0, every other cell is parsed. -/
def logRegCells (ParseFloat : String → Except String F64) (label labelName : String)
    (sample : Int) :
    List DataFeature → List String → Option (Except Error (List DataFeature))
  | [], _ => some (.ok [])
  | _ :: _, [] => none
  | f :: fs, cell :: cells =>
    if f.FeatureName = label then
      let f' : DataFeature :=
        if cell = labelName then { f with Sets := f.Sets.store sample (F64.fin 1) }
        else { f with Sets := f.Sets.store sample (F64.fin 0) }
      match logRegCells ParseFloat label labelName sample fs cells with
      | none => none
      | some (.error e) => some (.error e)
      | some (.ok fs') => some (.ok (f' :: fs'))
    else
      match ParseFloat cell with
      | .error err => some (.error (Error.msg ("failed to parse value, err: " ++ err)))
      | .ok value =>
        match logRegCells ParseFloat label labelName sample fs cells with
        | none => none
        | some (.error e) => some (.error e)
        | some (.ok fs') => some (.ok ({ f with Sets := f.Sets.store sample value } :: fs'))

/-- The outer loop of `ImportFeaturesForLogReg`, on the rows after the
header. -/
def logRegRows (ParseFloat : String → Except String F64) (label labelName : String) :
    Rows → Int → List DataFeature → Option (Except Error (List DataFeature))
  | [], _, features => some (.ok features)
  | r :: rs, sample, features =>
    match logRegCells ParseFloat label labelName sample features r with
    | none => none
    | some (.error e) => some (.error e)
    | some (.ok features') => logRegRows ParseFloat label labelName rs (sample + 1) features'

/-- Function `ImportFeaturesForLogReg`, with the conventions of
`ImportFeaturesForLinReg`. -/
def ImportFeaturesForLogReg (ParseFloat : String → Except String F64)
    (fileRows : Option Rows) (label labelName : String) :
    Option (Option (List DataFeature) × Option Error) :=
  match fileRows with
  | none => some (none, some (Error.msg "empty file content"))
  | some [] => none
  | some (header :: rows) =>
    match logRegRows ParseFloat label labelName rows 0
        (header.map (fun name => { FeatureName := name, Sets := GoMap.empty })) with
    | none => none
    | some (.error e) => some (none, some e)
    | some (.ok features) => some (some features, none)

/-- The inner loop of `ImportFeaturesForDT` on one row; `none` is the panic of
`fileRows[row][i]` on a row with fewer cells than the header. -/
def dtCells (sample : Int) : List DTDataFeature → List String → Option (List DTDataFeature)
  | [], _ => some []
  | _ :: _, [] => none
  | f :: fs, cell :: cells =>
    match dtCells sample fs cells with
    | none => none
    | some fs' => some ({ f with Sets := f.Sets.store sample cell } :: fs')

/-- The outer loop of `ImportFeaturesForDT`, on the rows after the header. -/
def dtRows : Rows → Int → List DTDataFeature → Option (List DTDataFeature)
  | [], _, features => some features
  | r :: rs, sample, features =>
    match dtCells sample features r with
    | none => none
    | some features' => dtRows rs (sample + 1) features'

/-- Function `ImportFeaturesForDT`, with the conventions of
`ImportFeaturesForLinReg`. -/
def ImportFeaturesForDT (fileRows : Option Rows) :
    Option (Option (List DTDataFeature) × Option Error) :=
  match fileRows with
  | none => some (none, some (Error.msg "empty file content"))
  | some [] => none
  | some (header :: rows) =>
    match dtRows rows 0
        (header.map (fun name => { FeatureName := name, Sets := GoMap.empty })) with
    | none => none
    | some features => some (some features, none)

/-! ## `evaluation/validation/validation.go`: the splitter -/

/-- The package functions `Split`, `ShuffleSplit`, `KFoldsSplit`,
`ShuffleKFoldsSplit` and `LooSplit` that the methods of `splitter` call. They
are declared outside validation.go and are parameters here, as functions of
their arguments. -/
structure SplitFunctions where
  Split : Rows → Int → Except Error (List Rows)
  ShuffleSplit : Rows → String → Int → String → Except Error (List Rows)
  KFoldsSplit : Rows → Int → Except Error (List Rows)
  ShuffleKFoldsSplit : Rows → String → Int → String → Except Error (List Rows)
  LooSplit : Rows → String → Except Error (List Rows)

/-- The struct `splitter`. -/
structure splitter where
  fileRows : Rows
  idName : String
  label : String
  folds : List Rows
  deriving DecidableEq

/-- Function `NewSplitter`: `folds` is left nil. -/
def NewSplitter (file : Rows) (idName : String) (label : String) : splitter :=
  { idName := idName, fileRows := file, label := label, folds := [] }

/-- Method `Split`. The result is the splitter after the call and the error
returned; the outer `none` is the panic of `splitSets[0]`, `splitSets[1]` when
the package function returns fewer than two parts. -/
def splitter.Split (F : SplitFunctions) (s : splitter) (percents : Int) :
    Option (splitter × Option Error) :=
  if percents < 1 ∨ percents > 100 then
    some (s, some (Error.msg "percents must between 1 and 100"))
  else
    match F.Split s.fileRows percents with
    | .error err => some (s, some err)
    | .ok splitSets =>
      match splitSets with
      | first :: second :: _ => some ({ s with folds := [first, second] }, none)
      | _ => none

/-- Method `ShuffleSplit`, with the conventions of `splitter.Split`. -/
def splitter.ShuffleSplit (F : SplitFunctions) (s : splitter) (percents : Int)
    (seed : String) : Option (splitter × Option Error) :=
  if percents < 1 ∨ percents > 100 then
    some (s, some (Error.msg "percents must between 1 and 100"))
  else
    match F.ShuffleSplit s.fileRows s.idName percents seed with
    | .error err => some (s, some err)
    | .ok splitSets =>
      match splitSets with
      | first :: second :: _ => some ({ s with folds := [first, second] }, none)
      | _ => none

/-- Method `KFoldsSplit`: the splitter after the call and the error. -/
def splitter.KFoldsSplit (F : SplitFunctions) (s : splitter) (k : Int) :
    splitter × Option Error :=
  match F.KFoldsSplit s.fileRows k with
  | .error err => (s, some err)
  | .ok splitSets => ({ s with folds := splitSets }, none)

/-- Method `ShuffleKFoldsSplit`: the splitter after the call and the error. -/
def splitter.ShuffleKFoldsSplit (F : SplitFunctions) (s : splitter) (k : Int)
    (seed : String) : splitter × Option Error :=
  match F.ShuffleKFoldsSplit s.fileRows s.idName k seed with
  | .error err => (s, some err)
  | .ok splitSets => ({ s with folds := splitSets }, none)

/-- Method `LooSplit`: the splitter after the call and the error. -/
def splitter.LooSplit (F : SplitFunctions) (s : splitter) : splitter × Option Error :=
  match F.LooSplit s.fileRows s.idName with
  | .error err => (s, some err)
  | .ok splitSets => ({ s with folds := splitSets }, none)

/-- Method `GetAllFolds`. -/
def splitter.GetAllFolds (s : splitter) : List Rows × Option Error :=
  if s.folds.length = 0 then ([], some (Error.msg "the file has not been split"))
  else (s.folds, none)

/-- Method `GetValidSet`. The outer `none` is the run-time panic of
`s.folds[idx]`. -/
def splitter.GetValidSet (s : splitter) (idx : Int) : Option (Rows × Option Error) :=
  let l : Int := s.folds.length
  if l = 0 then some ([], some (Error.msg "the file has not been split"))
  else if idx ≥ l then
    some ([], some (Error.msg "invalid index referring to validation set "))
  else
    match sliceIndex s.folds idx with
    | none => none
    | some fold => some (fold, none)

/-- The loop `for i, fold := range s.folds` of `GetTrainSet`, at position `i`
with the rows collected so far; `none` is the panic of `fold[1:]` on a fold
without rows. -/
def trainSetLoop (idxHO : Int) : List Rows → Int → Rows → Option Rows
  | [], _, trainSet => some trainSet
  | fold :: folds, i, trainSet =>
    if i = idxHO then trainSetLoop idxHO folds (i + 1) trainSet
    else
      match fold with
      | [] => none
      | _ :: dataRows => trainSetLoop idxHO folds (i + 1) (trainSet ++ dataRows)

/-- Method `GetTrainSet`. The outer `none` is a run-time panic: of
`s.folds[idxHO]` for a negative index, of `make` for a negative capacity
`lTrain`, of `s.fileRows[0]` for a file without rows, or of `fold[1:]`. -/
def splitter.GetTrainSet (s : splitter) (idxHO : Int) : Option (Rows × Option Error) :=
  let l : Int := s.folds.length
  if l = 0 then some ([], some (Error.msg "the file has not been split"))
  else if idxHO ≥ l then
    some ([], some (Error.msg "invalid index referring to subset held out"))
  else
    match sliceIndex s.folds idxHO with
    | none => none
    | some foldHO =>
      let lHO : Int := foldHO.length
      let lTrain : Int := (s.fileRows.length : Int) - lHO + 1
      if lTrain < 0 then none
      else
        match s.fileRows with
        | [] => none
        | header :: _ =>
          match trainSetLoop idxHO s.folds 0 [header] with
          | none => none
          | some trainSet => some (trainSet, none)

/-- The loop `for i, s := range r` of `GetPredictSet`, at position `i` with
the cells kept so far: every cell but the one at `idxL` is appended. -/
def dropLabelCell (idxL : Nat) : List String → Nat → List String → List String
  | [], _, newR => newR
  | cell :: r, i, newR =>
    if i = idxL then dropLabelCell idxL r (i + 1) newR
    else dropLabelCell idxL r (i + 1) (newR ++ [cell])

/-- The loop `for _, r := range validSet` of `GetPredictSet` with the rows
built so far; `.error` is the early return on a row without cell `idxL`. -/
def predictFileLoop (idxL : Nat) : Rows → Rows → Except Error Rows
  | [], predictFile => .ok predictFile
  | r :: rs, predictFile =>
    if r.length ≤ idxL then .error (Error.msg "invalid file")
    else predictFileLoop idxL rs (predictFile ++ [dropLabelCell idxL r 0 []])

/-- Method `GetPredictSet`. The outer `none` is a run-time panic: the one of
`GetValidSet`, or that of `validSet[0]` on a fold without rows. -/
def splitter.GetPredictSet (s : splitter) (idx : Int) : Option (Rows × Option Error) :=
  match s.GetValidSet idx with
  | none => none
  | some (validSet, some err) => some (validSet, some err)
  | some (validSet, none) =>
    match validSet with
    | [] => none
    | header :: _ =>
      match labelIndexFrom s.label header 0 with
      | none => some (validSet, none)
      | some idxL =>
        match predictFileLoop idxL validSet [] with
        | .error err => some ([], some err)
        | .ok predictFile => some (predictFile, none)

/-! ## `evaluation/validation/validation.go`: binary classification -/

/-- The struct `binClassValidation`; the embedded `Splitter` is the
`splitter` that `NewSplitter` returns. -/
structure binClassValidation where
  Splitter : splitter
  label : String
  posClass : String
  negClass : String
  threshold : F64
  predResults : GoMap (List F64)
  predClasses : GoMap (List String)

/-- The loop `for _, r := range file[1:]` of `NewBinClassValidation` with the
rows built so far: the cell at `idx` is reset to one of the two class names.
`.error` is the early return on a row without cell `idx`. -/
def resetLabelLoop (idx : Nat) (posClass negClass : String) : Rows → Rows → Except Error Rows
  | [], newFile => .ok newFile
  | r :: rs, newFile =>
    if h : r.length ≤ idx then .error (Error.msg "invalid file")
    else
      let newR := r.take idx
      let newR :=
        if r.get ⟨idx, Nat.lt_of_not_le h⟩ = posClass then newR ++ [posClass]
        else newR ++ [negClass]
      let newR := if r.length > idx + 1 then newR ++ r.drop (idx + 1) else newR
      resetLabelLoop idx posClass negClass rs (newFile ++ [newR])

/-- Function `NewBinClassValidation`; the pair is the Go result
`(BinClassValidation, error)` with `none` for nil. -/
def NewBinClassValidation (file : Rows) (label : String) (idName : String)
    (posClass : String) (negClass : String) (threshold : F64) :
    Option binClassValidation × Option Error :=
  let negClass := if negClass.utf8ByteSize = 0 then "non-" ++ posClass else negClass
  let threshold := if F64.le threshold (F64.fin 0) then F64.fin (1 / 2) else threshold
  match file with
  | [] => (none, some (Error.msg "invalid file"))
  | [_] => (none, some (Error.msg "invalid file"))
  | header :: dataRows =>
    let newFile : Except Error Rows :=
      match labelIndexFrom label header 0 with
      | none => .ok file
      | some idx => resetLabelLoop idx posClass negClass dataRows [header]
    match newFile with
    | .error err => (none, some err)
    | .ok newFile =>
      (some { Splitter := NewSplitter newFile idName label, label := label,
              posClass := posClass, negClass := negClass, threshold := threshold,
              predResults := GoMap.empty, predClasses := GoMap.empty }, none)

/-- The loop `for _, p := range predProbas` of `SetPredictOut` with the
classes collected so far. -/
def classifyLoop (posClass negClass : String) (threshold : F64) :
    List F64 → List String → List String
  | [], classes => classes
  | p :: ps, classes =>
    let c := if F64.le p threshold then negClass else posClass
    classifyLoop posClass negClass threshold ps (classes ++ [c])

/-- Method `SetPredictOut` of `binClassValidation`: the value after the call
and the error; the outer `none` is the panic of `GetValidSet`. -/
def binClassValidation.SetPredictOut (bv : binClassValidation) (idx : Int)
    (predProbas : List F64) : Option (binClassValidation × Option Error) :=
  match bv.Splitter.GetValidSet idx with
  | none => none
  | some (_, some err) => some (bv, some err)
  | some (set, none) =>
    if (set.length : Int) - 1 ≠ predProbas.length then
      some (bv, some (Error.msg
        "there is a mismatch between the number of predicted classes and that of prediction set"))
    else
      let classes := classifyLoop bv.posClass bv.negClass bv.threshold predProbas []
      some ({ bv with predResults := bv.predResults.store idx predProbas,
                      predClasses := bv.predClasses.store idx classes }, none)

/-- Method `GetAllPredictOuts` of `binClassValidation`: a copy of the stored
classes. -/
def binClassValidation.GetAllPredictOuts (bv : binClassValidation) : GoMap (List String) :=
  fun key => bv.predClasses key

/-! ## Sample file and split functions -/

/-- Sample package functions: `Split` cuts the data rows at the given
percentage, the shuffled variants leave the order alone, the fold functions
put data row `j` in fold `j mod k`, and `LooSplit` makes one fold per data
row; every part starts with the header. -/
def sampleSplitFunctions : SplitFunctions :=
  let split : Rows → Int → Except Error (List Rows) := fun fileRows percents =>
    match fileRows with
    | [] => .error (Error.msg "empty file")
    | header :: dataRows =>
      let cut := dataRows.length * percents.toNat / 100
      .ok [header :: dataRows.take cut, header :: dataRows.drop cut]
  let kFolds : Rows → Int → Except Error (List Rows) := fun fileRows k =>
    match fileRows with
    | [] => .error (Error.msg "empty file")
    | header :: dataRows =>
      if k = 5 ∨ k = 10 then
        .ok ((List.range k.toNat).map (fun i =>
          header :: (dataRows.enum.filter (fun p => p.1 % k.toNat = i)).map Prod.snd))
      else .error (Error.msg "k must be 5 or 10")
  let loo : Rows → Except Error (List Rows) := fun fileRows =>
    match fileRows with
    | [] => .error (Error.msg "empty file")
    | header :: dataRows => .ok (dataRows.map (fun r => [header, r]))
  { Split := split
    ShuffleSplit := fun fileRows _ percents _ => split fileRows percents
    KFoldsSplit := kFolds
    ShuffleKFoldsSplit := fun fileRows _ k _ => kFolds fileRows k
    LooSplit := fun fileRows _ => loo fileRows }

/-- A sample file: an id, a label column `y` and one more feature. -/
def sampleFile : Rows :=
  [["id", "y", "x"], ["1", "yes", "0.5"], ["2", "no", "1.5"], ["3", "maybe", "2.5"]]

/-- The sample file in a splitter that has been split, one fold per data row. -/
def sampleSplitter : splitter :=
  (splitter.LooSplit sampleSplitFunctions (NewSplitter sampleFile "id" "y")).1


/-- The value that `NewBinClassValidation` returns for the sample file with
label `y`, positive class `yes`, no name for the negative class and threshold
0.5. -/
def sampleBinClassNew : binClassValidation :=
  ⟨NewSplitter
      [["id", "y", "x"], ["1", "yes", "0.5"], ["2", "non-yes", "1.5"], ["3", "non-yes", "2.5"]]
      "id" "y",
    "y", "yes", "non-yes", F64.fin (1 / 2), GoMap.empty, GoMap.empty⟩

/-- The sample validation after its promoted method `LooSplit`: one fold per
data row. -/
def sampleBinClass : binClassValidation :=
  { sampleBinClassNew with
    Splitter := (sampleBinClassNew.Splitter.LooSplit sampleSplitFunctions).1 }

/-- Group parameters on which a generator of finite order can be evaluated:
both groups are the integers modulo 7 with generator 1, the scalar order is
7, the hash is the identity and a point `p` has the coordinates `(p, 0)`. -/
def sampleCyclicParams : PairingParams (ZMod 7) (ZMod 7) where
  g1Gen := 1
  g2Gen := 1
  order := 7
  sha256 := fun b => b
  XString := fun p => decDigits p.val
  YString := fun _ => ['0']

/-- A sample `strconv.ParseFloat`: it reads the numbers that occur in the
sample file and refuses every other string. -/
def sampleParseFloat (s : String) : Except String F64 :=
  if s = "1" then .ok (F64.fin 1)
  else if s = "2" then .ok (F64.fin 2)
  else if s = "3" then .ok (F64.fin 3)
  else if s = "0.5" then .ok (F64.fin (1 / 2))
  else if s = "1.5" then .ok (F64.fin (3 / 2))
  else if s = "2.5" then .ok (F64.fin (5 / 2))
  else .error "invalid syntax"

/-! ## `evaluation/validation/validation.go`: regression -/

/-- The struct `regressionValidation`; the embedded `Splitter` is the
`splitter` that `NewSplitter` returns. -/
structure regressionValidation where
  Splitter : splitter
  label : String
  predResults : GoMap (List F64)

/-- Function `NewRegressionValidation`; the pair is the Go result
`(RegressionValidation, error)` with `none` for nil. -/
def NewRegressionValidation (file : Rows) (label : String) (idName : String) :
    Option regressionValidation × Option Error :=
  (some { Splitter := NewSplitter file idName label, label := label,
          predResults := GoMap.empty }, none)

/-- Method `SetPredictOut` of `regressionValidation`: the value after the call
and the error; the outer `none` is the panic of `GetValidSet`. -/
def regressionValidation.SetPredictOut (rv : regressionValidation) (idx : Int)
    (yPred : List F64) : Option (regressionValidation × Option Error) :=
  match rv.Splitter.GetValidSet idx with
  | none => none
  | some (_, some err) => some (rv, some err)
  | some (set, none) =>
    if (set.length : Int) - 1 ≠ yPred.length then
      some (rv, some (Error.msg
        "there is a mismatch between the number of predicted values and that of prediction set"))
    else
      some ({ rv with predResults := rv.predResults.store idx yPred }, none)

/-- Method `GetAllPredictOuts` of `regressionValidation`: a copy of the stored
predictions. -/
def regressionValidation.GetAllPredictOuts (rv : regressionValidation) : GoMap (List F64) :=
  fun key => rv.predResults key

/-- The sample file under regression validation, after the promoted method
`LooSplit`: one fold per data row. -/
def sampleRegression : regressionValidation :=
  { Splitter := sampleSplitter, label := "y", predResults := GoMap.empty }

/-! ## setup.go: the tag and the caller's buffer -/

/-- A Go `[]byte` with the part of its backing array that `append` can reach:
`data` are the bytes of the slice, up to its length, and `spare` the bytes of
the backing array between the length and the capacity. -/
structure ContentBuffer where
  data : Octets
  spare : Octets

/-- The built-in `append(s, t...)` on a `[]byte`: the bytes of the resulting
slice, and the spare bytes of the backing array of `s` after the call. When
the capacity suffices `append` re-uses the backing array and writes `t` over
the first spare bytes; otherwise it allocates a new array and leaves the old
one as it was. -/
def goAppend (s : ContentBuffer) (t : Octets) : Octets × Octets :=
  if t.length ≤ s.spare.length then (s.data ++ t, t ++ s.spare.drop t.length)
  else (s.data ++ t, s.spare)

/-- Function `CalculateSigmaI` of setup.go with the memory it touches besides
its arguments: `spare` are the bytes of the backing array of `param.Content`
between its length and its capacity before the call, and the second component
of the result are those bytes after the call. The one statement that reaches
them is `append(param.Content, rj...)`. -/
def CalculateSigmaI.withBuffer {G1 G2 : Type} [AddCommGroup G1] (P : PairingParams G1 G2)
    (param : CalculateSigmaIParams) (spare : Octets) : Except Error G1 × Octets :=
  match concatBigInt [param.RandomV, param.Index] P.order with
  | .error err => (.error err, spare)
  | .ok vi =>
    let hvi := hashToG1 P vi
    let rj := genRandNumByRound P param.Round param.Privkey.X
    let appended := goAppend ⟨param.Content, spare⟩ rj
    let hashMi := P.sha256 appended.1
    let hashMiInt := BigInt.SetBytes hashMi
    let mig1 := hashMiInt • P.g1Gen
    let miug1 := param.RandomU • mig1
    let add := hvi + miug1
    let sigmaI := param.Privkey.X • add
    (.ok sigmaI, appended.2)

/-! # Properties -/

/-! ## Decimal strings -/

theorem digitVal_digitChar (d : Nat) (hd : d < 10) : digitVal (Nat.digitChar d) = some d := by
  interval_cases d <;> rfl

theorem scanDigits_append (s t : List Char) (acc : Nat) :
    scanDigits (s ++ t) acc = (scanDigits s acc).bind (scanDigits t) := by
  induction s generalizing acc with
  | nil => simp [scanDigits]
  | cons c cs ih =>
    simp only [List.cons_append, scanDigits]
    cases digitVal c with
    | none => simp
    | some d => simpa using ih (acc * 10 + d)

theorem scanDigits_map_digitChar (ds : List Nat) (h : ∀ d ∈ ds, d < 10) (acc : Nat) :
    scanDigits (ds.map Nat.digitChar) acc = some (ds.foldl (fun a d => a * 10 + d) acc) := by
  induction ds generalizing acc with
  | nil => simp [scanDigits]
  | cons d ds ih =>
    have hd : d < 10 := h d (List.mem_cons_self _ _)
    simp only [List.map_cons, scanDigits, digitVal_digitChar d hd, List.foldl_cons]
    exact ih (fun x hx => h x (List.mem_cons_of_mem _ hx)) _

theorem foldl_reverse_digits (ds : List Nat) (acc : Nat) :
    (ds.reverse).foldl (fun a d => a * 10 + d) acc = acc * 10 ^ ds.length + Nat.ofDigits 10 ds := by
  induction ds generalizing acc with
  | nil => simp
  | cons d ds ih =>
    simp only [List.reverse_cons, List.foldl_append, List.foldl_cons, List.foldl_nil, ih,
      List.length_cons, Nat.ofDigits_cons]
    ring

theorem scanDigits_decDigits (n acc : Nat) :
    scanDigits (decDigits n) acc = some (acc * 10 ^ (decDigits n).length + n) := by
  unfold decDigits
  split
  · subst n; simp [scanDigits, digitVal]
  · rw [scanDigits_map_digitChar _
      (fun d hd => Nat.digits_lt_base (by norm_num) (List.mem_reverse.mp hd)),
      foldl_reverse_digits, Nat.ofDigits_digits]
    simp

theorem foldl_eq_of_scanDigits (s : List Char) (acc v : Nat) (h : scanDigits s acc = some v) :
    s.foldl (fun a c => a * 10 + (c.toNat - '0'.toNat)) acc = v := by
  induction s generalizing acc with
  | nil => simpa [scanDigits] using h
  | cons c cs ih =>
    simp only [scanDigits] at h
    cases hc : digitVal c with
    | none => simp [hc] at h
    | some d =>
      simp only [hc] at h
      have hd : c.toNat - '0'.toNat = d := by
        unfold digitVal at hc
        split at hc
        · exact Option.some.inj hc
        · exact absurd hc (by simp)
      simp only [List.foldl_cons, hd]
      exact ih _ h

theorem decDigits_ne_nil (n : Nat) : decDigits n ≠ [] := by
  unfold decDigits
  split
  · simp
  · rename_i h
    simp [Nat.digits_ne_nil_iff_ne_zero, h]

theorem decDigits_head_not_sign (n : Nat) (c : Char) (r : List Char)
    (h : decDigits n = c :: r) : c ≠ '-' ∧ c ≠ '+' := by
  have hs := scanDigits_decDigits n 0
  rw [h] at hs
  simp only [scanDigits] at hs
  have hm : digitVal '-' = none := by decide
  have hp : digitVal '+' = none := by decide
  constructor
  · rintro rfl
    simp [hm] at hs
  · rintro rfl
    simp [hp] at hs

theorem decimalValue_decDigits (n : Nat) : decimalValue (decDigits n) = n := by
  have h := foldl_eq_of_scanDigits _ _ _ (scanDigits_decDigits n 0)
  simpa [decimalValue] using h

theorem foldl_decimal_acc (t : List Char) (acc : Nat) :
    t.foldl (fun a c => a * 10 + (c.toNat - '0'.toNat)) acc
      = acc * 10 ^ t.length + decimalValue t := by
  unfold decimalValue
  induction t generalizing acc with
  | nil => simp
  | cons c cs ih =>
    simp only [List.foldl_cons, List.length_cons]
    rw [ih, ih (0 * 10 + _)]
    ring

theorem decimalValue_append (s t : List Char) :
    decimalValue (s ++ t) = decimalValue s * 10 ^ t.length + decimalValue t := by
  have h : decimalValue (s ++ t)
      = t.foldl (fun a c => a * 10 + (c.toNat - '0'.toNat)) (decimalValue s) := by
    simp [decimalValue, List.foldl_append]
  rw [h, foldl_decimal_acc]

theorem String_of_nonneg (x : Int) (hx : 0 ≤ x) : BigInt.String x = decDigits x.toNat := by
  unfold BigInt.String
  rw [if_neg (not_lt.mpr hx)]
  congr 1
  omega

/-- Reading back the concatenation of two decimal representations. -/
theorem SetString_decDigits_append (a b : Nat) :
    BigInt.SetString (decDigits a ++ decDigits b)
      = some (((a * 10 ^ (decDigits b).length + b : Nat) : Int)) := by
  have hscan : scanDigits (decDigits a ++ decDigits b) 0
      = some (a * 10 ^ (decDigits b).length + b) := by
    rw [scanDigits_append, scanDigits_decDigits]
    simp [scanDigits_decDigits]
  rcases hda : decDigits a with _ | ⟨c, r⟩
  · exact absurd hda (decDigits_ne_nil a)
  · obtain ⟨h1, h2⟩ := decDigits_head_not_sign a c r hda
    rw [hda] at hscan
    simp only [List.cons_append] at hscan ⊢
    simp only [BigInt.SetString, if_neg h1, if_neg h2, hscan, Option.map_some', Int.ofNat_eq_coe]

/-- One turn of the loop on a reduced accumulator and a non-negative element. -/
theorem concatBigIntStep_nonneg (m : Int) (hm : 0 < m) (p : Nat) (n : Int) (hn : 0 ≤ n) :
    concatBigIntStep m ((p : Int) % m) n
      = .ok (((p * 10 ^ (BigInt.String n).length + n.toNat : Nat) : Int) % m) := by
  have hr : 0 ≤ (p : Int) % m := Int.emod_nonneg _ (ne_of_gt hm)
  unfold concatBigIntStep
  simp only [String_of_nonneg _ hr, String_of_nonneg _ hn, SetString_decDigits_append]
  congr 1
  push_cast
  rw [Int.toNat_of_nonneg hr]
  exact ((Int.mod_modEq (p : Int) m).mul_right _).add_right _

/-- The loop of `concatBigInt` computes the positional value of the
concatenated decimal strings, up to the modulus. -/
theorem concatBigIntFrom_nonneg (m : Int) (hm : 0 < m) (l : List Int) (hl : ∀ n ∈ l, 0 ≤ n)
    (p : Nat) :
    concatBigIntFrom m l ((p : Int) % m)
      = .ok (((p * 10 ^ (l.flatMap BigInt.String).length
                + decimalValue (l.flatMap BigInt.String) : Nat) : Int) % m) := by
  induction l generalizing p with
  | nil => simp [concatBigIntFrom, decimalValue]
  | cons n t ih =>
    have hn : 0 ≤ n := hl n (List.mem_cons_self _ _)
    simp only [concatBigIntFrom, concatBigIntStep_nonneg m hm p n hn]
    rw [ih (fun x hx => hl x (List.mem_cons_of_mem _ hx))]
    congr 2
    simp only [List.flatMap_cons, List.length_append, decimalValue_append,
      String_of_nonneg n hn, decimalValue_decDigits]
    ring_nf

theorem scanDigits_flatMap_String (l : List Int) (hl : ∀ n ∈ l, 0 ≤ n) (acc : Nat) :
    scanDigits (l.flatMap BigInt.String) acc
      = some (acc * 10 ^ (l.flatMap BigInt.String).length
          + decimalValue (l.flatMap BigInt.String)) := by
  induction l generalizing acc with
  | nil => simp [scanDigits, decimalValue]
  | cons n t ih =>
    have hn : 0 ≤ n := hl n (List.mem_cons_self _ _)
    simp only [List.flatMap_cons, scanDigits_append, String_of_nonneg n hn,
      scanDigits_decDigits, Option.some_bind, List.length_append, decimalValue_append,
      decimalValue_decDigits]
    rw [← String_of_nonneg n hn, ih (fun x hx => hl x (List.mem_cons_of_mem _ hx))]
    congr 1
    ring

/-- The concatenation of the decimal representations of a non-empty list of
non-negative integers reads back, with `SetString`, as its positional value. -/
theorem SetString_flatMap_String (l : List Int) (hl : ∀ n ∈ l, 0 ≤ n) (hne : l ≠ []) :
    BigInt.SetString (l.flatMap BigInt.String)
      = some ((decimalValue (l.flatMap BigInt.String) : Nat) : Int) := by
  have hscan := scanDigits_flatMap_String l hl 0
  rcases l with _ | ⟨n, t⟩
  · exact absurd rfl hne
  · have hn : 0 ≤ n := hl n (List.mem_cons_self _ _)
    rcases hda : decDigits n.toNat with _ | ⟨c, r⟩
    · exact absurd hda (decDigits_ne_nil _)
    · obtain ⟨h1, h2⟩ := decDigits_head_not_sign _ c r hda
      simp only [List.flatMap_cons, String_of_nonneg n hn, hda, List.cons_append] at hscan ⊢
      simp only [BigInt.SetString, if_neg h1, if_neg h2, hscan, Option.map_some',
        Int.ofNat_eq_coe]
      simp

/-- The value `concatBigInt` returns on non-negative elements. -/
theorem concatBigInt_decimal_concat_aux (l : List Int) (m : Int)
    (hl : ∀ n ∈ l, 0 ≤ n) (hm : 0 < m) :
    concatBigInt l m = .ok (((decimalValue (l.flatMap BigInt.String) : Nat) : Int) % m) := by
  have h := concatBigIntFrom_nonneg m hm l hl 0
  simpa [concatBigInt] using h

/-- C3: for a list of non-negative integers and a positive modulus,
`concatBigInt` returns the value of the concatenated decimal representations
reduced modulo the modulus, although it reduces after every element; the
result lies in `[0, m)`, the concatenation of a non-empty list reads back as
that value, and the empty list gives 0. -/
theorem concatBigInt_decimal_concat (l : List Int) (m : Int)
    (hl : ∀ n ∈ l, 0 ≤ n) (hm : 0 < m) :
    concatBigInt l m = .ok (((decimalValue (l.flatMap BigInt.String) : Nat) : Int) % m)
    ∧ (l ≠ [] → BigInt.SetString (l.flatMap BigInt.String)
          = some ((decimalValue (l.flatMap BigInt.String) : Nat) : Int))
    ∧ 0 ≤ ((decimalValue (l.flatMap BigInt.String) : Nat) : Int) % m
    ∧ ((decimalValue (l.flatMap BigInt.String) : Nat) : Int) % m < m
    ∧ concatBigInt [] m = .ok 0 := by
  exact ⟨concatBigInt_decimal_concat_aux l m hl hm, SetString_flatMap_String l hl,
    Int.emod_nonneg _ (ne_of_gt hm), Int.emod_lt_of_pos _ hm, rfl⟩

/-- C3 at the list `[12, 3]` and the modulus 7: the result is `123 mod 7`. -/
theorem concatBigInt_decimal_concat_witness :
    (∀ n ∈ [(12 : Int), 3], 0 ≤ n) ∧ (0 : Int) < 7
    ∧ concatBigInt [12, 3] 7
        = .ok (((decimalValue ([(12 : Int), 3].flatMap BigInt.String) : Nat) : Int) % 7) :=
  ⟨by decide, by decide,
    (concatBigInt_decimal_concat [12, 3] 7 (by decide) (by decide)).1⟩

/-! ## Tags and keys -/

/-- A bilinear map moves an integer scalar from one argument to the other. -/
theorem IsBilinear.smul_swap {G1 G2 GT : Type} [AddCommGroup G1] [AddCommGroup G2]
    [AddCommGroup GT] {e : G1 → G2 → GT} (he : IsBilinear e) (s : Int) (p : G1) (q : G2) :
    e (s • p) q = e p (s • q) := by
  have h1 : e (s • p) q = s • e p q :=
    map_zsmul (AddMonoidHom.mk' (fun a => e a q) (fun a b => he.add_left a b q)) s p
  have h2 : e p (s • q) = s • e p q :=
    map_zsmul (AddMonoidHom.mk' (fun b => e p b) (fun a b => he.add_right p a b)) s q
  rw [h1, h2]

/-- The concatenation step of `CalculateSigmaI` succeeds on non-negative
`RandomV` and `Index`. -/
theorem concatBigInt_pair (m v i : Int) (hm : 0 < m) (hv : 0 ≤ v) (hi : 0 ≤ i) :
    concatBigInt [v, i] m
      = .ok (((decimalValue (BigInt.String v ++ BigInt.String i) : Nat) : Int) % m) := by
  have hl : ∀ n ∈ [v, i], 0 ≤ n := by
    intro n hn
    simp only [List.mem_cons, List.mem_singleton, List.not_mem_nil, or_false] at hn
    rcases hn with rfl | rfl <;> assumption
  have h := (concatBigInt_decimal_concat_aux [v, i] m hl hm)
  simpa using h

/-- The tag of a segment, written out. -/
theorem CalculateSigmaI_eq {G1 G2 : Type} [AddCommGroup G1] (P : PairingParams G1 G2)
    (param : CalculateSigmaIParams) (hord : 0 < P.order) (hV : 0 ≤ param.RandomV) (hI : 0 ≤ param.Index) :
    CalculateSigmaI P param
      = .ok (param.Privkey.X •
          (hashToG1 P (((decimalValue (BigInt.String param.RandomV
              ++ BigInt.String param.Index) : Nat) : Int) % P.order)
            + param.RandomU •
                (BigInt.SetBytes (P.sha256 (param.Content
                    ++ genRandNumByRound P param.Round param.Privkey.X)) • P.g1Gen))) := by
  unfold CalculateSigmaI
  rw [concatBigInt_pair P.order _ _ hord hV hI]

/-- C2: for non-negative `RandomV` and `Index`, `CalculateSigmaI` returns
`sk * (hashToG1(concatBigInt([RandomV, Index], order)) + RandomU * (SHA256(Content || r_j) * g1))`,
where `r_j` is the big-endian bytes of `SHA256(decimal(X) ++ decimal(Y)) mod order`
for the point `(X, Y) = (Round * sk) * g1`. -/
theorem CalculateSigmaI_formula {G1 G2 : Type} [AddCommGroup G1]
    (P : PairingParams G1 G2) (param : CalculateSigmaIParams)
    (hord : 0 < P.order) (hV : 0 ≤ param.RandomV) (hI : 0 ≤ param.Index) :
    ∃ vi : Int, concatBigInt [param.RandomV, param.Index] P.order = .ok vi ∧
      CalculateSigmaI P param
        = .ok (param.Privkey.X •
            (hashToG1 P vi
              + param.RandomU •
                (BigInt.SetBytes (P.sha256 (param.Content ++
                    BigInt.Bytes
                      (BigInt.SetBytes (P.sha256 (stringBytes
                          (P.XString ((param.Round * param.Privkey.X) • P.g1Gen)
                            ++ P.YString ((param.Round * param.Privkey.X) • P.g1Gen))))
                        % P.order)))
                  • P.g1Gen))) :=
  ⟨_, concatBigInt_pair P.order _ _ hord hV hI, CalculateSigmaI_eq P param hord hV hI⟩

/-- C4: when `GenKeyPair` succeeds the public point is the private scalar
times the generator of G2, and `GenKeyPair` returns an error, with both keys
nil, exactly when `RandomWithinOrder` returns an error. -/
theorem GenKeyPair_spec {G1 G2 : Type} [AddCommGroup G2]
    (P : PairingParams G1 G2) (entropy : Except Error Nat) :
    (∀ sk pk, (GenKeyPair P entropy).1 = some sk → (GenKeyPair P entropy).2.1 = some pk →
        pk.P = sk.X • P.g2Gen)
    ∧ (∀ err, (GenKeyPair P entropy).2.2 = some err ↔ RandomWithinOrder P entropy = .error err)
    ∧ ((GenKeyPair P entropy).2.2 ≠ none →
        (GenKeyPair P entropy).1 = none ∧ (GenKeyPair P entropy).2.1 = none)
    ∧ ((GenKeyPair P entropy).2.2 = none →
        ∃ x, RandomWithinOrder P entropy = .ok x ∧
          (GenKeyPair P entropy).1 = some { X := x } ∧
          (GenKeyPair P entropy).2.1 = some { P := x • P.g2Gen }) := by
  unfold GenKeyPair
  cases h : RandomWithinOrder P entropy with
  | error e => simp
  | ok x =>
    refine ⟨?_, by simp, by simp, by simp⟩
    intro sk pk h1 h2
    simp only [Option.some.injEq] at h1 h2
    subst h1 h2
    rfl

/-- The weighted sum of tags is the private scalar times the weighted sums of
the two summands of the tags. -/
theorem sum_weighted_tags {G1 : Type} [AddCommGroup G1] (segs : List ChallengedSegment)
    (k : Int) (h m : ChallengedSegment → G1) :
    (segs.map (fun s => s.coeff • (k • (h s + m s)))).sum
      = k • ((segs.map (fun s => s.coeff • h s)).sum
          + (segs.map (fun s => s.coeff • m s)).sum) := by
  induction segs with
  | nil => simp
  | cons s t ih =>
    rw [List.map_cons, List.sum_cons, ih, List.map_cons, List.sum_cons, List.map_cons,
      List.sum_cons, smul_comm s.coeff k]
    simp only [smul_add]
    abel

/-- C1: for every private scalar `sk` with public key `pk = sk * g2`, every
list of segments whose tags are computed by `CalculateSigmaI` with the same
`RandomV`, `RandomU`, `Round` and `sk`, and every choice of challenge
coefficients, the tags exist and the verification identity holds:
`pairing(sum v_i * sigma_i, g2) = pairing(sum v_i * hashToG1(concatBigInt([RandomV, index_i], order))
+ sum v_i * (RandomU * (SHA256(content_i || r_j) * g1)), pk)`. -/
theorem verification_identity {G1 G2 GT : Type} [AddCommGroup G1] [AddCommGroup G2]
    [AddCommGroup GT] (P : PairingParams G1 G2) (e : G1 → G2 → GT) (he : IsBilinear e)
    (hord : 0 < P.order) (sk : PrivateKey) (pk : PublicKey G2) (hpk : pk.P = sk.X • P.g2Gen)
    (V U round : Int) (hV : 0 ≤ V)
    (segs : List ChallengedSegment) (hI : ∀ s ∈ segs, 0 ≤ s.index) :
    ∃ (sigma : ChallengedSegment → G1) (vi : ChallengedSegment → Int),
      (∀ s ∈ segs,
        CalculateSigmaI P { Content := s.content, Index := s.index, RandomV := V,
                            RandomU := U, Privkey := sk, Round := round } = .ok (sigma s)
        ∧ concatBigInt [V, s.index] P.order = .ok (vi s))
      ∧ e ((segs.map (fun s => s.coeff • sigma s)).sum) P.g2Gen
          = e ((segs.map (fun s => s.coeff • hashToG1 P (vi s))).sum
                + (segs.map (fun s => s.coeff •
                    (U • (BigInt.SetBytes (P.sha256 (s.content
                        ++ genRandNumByRound P round sk.X)) • P.g1Gen)))).sum) pk.P := by
  refine ⟨fun s => sk.X •
      (hashToG1 P (((decimalValue (BigInt.String V ++ BigInt.String s.index) : Nat) : Int)
          % P.order)
        + U • (BigInt.SetBytes (P.sha256 (s.content ++ genRandNumByRound P round sk.X))
            • P.g1Gen)),
    fun s => ((decimalValue (BigInt.String V ++ BigInt.String s.index) : Nat) : Int) % P.order,
    ?_, ?_⟩
  · intro s hs
    exact ⟨CalculateSigmaI_eq P _ hord hV (hI s hs), concatBigInt_pair P.order _ _ hord hV (hI s hs)⟩
  · rw [sum_weighted_tags, he.smul_swap, hpk]

theorem samplePairing_bilinear : IsBilinear samplePairing :=
  ⟨fun a b q => by simp [samplePairing, add_mul], fun p a b => by simp [samplePairing, mul_add]⟩

theorem sampleParams_order_pos : 0 < sampleParams.order := by
  simp [sampleParams]

theorem sampleSegments_index_nonneg : ∀ s ∈ sampleSegments, 0 ≤ s.index := by
  intro s hs
  simp only [sampleSegments, List.mem_cons, List.mem_singleton, List.not_mem_nil, or_false] at hs
  rcases hs with rfl | rfl <;> decide

/-- C1 at the scenario of the specification: contents "alpha" and "beta",
indices 1 and 2, coefficients 3 and 5, with private scalar 5, `RandomV = 7`,
`RandomU = 3` and round 2. -/
theorem verification_identity_witness :
    IsBilinear samplePairing ∧ 0 < sampleParams.order
    ∧ ({ P := 5 } : PublicKey Int).P = ({ X := 5 } : PrivateKey).X • sampleParams.g2Gen
    ∧ (0 : Int) ≤ 7 ∧ (∀ s ∈ sampleSegments, 0 ≤ s.index)
    ∧ ∃ (sigma : ChallengedSegment → Int) (vi : ChallengedSegment → Int),
      (∀ s ∈ sampleSegments,
        CalculateSigmaI sampleParams ⟨s.content, s.index, 7, 3, ⟨5⟩, 2⟩ = .ok (sigma s)
        ∧ concatBigInt [7, s.index] sampleParams.order = .ok (vi s))
      ∧ samplePairing ((sampleSegments.map (fun s => s.coeff • sigma s)).sum) sampleParams.g2Gen
          = samplePairing
              ((sampleSegments.map (fun s => s.coeff • hashToG1 sampleParams (vi s))).sum
                + (sampleSegments.map (fun s => s.coeff •
                    ((3 : Int) • (BigInt.SetBytes (sampleParams.sha256 (s.content
                        ++ genRandNumByRound sampleParams 2 5)) • sampleParams.g1Gen)))).sum)
              ({ P := 5 } : PublicKey Int).P :=
  ⟨samplePairing_bilinear, sampleParams_order_pos, by simp [sampleParams], by decide,
    sampleSegments_index_nonneg,
    verification_identity sampleParams samplePairing samplePairing_bilinear
      sampleParams_order_pos { X := 5 } { P := 5 } (by simp [sampleParams]) 7 3 2 (by decide)
      sampleSegments sampleSegments_index_nonneg⟩

/-- C2 at `sampleSigmaParams`. -/
theorem CalculateSigmaI_formula_witness :
    0 < sampleParams.order ∧ 0 ≤ sampleSigmaParams.RandomV ∧ 0 ≤ sampleSigmaParams.Index
    ∧ ∃ vi : Int,
      concatBigInt [sampleSigmaParams.RandomV, sampleSigmaParams.Index] sampleParams.order
        = .ok vi ∧
      CalculateSigmaI sampleParams sampleSigmaParams
        = .ok (sampleSigmaParams.Privkey.X •
            (hashToG1 sampleParams vi
              + sampleSigmaParams.RandomU •
                (BigInt.SetBytes (sampleParams.sha256 (sampleSigmaParams.Content ++
                    BigInt.Bytes
                      (BigInt.SetBytes (sampleParams.sha256 (stringBytes
                          (sampleParams.XString
                              ((sampleSigmaParams.Round * sampleSigmaParams.Privkey.X)
                                • sampleParams.g1Gen)
                            ++ sampleParams.YString
                              ((sampleSigmaParams.Round * sampleSigmaParams.Privkey.X)
                                • sampleParams.g1Gen))))
                        % sampleParams.order)))
                  • sampleParams.g1Gen))) :=
  ⟨sampleParams_order_pos, by decide, by decide,
    CalculateSigmaI_formula sampleParams sampleSigmaParams sampleParams_order_pos
      (by decide) (by decide)⟩

/-- C4 at the entropy value 5: the key pair is `(5, 5 * g2)`. -/
theorem GenKeyPair_spec_witness :
    (GenKeyPair sampleParams (.ok 5)).1 = some { X := 5 }
    ∧ (GenKeyPair sampleParams (.ok 5)).2.1 = some { P := 5 }
    ∧ ({ P := 5 } : PublicKey Int).P = ({ X := 5 } : PrivateKey).X • sampleParams.g2Gen :=
  ⟨by simp [GenKeyPair, RandomWithinOrder, sampleParams],
    by simp [GenKeyPair, RandomWithinOrder, sampleParams],
    (GenKeyPair_spec sampleParams (.ok 5)).1 { X := 5 } { P := 5 }
      (by simp [GenKeyPair, RandomWithinOrder, sampleParams])
      (by simp [GenKeyPair, RandomWithinOrder, sampleParams])⟩

/-! ## Splitting a secret -/

theorem lookup_of_mem_of_nodup_keys (l : List (Int × Int)) (k v : Int)
    (hnd : (l.map Prod.fst).Nodup) (hm : (k, v) ∈ l) : l.lookup k = some v := by
  induction l with
  | nil => simp at hm
  | cons p t ih =>
    obtain ⟨a, b⟩ := p
    simp only [List.map_cons, List.nodup_cons, List.mem_map, not_exists, not_and] at hnd
    simp only [List.mem_cons, Prod.mk.injEq] at hm
    rcases hm with ⟨rfl, rfl⟩ | hm
    · simp [List.lookup]
    · have hne : k ≠ a := fun hka => hnd.1 (k, v) hm (by simp [hka])
      rw [List.lookup_cons]
      have : (k == a) = false := by simpa using hne
      simp only [this]
      exact ih hnd.2 hm

theorem evaluateShares_keys (prime : Int) (poly : List Int) (n : Int) :
    (evaluateShares prime poly n).map Prod.fst
      = (List.range n.toNat).map (fun i => ((i : Nat) : Int) + 1) := by
  simp [evaluateShares, List.map_map, Function.comp_def]

theorem evaluateShares_mem (prime : Int) (poly : List Int) (n : Int) (p : Int × Int) :
    p ∈ evaluateShares prime poly n
      ↔ 1 ≤ p.1 ∧ p.1 ≤ n ∧ p.2 = BigPolynomial.Evaluate prime poly p.1 := by
  simp only [evaluateShares, List.mem_map, List.mem_range]
  constructor
  · rintro ⟨i, hi, rfl⟩
    refine ⟨by omega, by omega, rfl⟩
  · rintro ⟨h1, h2, h3⟩
    refine ⟨(p.1 - 1).toNat, by omega, ?_⟩
    have : (((p.1 - 1).toNat : Nat) : Int) + 1 = p.1 := by omega
    rw [this, ← h3]

theorem evaluateShares_keys_nodup (prime : Int) (poly : List Int) (n : Int) :
    ((evaluateShares prime poly n).map Prod.fst).Nodup := by
  rw [evaluateShares_keys]
  exact (List.nodup_range _).map (fun a b h => by simpa using h)

theorem evaluateShares_nodup (prime : Int) (poly : List Int) (n : Int) :
    (evaluateShares prime poly n).Nodup :=
  (evaluateShares_keys_nodup prime poly n).of_map _

/-- What a successful `ComplexSecretToPolynomial` has checked and returns. -/
theorem ComplexSecretToPolynomial_ok {Pt : Type} (n t : Int) (secret : Octets)
    (curve : Curve Pt) (entropy : Except Error (Nat → Nat)) (poly : List Int)
    (h : ComplexSecretToPolynomial n t secret curve entropy = .ok poly) :
    2 ≤ n ∧ t ≤ n ∧ ∃ draw, entropy = .ok draw ∧
      poly = BigInt.SetBytes secret
        :: (List.range (t - 1).toNat).map (fun i => ((draw i : Nat) : Int) % curve.N) := by
  unfold ComplexSecretToPolynomial at h
  split at h
  · exact absurd h (by simp)
  · split at h
    · exact absurd h (by simp)
    · rename_i h1 h2
      refine ⟨by omega, by omega, ?_⟩
      cases entropy with
      | error e => simp [BigPolynomial.RandomGenerate] at h
      | ok draw =>
        refine ⟨draw, rfl, ?_⟩
        simp only [BigPolynomial.RandomGenerate, Except.ok.injEq] at h
        exact h.symm

/-- A successful `ComplexSecretSplit` is the evaluation, at `1..n`, of the
polynomial `ComplexSecretToPolynomial` generated. -/
theorem ComplexSecretSplit_ok {Pt : Type} (n t : Int) (secret : Octets)
    (curve : Curve Pt) (entropy : Except Error (Nat → Nat))
    (h : (ComplexSecretSplit n t secret curve entropy).2 = none) :
    ∃ poly, ComplexSecretToPolynomial n t secret curve entropy = .ok poly ∧
      ComplexSecretSplit n t secret curve entropy
        = (some (evaluateShares curve.N poly n), none) := by
  unfold ComplexSecretSplit at h ⊢
  cases hp : ComplexSecretToPolynomial n t secret curve entropy with
  | error e => simp [hp] at h
  | ok poly => exact ⟨poly, rfl, rfl⟩

/-- C6: a successful `ComplexSecretSplit(n, t, secret, curve)` returns a map
with exactly the keys `1, ..., n` (`n` entries, every index at least 1, no
key 0), and the value stored at every `x` in `1..n` is the evaluation at `x`,
modulo the curve order, of the polynomial that was generated. -/
theorem ComplexSecretSplit_shares {Pt : Type} (n t : Int) (secret : Octets)
    (curve : Curve Pt) (entropy : Except Error (Nat → Nat))
    (h : (ComplexSecretSplit n t secret curve entropy).2 = none) :
    ∃ poly shares, ComplexSecretToPolynomial n t secret curve entropy = .ok poly
      ∧ ComplexSecretSplit n t secret curve entropy = (some shares, none)
      ∧ shares.map Prod.fst = (List.range n.toNat).map (fun i => ((i : Nat) : Int) + 1)
      ∧ (shares.map Prod.fst).Nodup
      ∧ (shares.length : Int) = n
      ∧ (∀ x : Int, x ∈ shares.map Prod.fst ↔ 1 ≤ x ∧ x ≤ n)
      ∧ (0 : Int) ∉ shares.map Prod.fst
      ∧ (∀ x : Int, 1 ≤ x → x ≤ n →
          shares.lookup x = some (BigPolynomial.Evaluate curve.N poly x)) := by
  obtain ⟨poly, hp, hs⟩ := ComplexSecretSplit_ok n t secret curve entropy h
  have hn : 2 ≤ n := (ComplexSecretToPolynomial_ok n t secret curve entropy poly hp).1
  have hmem : ∀ x : Int, x ∈ (evaluateShares curve.N poly n).map Prod.fst ↔ 1 ≤ x ∧ x ≤ n := by
    intro x
    simp only [List.mem_map, evaluateShares_mem]
    constructor
    · rintro ⟨p, ⟨h1, h2, _⟩, rfl⟩
      exact ⟨h1, h2⟩
    · rintro ⟨h1, h2⟩
      exact ⟨(x, BigPolynomial.Evaluate curve.N poly x), ⟨h1, h2, rfl⟩, rfl⟩
  refine ⟨poly, _, hp, hs, evaluateShares_keys _ _ _, evaluateShares_keys_nodup _ _ _, ?_,
    hmem, ?_, ?_⟩
  · simp [evaluateShares]
    omega
  · intro h0
    have := (hmem 0).mp h0
    omega
  · intro x h1 h2
    have hx : (x, BigPolynomial.Evaluate curve.N poly x) ∈ evaluateShares curve.N poly n :=
      (evaluateShares_mem _ _ _ _).mpr ⟨h1, h2, rfl⟩
    exact lookup_of_mem_of_nodup_keys _ _ _ (evaluateShares_keys_nodup curve.N poly n) hx

/-- C6 at `n = 5`, `t = 3`, the secret `[1, 0]` and the sample curve. -/
theorem ComplexSecretSplit_shares_witness :
    (ComplexSecretSplit 5 3 [1, 0] sampleP256 sampleEntropy).2 = none
    ∧ ∃ poly shares, ComplexSecretToPolynomial 5 3 [1, 0] sampleP256 sampleEntropy = .ok poly
      ∧ ComplexSecretSplit 5 3 [1, 0] sampleP256 sampleEntropy = (some shares, none)
      ∧ shares.map Prod.fst = (List.range (5 : Int).toNat).map (fun i => ((i : Nat) : Int) + 1)
      ∧ (shares.map Prod.fst).Nodup
      ∧ (shares.length : Int) = 5
      ∧ (∀ x : Int, x ∈ shares.map Prod.fst ↔ 1 ≤ x ∧ x ≤ 5)
      ∧ (0 : Int) ∉ shares.map Prod.fst
      ∧ (∀ x : Int, 1 ≤ x → x ≤ 5 →
          shares.lookup x = some (BigPolynomial.Evaluate sampleP256.N poly x)) :=
  ⟨by simp [ComplexSecretSplit, ComplexSecretToPolynomial, BigPolynomial.RandomGenerate,
      sampleEntropy],
    ComplexSecretSplit_shares 5 3 [1, 0] sampleP256 sampleEntropy
      (by simp [ComplexSecretSplit, ComplexSecretToPolynomial, BigPolynomial.RandomGenerate,
        sampleEntropy])⟩

/-- C7: for every `totalShareNumber < 2`, whatever the other arguments,
`ComplexSecretToPolynomial`, `ComplexSecretSplit` and
`ComplexSecretSplitWithVerifyPoints` fail with `InvalidTotalShareNumberError`;
the check comes before the threshold check. -/
theorem split_rejects_small_total {Pt : Type} (P256 curve : Curve Pt) (n t : Int)
    (secret : Octets) (entropy : Except Error (Nat → Nat)) (hn : n < 2) :
    ComplexSecretToPolynomial n t secret curve entropy
        = .error Error.InvalidTotalShareNumberError
    ∧ ComplexSecretSplit n t secret curve entropy
        = (none, some Error.InvalidTotalShareNumberError)
    ∧ ComplexSecretSplitWithVerifyPoints P256 n t secret curve entropy
        = (none, none, some Error.InvalidTotalShareNumberError) := by
  have h : ComplexSecretToPolynomial n t secret curve entropy
      = .error Error.InvalidTotalShareNumberError := by
    unfold ComplexSecretToPolynomial
    rw [if_pos hn]
  refine ⟨h, ?_, ?_⟩
  · simp only [ComplexSecretSplit, h]
  · simp only [ComplexSecretSplitWithVerifyPoints, h]

/-- C7 at `n = 1` with a threshold above it: the error is the one of the
total share number. -/
theorem split_rejects_small_total_witness :
    (1 : Int) < 2
    ∧ ComplexSecretToPolynomial 1 3 [1, 0] sampleOtherCurve sampleEntropy
        = .error Error.InvalidTotalShareNumberError
    ∧ ComplexSecretSplit 1 3 [1, 0] sampleOtherCurve sampleEntropy
        = (none, some Error.InvalidTotalShareNumberError)
    ∧ ComplexSecretSplitWithVerifyPoints sampleP256 1 3 [1, 0] sampleOtherCurve sampleEntropy
        = (none, none, some Error.InvalidTotalShareNumberError) :=
  ⟨by decide, split_rejects_small_total sampleP256 sampleOtherCurve 1 3 [1, 0] sampleEntropy
    (by decide)⟩

/-- C8: for every `totalShareNumber >= 2` and every `minimumShareNumber`
above it, `ComplexSecretSplit` and `ComplexSecretSplitWithVerifyPoints` fail
with `InvalidShareNumberError`, whatever the entropy source would deliver:
no polynomial is generated before the check. -/
theorem split_rejects_large_threshold {Pt : Type} (P256 curve : Curve Pt) (n t : Int)
    (secret : Octets) (entropy : Except Error (Nat → Nat)) (hn : 2 ≤ n) (ht : n < t) :
    ComplexSecretToPolynomial n t secret curve entropy = .error Error.InvalidShareNumberError
    ∧ ComplexSecretSplit n t secret curve entropy
        = (none, some Error.InvalidShareNumberError)
    ∧ ComplexSecretSplitWithVerifyPoints P256 n t secret curve entropy
        = (none, none, some Error.InvalidShareNumberError) := by
  have h : ComplexSecretToPolynomial n t secret curve entropy
      = .error Error.InvalidShareNumberError := by
    unfold ComplexSecretToPolynomial
    rw [if_neg (not_lt.mpr hn), if_pos ht]
  refine ⟨h, ?_, ?_⟩
  · simp only [ComplexSecretSplit, h]
  · simp only [ComplexSecretSplitWithVerifyPoints, h]

/-- C8 at `n = 5`, `t = 6` with an entropy source that fails: the error is
the one of the share numbers, not the one of the entropy source. -/
theorem split_rejects_large_threshold_witness :
    (2 : Int) ≤ 5 ∧ (5 : Int) < 6
    ∧ ComplexSecretToPolynomial 5 6 [1, 0] sampleOtherCurve (.error Error.entropyFailure)
        = .error Error.InvalidShareNumberError
    ∧ ComplexSecretSplit 5 6 [1, 0] sampleOtherCurve (.error Error.entropyFailure)
        = (none, some Error.InvalidShareNumberError)
    ∧ ComplexSecretSplitWithVerifyPoints sampleP256 5 6 [1, 0] sampleOtherCurve
          (.error Error.entropyFailure)
        = (none, none, some Error.InvalidShareNumberError) :=
  ⟨by decide, by decide,
    split_rejects_large_threshold sampleP256 sampleOtherCurve 5 6 [1, 0]
      (.error Error.entropyFailure) (by decide) (by decide)⟩

/-! ## Bytes of a big integer -/

/-- Reading back the bytes of a non-negative integer gives the integer. -/
theorem SetBytes_Bytes (x : Int) (hx : 0 ≤ x) : BigInt.SetBytes (BigInt.Bytes x) = x := by
  unfold BigInt.SetBytes BigInt.Bytes
  have hmap : (List.map (fun d => (Fin.ofNat d : Byte)) (Nat.digits 256 x.natAbs).reverse).reverse.map
      Fin.val = Nat.digits 256 x.natAbs := by
    rw [← List.map_reverse, List.reverse_reverse, List.map_map]
    conv_rhs => rw [← List.map_id (Nat.digits 256 x.natAbs)]
    apply List.map_congr_left
    intro d hd
    have hlt : d < 256 := Nat.digits_lt_base (by norm_num) hd
    simp only [Function.comp_apply, id_eq, Fin.ofNat, Fin.val_mk]
    exact Nat.mod_eq_of_lt hlt
  rw [hmap, Nat.ofDigits_digits]
  omega

/-! ## Verification points -/

/-- The point `ComplexSecretSplitWithVerifyPoints` builds for a coefficient. -/
theorem verifyPointsLoop_ok {Pt : Type} (P256 curve : Curve Pt) (poly : List Int)
    (acc pts : Option (List (Point Pt)))
    (h : verifyPointsLoop P256 curve poly acc = .ok pts) :
    (poly = [] → pts = acc)
    ∧ (poly ≠ [] → pts = some (acc.getD [] ++ poly.map (fun c =>
        ({ Curve := curve, XY := P256.ScalarBaseMult (BigInt.Bytes c) } : Point Pt))))
    ∧ ∀ c ∈ poly, curve.IsOnCurve (P256.ScalarBaseMult (BigInt.Bytes c)) = true := by
  induction poly generalizing acc with
  | nil =>
    simp only [verifyPointsLoop, Except.ok.injEq] at h
    simp [h]
  | cons c rest ih =>
    simp only [verifyPointsLoop, NewPoint] at h
    by_cases hc : curve.IsOnCurve (P256.ScalarBaseMult (BigInt.Bytes c)) = true
    · simp only [hc, if_true] at h
      obtain ⟨h1, h2, h3⟩ := ih _ h
      refine ⟨by simp, ?_, ?_⟩
      · intro _
        by_cases hr : rest = []
        · subst hr
          simp [h1 rfl]
        · rw [h2 hr]
          simp
      · intro d hd
        rcases List.mem_cons.mp hd with rfl | hd
        · exact hc
        · exact h3 d hd
    · simp [hc] at h

/-- A successful `ComplexSecretSplitWithVerifyPoints` returns the shares of
the generated polynomial and, for each coefficient in order, the point that
`elliptic.P256()` computes for it, labelled with the curve of the caller. -/
theorem ComplexSecretSplitWithVerifyPoints_ok {Pt : Type} (P256 curve : Curve Pt) (n t : Int)
    (secret : Octets) (entropy : Except Error (Nat → Nat))
    (h : (ComplexSecretSplitWithVerifyPoints P256 n t secret curve entropy).2.2 = none) :
    ∃ poly, ComplexSecretToPolynomial n t secret curve entropy = .ok poly
      ∧ ComplexSecretSplitWithVerifyPoints P256 n t secret curve entropy
          = (some (evaluateShares curve.N poly n),
             some (poly.map (fun c =>
                ({ Curve := curve, XY := P256.ScalarBaseMult (BigInt.Bytes c) } : Point Pt))),
             none)
      ∧ ∀ c ∈ poly, curve.IsOnCurve (P256.ScalarBaseMult (BigInt.Bytes c)) = true := by
  unfold ComplexSecretSplitWithVerifyPoints at h ⊢
  cases hp : ComplexSecretToPolynomial n t secret curve entropy with
  | error e => simp [hp] at h
  | ok poly =>
    simp only [hp] at h ⊢
    cases hl : verifyPointsLoop P256 curve poly none with
    | error e => simp [hl] at h
    | ok pts =>
      obtain ⟨_, h2, h3⟩ := verifyPointsLoop_ok P256 curve poly none pts hl
      obtain ⟨_, _, draw, _, hpoly⟩ := ComplexSecretToPolynomial_ok n t secret curve entropy poly hp
      have hne : poly ≠ [] := by rw [hpoly]; simp
      refine ⟨poly, rfl, ?_, h3⟩
      simp [h2 hne]

/-- The coefficients of a generated polynomial are non-negative. -/
theorem ComplexSecretToPolynomial_nonneg {Pt : Type} (n t : Int) (secret : Octets)
    (curve : Curve Pt) (entropy : Except Error (Nat → Nat)) (poly : List Int)
    (h : ComplexSecretToPolynomial n t secret curve entropy = .ok poly) :
    ∀ c ∈ poly, 0 ≤ c := by
  obtain ⟨_, _, draw, _, hpoly⟩ := ComplexSecretToPolynomial_ok n t secret curve entropy poly h
  intro c hc
  rw [hpoly] at hc
  rcases List.mem_cons.mp hc with rfl | hc
  · exact Int.natCast_nonneg _
  · obtain ⟨i, _, rfl⟩ := List.mem_map.mp hc
    by_cases hN : curve.N = 0
    · simp [hN]
    · exact Int.emod_nonneg _ hN

/-- The sum of the powers of `x` times the multiples `c_j * G`, from the
exponent `k` on, is the Horner value of the coefficients times `x ^ k * G`. -/
theorem sum_pow_smul_eq_horner {Pt : Type} [AddCommGroup Pt] (G : Pt) (x : Int)
    (l : List Int) (k : Nat) :
    ((l.enumFrom k).map (fun jc => (x ^ jc.1) • (jc.2 • G))).sum
      = (x ^ k * l.foldr (fun c acc => c + x * acc) 0) • G := by
  induction l generalizing k with
  | nil => simp
  | cons c r ih =>
    rw [List.enumFrom_cons, List.map_cons, List.sum_cons, ih (k + 1), List.foldr_cons,
      smul_smul, ← add_smul]
    congr 1
    ring

/-- A multiple of a point whose order divides `N` depends only on the scalar
modulo `N`. -/
theorem emod_smul_of_order {Pt : Type} [AddCommGroup Pt] (G : Pt) (N a : Int)
    (hN : N • G = 0) : (a % N) • G = a • G := by
  conv_rhs => rw [← Int.emod_add_ediv a N]
  rw [add_smul, mul_comm, mul_smul, hN, smul_zero, add_zero]

/-- C10: for curve = P-256, whose base point `G` has order `N`, every share
`(x, y)` of a successful `ComplexSecretSplitWithVerifyPoints` passes the
Feldman check against the returned commitments: `y * G = sum_j x^j * C_j`,
where `C_0` is the point `GetVerifyPointByPolynomial` commits for the
constant term. -/
theorem feldman_check {Pt : Type} [AddCommGroup Pt] (P256 : Curve Pt) (G : Pt)
    (hbase : ∀ k, P256.ScalarBaseMult k = BigInt.SetBytes k • G) (hord : P256.N • G = 0)
    (n t : Int) (secret : Octets) (entropy : Except Error (Nat → Nat))
    (h : (ComplexSecretSplitWithVerifyPoints P256 n t secret P256 entropy).2.2 = none) :
    ∃ shares points poly,
      ComplexSecretSplitWithVerifyPoints P256 n t secret P256 entropy
        = (some shares, some points, none)
      ∧ ComplexSecretToPolynomial n t secret P256 entropy = .ok poly
      ∧ (∃ c0, points.head? = some c0 ∧ GetVerifyPointByPolynomial P256 poly P256 = some (.ok c0))
      ∧ (∀ x : Int, 1 ≤ x → x ≤ n → ∃ y, shares.lookup x = some y)
      ∧ ∀ p ∈ shares,
          p.2 • G = ((points.enum).map (fun jC => (p.1 ^ jC.1) • jC.2.XY)).sum := by
  obtain ⟨poly, hp, hs, hon⟩ := ComplexSecretSplitWithVerifyPoints_ok P256 P256 n t secret entropy h
  obtain ⟨_, _, draw, _, hpoly⟩ := ComplexSecretToPolynomial_ok n t secret P256 entropy poly hp
  have hnn := ComplexSecretToPolynomial_nonneg n t secret P256 entropy poly hp
  refine ⟨_, _, poly, hs, hp, ?_, ?_, ?_⟩
  · rw [hpoly]
    have h0 := hon (BigInt.SetBytes secret) (by rw [hpoly]; exact List.mem_cons_self _ _)
    refine ⟨_, rfl, ?_⟩
    simp [GetVerifyPointByPolynomial, NewPoint, h0]
  · intro x h1 h2
    exact ⟨_, lookup_of_mem_of_nodup_keys _ _ _ (evaluateShares_keys_nodup P256.N poly n)
      ((evaluateShares_mem _ _ _ (x, BigPolynomial.Evaluate P256.N poly x)).mpr ⟨h1, h2, rfl⟩)⟩
  · intro p hp
    obtain ⟨_, _, hval⟩ := (evaluateShares_mem _ _ _ _).mp hp
    have hmap : (poly.map (fun c =>
        ({ Curve := P256, XY := P256.ScalarBaseMult (BigInt.Bytes c) } : Point Pt)))
        = poly.map (fun c => ({ Curve := P256, XY := c • G } : Point Pt)) := by
      apply List.map_congr_left
      intro c hc
      rw [hbase, SetBytes_Bytes c (hnn c hc)]
    rw [hmap, hval, BigPolynomial.Evaluate, emod_smul_of_order G _ _ hord]
    have hsum := sum_pow_smul_eq_horner G p.1 poly 0
    simp only [pow_zero, one_mul] at hsum
    rw [← hsum, List.enum, List.enumFrom_map, List.map_map]
    rfl

/-- The loop over the coefficients succeeds when every point is on the curve
of the caller. -/
theorem verifyPointsLoop_succeeds {Pt : Type} (P256 curve : Curve Pt) (poly : List Int)
    (acc : Option (List (Point Pt)))
    (hon : ∀ c ∈ poly, curve.IsOnCurve (P256.ScalarBaseMult (BigInt.Bytes c)) = true) :
    ∃ pts, verifyPointsLoop P256 curve poly acc = .ok pts := by
  induction poly generalizing acc with
  | nil => exact ⟨acc, rfl⟩
  | cons c rest ih =>
    simp only [verifyPointsLoop, NewPoint, hon c (List.mem_cons_self _ _), if_true]
    exact ih _ (fun d hd => hon d (List.mem_cons_of_mem _ hd))

/-- `ComplexSecretSplitWithVerifyPoints` succeeds when the polynomial is
generated and every point is on the curve of the caller. -/
theorem ComplexSecretSplitWithVerifyPoints_succeeds {Pt : Type} (P256 curve : Curve Pt)
    (n t : Int) (secret : Octets) (entropy : Except Error (Nat → Nat)) (poly : List Int)
    (hp : ComplexSecretToPolynomial n t secret curve entropy = .ok poly)
    (hon : ∀ c ∈ poly, curve.IsOnCurve (P256.ScalarBaseMult (BigInt.Bytes c)) = true) :
    (ComplexSecretSplitWithVerifyPoints P256 n t secret curve entropy).2.2 = none := by
  obtain ⟨pts, hpts⟩ := verifyPointsLoop_succeeds P256 curve poly none hon
  simp [ComplexSecretSplitWithVerifyPoints, hp, hpts]

/-- The polynomial of the sample split. -/
theorem samplePolynomial (curve : Curve (ZMod 65537)) (hN : curve.N = 65537) :
    ComplexSecretToPolynomial 5 3 [1, 0] curve sampleEntropy = .ok [256, 12240, 13240] := by
  simp [ComplexSecretToPolynomial, BigPolynomial.RandomGenerate, sampleEntropy, hN,
    List.range_succ, BigInt.SetBytes, Nat.ofDigits]

theorem sampleP256_base (k : Octets) :
    sampleP256.ScalarBaseMult k = BigInt.SetBytes k • (1 : ZMod 65537) := by
  simp [sampleP256]

theorem sampleP256_order : sampleP256.N • (1 : ZMod 65537) = 0 := by
  simp only [sampleP256, zsmul_eq_mul, mul_one]
  decide

theorem sampleP256_points_on_curve (curve : Curve (ZMod 65537))
    (hC : curve.IsOnCurve = fun p => decide (p ≠ 0)) :
    ∀ c ∈ [(256 : Int), 12240, 13240],
      curve.IsOnCurve (sampleP256.ScalarBaseMult (BigInt.Bytes c)) = true := by
  intro c hc
  have hnn : 0 ≤ c := by
    simp only [List.mem_cons, List.mem_singleton, List.not_mem_nil, or_false] at hc
    rcases hc with rfl | rfl | rfl <;> decide
  simp only [hC, sampleP256, SetBytes_Bytes c hnn, decide_eq_true_eq]
  simp only [List.mem_cons, List.mem_singleton, List.not_mem_nil, or_false] at hc
  rcases hc with rfl | rfl | rfl <;> decide

theorem sampleSplitWithVerifyPoints_succeeds (curve : Curve (ZMod 65537))
    (hN : curve.N = 65537) (hC : curve.IsOnCurve = fun p => decide (p ≠ 0)) :
    (ComplexSecretSplitWithVerifyPoints sampleP256 5 3 [1, 0] curve sampleEntropy).2.2
      = none :=
  ComplexSecretSplitWithVerifyPoints_succeeds sampleP256 curve 5 3 [1, 0] sampleEntropy _
    (samplePolynomial curve hN) (sampleP256_points_on_curve curve hC)

/-- C10 on the sample curve, at `n = 5`, `t = 3` and the secret `[1, 0]`. -/
theorem feldman_check_witness :
    (∀ k, sampleP256.ScalarBaseMult k = BigInt.SetBytes k • (1 : ZMod 65537))
    ∧ sampleP256.N • (1 : ZMod 65537) = 0
    ∧ (ComplexSecretSplitWithVerifyPoints sampleP256 5 3 [1, 0] sampleP256 sampleEntropy).2.2
        = none
    ∧ ∃ shares points poly,
      ComplexSecretSplitWithVerifyPoints sampleP256 5 3 [1, 0] sampleP256 sampleEntropy
        = (some shares, some points, none)
      ∧ ComplexSecretToPolynomial 5 3 [1, 0] sampleP256 sampleEntropy = .ok poly
      ∧ (∃ c0, points.head? = some c0
          ∧ GetVerifyPointByPolynomial sampleP256 poly sampleP256 = some (.ok c0))
      ∧ (∀ x : Int, 1 ≤ x → x ≤ 5 → ∃ y, shares.lookup x = some y)
      ∧ ∀ p ∈ shares,
          p.2 • (1 : ZMod 65537)
            = ((points.enum).map (fun jC => (p.1 ^ jC.1) • jC.2.XY)).sum :=
  ⟨sampleP256_base, sampleP256_order, sampleSplitWithVerifyPoints_succeeds sampleP256 rfl rfl,
    feldman_check sampleP256 1 sampleP256_base sampleP256_order 5 3 [1, 0] sampleEntropy
      (sampleSplitWithVerifyPoints_succeeds sampleP256 rfl rfl)⟩

/-- C9, the code at a curve other than P-256: the call succeeds on
`sampleOtherCurve`, whose base point is the residue 2, and the returned
points are the multiples of the base point of P-256 (256, 12240 and 13240
times the residue 1), not the multiples of the base point of the curve the
caller supplied. -/
theorem verify_points_use_P256_base :
    ∃ shares points poly,
      ComplexSecretSplitWithVerifyPoints sampleP256 5 3 [1, 0] sampleOtherCurve sampleEntropy
        = (some shares, some points, none)
      ∧ ComplexSecretToPolynomial 5 3 [1, 0] sampleOtherCurve sampleEntropy = .ok poly
      ∧ points.length = poly.length
      ∧ points.map Point.XY = poly.map (fun c => sampleP256.ScalarBaseMult (BigInt.Bytes c))
      ∧ points.map Point.XY = [256, 12240, 13240]
      ∧ poly.map (fun c => sampleOtherCurve.ScalarBaseMult (BigInt.Bytes c))
          = [512, 24480, 26480]
      ∧ points.map Point.XY
          ≠ poly.map (fun c => sampleOtherCurve.ScalarBaseMult (BigInt.Bytes c)) := by
  obtain ⟨poly, hp, hs, _⟩ := ComplexSecretSplitWithVerifyPoints_ok sampleP256 sampleOtherCurve
    5 3 [1, 0] sampleEntropy (sampleSplitWithVerifyPoints_succeeds sampleOtherCurve rfl rfl)
  have hpoly : poly = [256, 12240, 13240] := by
    have h := samplePolynomial sampleOtherCurve rfl
    rw [hp] at h
    exact Except.ok.inj h
  subst hpoly
  have hb1 : BigInt.SetBytes (BigInt.Bytes 256) = 256 := SetBytes_Bytes 256 (by decide)
  have hb2 : BigInt.SetBytes (BigInt.Bytes 12240) = 12240 := SetBytes_Bytes 12240 (by decide)
  have hb3 : BigInt.SetBytes (BigInt.Bytes 13240) = 13240 := SetBytes_Bytes 13240 (by decide)
  have h1 : List.map (fun c => sampleP256.ScalarBaseMult (BigInt.Bytes c)) [256, 12240, 13240]
      = [256, 12240, 13240] := by
    simp only [List.map_cons, List.map_nil, sampleP256, hb1, hb2, hb3]
    decide
  have h2 : List.map (fun c => sampleOtherCurve.ScalarBaseMult (BigInt.Bytes c))
      [256, 12240, 13240] = [512, 24480, 26480] := by
    simp only [List.map_cons, List.map_nil, sampleOtherCurve, hb1, hb2, hb3]
    decide
  refine ⟨_, _, _, hs, hp, by simp, by simp [List.map_map, Function.comp_def], ?_, h2, ?_⟩
  · rw [List.map_map]
    exact h1
  · rw [List.map_map, h2]
    change List.map (fun c => sampleP256.ScalarBaseMult (BigInt.Bytes c)) [256, 12240, 13240] ≠ _
    rw [h1]
    decide

/-! ## Retrieving a secret -/

theorem constantTerm_polyAdd (p q : List Int) :
    constantTerm (polyAdd p q) = constantTerm p + constantTerm q := by
  cases p with
  | nil => simp [polyAdd, constantTerm]
  | cons a p =>
    cases q with
    | nil => simp [polyAdd, constantTerm]
    | cons b q => simp [polyAdd, constantTerm]

theorem constantTerm_polyScale (c : Int) (p : List Int) :
    constantTerm (polyScale c p) = c * constantTerm p := by
  cases p <;> simp [polyScale, constantTerm]

theorem constantTerm_polyMulLinear (a : Int) (p : List Int) :
    constantTerm (polyMulLinear a p) = -a * constantTerm p := by
  rw [polyMulLinear, constantTerm_polyAdd, constantTerm_polyScale]
  simp [constantTerm]

theorem polyAdd_ne_nil_left (p q : List Int) (h : p ≠ []) : polyAdd p q ≠ [] := by
  cases p with
  | nil => exact absurd rfl h
  | cons a p => cases q <;> simp [polyAdd]

theorem constantTerm_foldr_polyMulLinear (xs : List Int) :
    constantTerm (xs.foldr polyMulLinear [1]) = (xs.map (fun x => -x)).prod := by
  induction xs with
  | nil => simp [constantTerm]
  | cons x xs ih =>
    rw [List.foldr_cons, constantTerm_polyMulLinear, ih, List.map_cons, List.prod_cons]

theorem foldr_polyMulLinear_ne_nil (xs : List Int) : xs.foldr polyMulLinear [1] ≠ [] := by
  cases xs with
  | nil => simp
  | cons x xs =>
    simp only [List.foldr_cons, polyMulLinear]
    exact polyAdd_ne_nil_left _ _ (by simp)

theorem constantTerm_foldr_polyAdd (terms : List (List Int)) :
    constantTerm (terms.foldr polyAdd []) = (terms.map constantTerm).sum := by
  induction terms with
  | nil => simp [constantTerm]
  | cons p ps ih =>
    rw [List.foldr_cons, constantTerm_polyAdd, ih, List.map_cons, List.sum_cons]

theorem foldr_polyAdd_ne_nil (terms : List (List Int)) (hne : terms ≠ [])
    (h : ∀ p ∈ terms, p ≠ []) : terms.foldr polyAdd [] ≠ [] := by
  cases terms with
  | nil => exact absurd rfl hne
  | cons p ps =>
    simp only [List.foldr_cons]
    exact polyAdd_ne_nil_left _ _ (h p (List.mem_cons_self _ _))

/-- The value `lagrangeInterpolate` reads from the interpolated polynomial:
the constant term of the Lagrange formula, reduced modulo the curve order. -/
theorem lagrangeInterpolate_eq {Pt : Type} (points : ShareMap) (curve : Curve Pt)
    (hne : points ≠ []) :
    lagrangeInterpolate points curve
      = some ((points.map (fun p =>
          p.2 * BigInt.ModInverse (lagrangeDenominator points p.1) curve.N
            * (((points.filter (fun q => q.1 ≠ p.1)).map Prod.fst).map (fun x => -x)).prod)).sum
          % curve.N) := by
  unfold lagrangeInterpolate BigPolynomial.GetPolynomialByPoints
  simp only [List.getLast?_reverse, List.head?_map]
  have hterms : ∀ t ∈ points.map (fun p =>
      polyScale (p.2 * BigInt.ModInverse (lagrangeDenominator points p.1) curve.N)
        (lagrangeNumerator points p.1)), t ≠ [] := by
    intro t ht
    obtain ⟨p, _, rfl⟩ := List.mem_map.mp ht
    simp only [polyScale, ne_eq, List.map_eq_nil_iff]
    exact foldr_polyMulLinear_ne_nil _
  have hnil := foldr_polyAdd_ne_nil _ (by simpa using hne) hterms
  have hhead := constantTerm_foldr_polyAdd (points.map (fun p =>
      polyScale (p.2 * BigInt.ModInverse (lagrangeDenominator points p.1) curve.N)
        (lagrangeNumerator points p.1)))
  rcases hfold : (points.map (fun p =>
      polyScale (p.2 * BigInt.ModInverse (lagrangeDenominator points p.1) curve.N)
        (lagrangeNumerator points p.1))).foldr polyAdd [] with _ | ⟨c, rest⟩
  · exact absurd hfold hnil
  · rw [hfold] at hhead
    simp only [constantTerm] at hhead
    rw [hfold, List.head?_cons, Option.map_some', hhead, List.map_map]
    congr 3
    apply List.map_congr_left
    intro p _
    simp only [Function.comp_apply, constantTerm_polyScale, lagrangeNumerator,
      constantTerm_foldr_polyMulLinear]

/-- The modular inverse is the inverse in the field of residues. -/
theorem cast_ModInverse (p : ℕ) [Fact p.Prime] (d : Int) (hd : ((d : Int) : ZMod p) ≠ 0) :
    ((BigInt.ModInverse d (p : Int) : Int) : ZMod p) = ((d : Int) : ZMod p)⁻¹ := by
  unfold BigInt.ModInverse
  rw [ZMod.intCast_mod]
  have hndvd : ¬ ((p : Int) ∣ d) := fun h => hd ((ZMod.intCast_zmod_eq_zero_iff_dvd d p).mpr h)
  have hgcd : Int.gcd d (p : Int) = 1 := by
    have hp : Nat.Prime p := Fact.out
    have hco : Nat.Coprime p d.natAbs := by
      refine (Nat.Prime.coprime_iff_not_dvd hp).mpr ?_
      intro h
      exact hndvd (Int.natCast_dvd.mpr h)
    simpa [Int.gcd, Nat.Coprime, Nat.gcd_comm] using hco
  have h := Int.gcd_eq_gcd_ab d (p : Int)
  rw [hgcd] at h
  have hc : ((1 : Int) : ZMod p)
      = ((d * Int.gcdA d p + (p : Int) * Int.gcdB d p : Int) : ZMod p) := by
    rw [← h]; simp
  push_cast at hc
  simp only [ZMod.natCast_self, zero_mul, add_zero] at hc
  exact eq_inv_of_mul_eq_one_right hc.symm

theorem list_prod_inv_mul {F ι : Type} [Field F] (L : List ι) (a b : ι → F) :
    (L.map (fun j => (a j)⁻¹ * b j)).prod = ((L.map a).prod)⁻¹ * (L.map b).prod := by
  induction L with
  | nil => simp
  | cons j L ih =>
    simp only [List.map_cons, List.prod_cons, ih, mul_inv]
    ring

theorem filter_key_ne_eq (points : ShareMap) (q : Int × Int) (hq : q ∈ points)
    (hkey : ∀ a ∈ points, ∀ b ∈ points, a.1 = b.1 → a = b) :
    points.filter (fun r => r.1 ≠ q.1) = points.filter (fun r => r ≠ q) := by
  apply List.filter_congr
  intro r hr
  by_cases h : r = q
  · simp [h]
  · have : r.1 ≠ q.1 := fun h1 => h (hkey r hr q hq h1)
    simp [h, this]

/-- One summand of the Lagrange formula at zero, in the field of residues. -/
theorem cast_lagrange_term (p : ℕ) [Fact p.Prime] (points : ShareMap) (hnd : points.Nodup)
    (hinj : ∀ a ∈ points, ∀ b ∈ points,
      ((a.1 : Int) : ZMod p) = ((b.1 : Int) : ZMod p) → a = b)
    (q : Int × Int) (hq : q ∈ points) :
    ((q.2 * BigInt.ModInverse (lagrangeDenominator points q.1) (p : Int)
        * (((points.filter (fun r => r.1 ≠ q.1)).map Prod.fst).map (fun x => -x)).prod : Int)
        : ZMod p)
      = ((q.2 : Int) : ZMod p)
        * ∏ j ∈ points.toFinset.erase q,
            ((((q.1 : Int) : ZMod p) - ((j.1 : Int) : ZMod p))⁻¹
              * (0 - ((j.1 : Int) : ZMod p))) := by
  have hkey : ∀ a ∈ points, ∀ b ∈ points, a.1 = b.1 → a = b :=
    fun a ha b hb h => hinj a ha b hb (by rw [h])
  have hfin : points.toFinset.erase q = (points.filter (fun r => r ≠ q)).toFinset := by
    ext x
    simp only [Finset.mem_erase, List.mem_toFinset, List.mem_filter, decide_eq_true_eq]
    tauto
  have hden : ((lagrangeDenominator points q.1 : Int) : ZMod p)
      = ((points.filter (fun r => r ≠ q)).map
          (fun j => ((q.1 : Int) : ZMod p) - ((j.1 : Int) : ZMod p))).prod := by
    unfold lagrangeDenominator
    rw [filter_key_ne_eq points q hq hkey, Int.cast_list_prod, List.map_map]
    congr 1
    apply List.map_congr_left
    intro j _
    simp
  have hne : ((lagrangeDenominator points q.1 : Int) : ZMod p) ≠ 0 := by
    rw [hden]
    apply List.prod_ne_zero
    intro h0
    obtain ⟨j, hj, hj0⟩ := List.mem_map.mp h0
    simp only [List.mem_filter, decide_eq_true_eq] at hj
    exact hj.2 ((hinj q hq j hj.1 (sub_eq_zero.mp hj0)).symm)
  rw [hfin, List.prod_toFinset _ (hnd.filter _), list_prod_inv_mul, ← hden,
    filter_key_ne_eq points q hq hkey]
  push_cast
  rw [cast_ModInverse p _ hne, List.map_map, List.map_map]
  have hprod : (List.map ((Int.cast ∘ fun x => -x) ∘ Prod.fst)
        (points.filter (fun r => r ≠ q))).prod
      = (List.map (fun j : Int × Int => (0 : ZMod p) - ((j.1 : Int) : ZMod p))
        (points.filter (fun r => r ≠ q))).prod := by
    congr 1
    apply List.map_congr_left
    intro j _
    simp
  rw [hprod]
  ring

/-- The Lagrange formula at zero, in the field of residues, is the value at
zero of the interpolating polynomial. -/
theorem cast_lagrange_sum (p : ℕ) [Fact p.Prime] (points : ShareMap) (hnd : points.Nodup)
    (hinj : ∀ a ∈ points, ∀ b ∈ points,
      ((a.1 : Int) : ZMod p) = ((b.1 : Int) : ZMod p) → a = b) :
    (((points.map (fun q =>
        q.2 * BigInt.ModInverse (lagrangeDenominator points q.1) (p : Int)
          * (((points.filter (fun r => r.1 ≠ q.1)).map Prod.fst).map (fun x => -x)).prod)).sum
        : Int) : ZMod p)
      = Polynomial.eval 0 (Lagrange.interpolate points.toFinset
          (fun q => ((q.1 : Int) : ZMod p)) (fun q => ((q.2 : Int) : ZMod p))) := by
  rw [Lagrange.interpolate_apply, Polynomial.eval_finset_sum, List.sum_toFinset _ hnd,
    Int.cast_list_sum, List.map_map]
  congr 1
  apply List.map_congr_left
  intro q hq
  rw [Function.comp_apply, cast_lagrange_term p points hnd hinj q hq]
  simp [Lagrange.basis, Lagrange.basisDivisor, Polynomial.eval_prod]

/-- A coefficient list is a polynomial over the field of residues, of degree
below its length, with the values `Evaluate` computes. -/
theorem exists_polynomial (p : ℕ) [Fact p.Prime] (poly : List Int) :
    ∃ f : Polynomial (ZMod p), f.degree < (poly.length : WithBot ℕ)
      ∧ (∀ x : Int, f.eval ((x : Int) : ZMod p)
          = ((poly.foldr (fun c acc => c + x * acc) 0 : Int) : ZMod p))
      ∧ f.eval 0 = ((constantTerm poly : Int) : ZMod p) := by
  induction poly with
  | nil =>
    refine ⟨0, ?_, by simp, by simp [constantTerm]⟩
    simp
  | cons c r ih =>
    obtain ⟨g, hdeg, hval, _⟩ := ih
    refine ⟨Polynomial.C ((c : Int) : ZMod p) + Polynomial.X * g, ?_, ?_, ?_⟩
    · rw [Polynomial.degree_lt_iff_coeff_zero] at hdeg ⊢
      intro m hm
      simp only [List.length_cons] at hm
      obtain ⟨k, rfl⟩ : ∃ k, m = k + 1 := ⟨m - 1, by omega⟩
      rw [Polynomial.coeff_add, Polynomial.coeff_C_succ, Polynomial.coeff_X_mul, zero_add]
      exact hdeg k (by omega)
    · intro x
      simp only [Polynomial.eval_add, Polynomial.eval_C, Polynomial.eval_mul, Polynomial.eval_X,
        hval x, List.foldr_cons]
      push_cast
      rfl
    · simp [constantTerm]

/-- Interpolating at least as many shares of a polynomial as it has
coefficients gives back its constant term modulo the prime curve order. -/
theorem lagrangeInterpolate_shares {Pt : Type} (p : ℕ) [Fact p.Prime] (curve : Curve Pt)
    (hN : curve.N = (p : Int)) (poly : List Int) (hpoly : poly ≠ []) (n : Int)
    (hn : n < (p : Int)) (sub : ShareMap)
    (hsub : ∀ q ∈ sub, q ∈ evaluateShares curve.N poly n) (hnd : sub.Nodup)
    (hlen : poly.length ≤ sub.length) :
    lagrangeInterpolate sub curve = some (constantTerm poly % curve.N) := by
  have hne : sub ≠ [] := by
    intro h
    rw [h] at hlen
    exact hpoly (List.length_eq_zero.mp (Nat.le_zero.mp hlen))
  have hinj : ∀ a ∈ sub, ∀ b ∈ sub,
      ((a.1 : Int) : ZMod p) = ((b.1 : Int) : ZMod p) → a = b := by
    intro a ha b hb hab
    obtain ⟨ha1, ha2, ha3⟩ := (evaluateShares_mem _ _ _ _).mp (hsub a ha)
    obtain ⟨hb1, hb2, hb3⟩ := (evaluateShares_mem _ _ _ _).mp (hsub b hb)
    have hmod : a.1 % (p : Int) = b.1 % (p : Int) := (ZMod.intCast_eq_intCast_iff _ _ _).mp hab
    rw [Int.emod_eq_of_lt (by omega) (by omega), Int.emod_eq_of_lt (by omega) (by omega)] at hmod
    exact Prod.ext hmod (by rw [ha3, hb3, hmod])
  obtain ⟨f, hdeg, hval, h0⟩ := exists_polynomial p poly
  have hcard : sub.toFinset.card = sub.length := List.toFinset_card_of_nodup hnd
  have hinterp : f = Lagrange.interpolate sub.toFinset
      (fun q => ((q.1 : Int) : ZMod p)) (fun q => ((q.2 : Int) : ZMod p)) := by
    apply Lagrange.eq_interpolate_of_eval_eq
    · intro a ha b hb hab
      exact hinj a (List.mem_toFinset.mp ha) b (List.mem_toFinset.mp hb) hab
    · rw [hcard]
      exact lt_of_lt_of_le hdeg (by exact_mod_cast hlen)
    · intro q hq
      obtain ⟨_, _, hq3⟩ := (evaluateShares_mem _ _ _ _).mp (hsub q (List.mem_toFinset.mp hq))
      rw [hval, hq3, BigPolynomial.Evaluate, hN, ZMod.intCast_mod]
  rw [lagrangeInterpolate_eq sub curve hne, hN]
  congr 1
  apply (ZMod.intCast_eq_intCast_iff _ _ _).mp
  rw [cast_lagrange_sum p sub hnd hinj, ← hinterp, h0]

/-- Writing out the integer read from a buffer without leading zero byte
gives the buffer. -/
theorem Bytes_SetBytes (b : Octets) (h : b.head? ≠ some 0) :
    BigInt.Bytes (BigInt.SetBytes b) = b := by
  unfold BigInt.Bytes BigInt.SetBytes
  rw [Int.natAbs_ofNat, Nat.digits_ofDigits 256 (by norm_num)]
  · rw [← List.map_reverse, List.reverse_reverse, List.map_map]
    conv_rhs => rw [← List.map_id b]
    apply List.map_congr_left
    intro x _
    apply Fin.ext
    simp only [Function.comp_apply, Fin.ofNat, id_eq]
    exact Nat.mod_eq_of_lt x.isLt
  · intro l hl
    obtain ⟨x, _, rfl⟩ := List.mem_map.mp hl
    exact x.isLt
  · intro hne
    rw [List.getLast_map, List.getLast_reverse]
    intro h0
    apply h
    have hb : b ≠ [] := by
      intro hb
      apply hne
      simp [hb]
    rcases b with _ | ⟨x, r⟩
    · exact absurd rfl hb
    · simp only [List.head_cons] at h0
      simp only [List.head?_cons, Option.some.injEq]
      exact Fin.ext h0

/-- What `ComplexSecretRetrieve` returns on at least `t` of the shares of a
split over a curve of prime order above `n`: the bytes of the secret, read
as an integer and reduced modulo the order. -/
theorem ComplexSecretRetrieve_of_split {Pt : Type} (curve : Curve Pt)
    (hprime : Nat.Prime curve.N.toNat) (n t : Int) (ht1 : 1 ≤ t) (hnN : n < curve.N)
    (secret : Octets) (entropy : Except Error (Nat → Nat)) (shares : ShareMap)
    (hsplit : ComplexSecretSplit n t secret curve entropy = (some shares, none))
    (sub : ShareMap) (hsub : ∀ q ∈ sub, q ∈ shares) (hnd : sub.Nodup)
    (hlen : t ≤ (sub.length : Int)) :
    ComplexSecretRetrieve sub curve
      = some (BigInt.Bytes (BigInt.SetBytes secret % curve.N), none) := by
  haveI : Fact (Nat.Prime curve.N.toNat) := ⟨hprime⟩
  have hpos : 0 < curve.N.toNat := hprime.pos
  have hN : curve.N = ((curve.N.toNat : Nat) : Int) := by omega
  obtain ⟨poly, hp, hs⟩ := ComplexSecretSplit_ok n t secret curve entropy (by rw [hsplit])
  have hshares : shares = evaluateShares curve.N poly n := by
    rw [hsplit] at hs
    simpa using hs
  obtain ⟨_, _, draw, _, hpoly⟩ := ComplexSecretToPolynomial_ok n t secret curve entropy poly hp
  have hlen2 : poly.length ≤ sub.length := by
    rw [hpoly]
    simp only [List.length_cons, List.length_map, List.length_range]
    omega
  have hinterp := lagrangeInterpolate_shares curve.N.toNat curve hN poly
    (by rw [hpoly]; simp) n (by omega) sub (by rw [← hshares]; exact hsub) hnd hlen2
  simp only [ComplexSecretRetrieve, hinterp]
  rw [hpoly]
  rfl

/-- A split with a working entropy source and valid share numbers succeeds. -/
theorem ComplexSecretSplit_succeeds {Pt : Type} (curve : Curve Pt) (n t : Int)
    (hn : 2 ≤ n) (htn : t ≤ n) (secret : Octets) (draw : Nat → Nat) :
    ∃ shares, ComplexSecretSplit n t secret curve (.ok draw) = (some shares, none)
      ∧ shares.length = n.toNat := by
  refine ⟨evaluateShares curve.N (BigInt.SetBytes secret
    :: (List.range (t - 1).toNat).map (fun i => ((draw i : Nat) : Int) % curve.N)) n, ?_, ?_⟩
  · simp [ComplexSecretSplit, ComplexSecretToPolynomial, BigPolynomial.RandomGenerate,
      not_lt.mpr hn, not_lt.mpr htn]
  · simp [evaluateShares]

/-- C5, amended: over a curve whose order `N` is a prime above `n`, for every
secret without leading zero byte whose value is below `N`, every `n >= 2`
and `1 <= t <= n`, and every polynomial `ComplexSecretToPolynomial` produces
for the secret, `ComplexSecretSplit` succeeds and `ComplexSecretRetrieve`
applied to any at least `t` of its shares, in any order, returns exactly the
bytes of the secret. -/
theorem retrieve_recovers_secret {Pt : Type} (curve : Curve Pt)
    (hprime : Nat.Prime curve.N.toNat) (n t : Int) (hn : 2 ≤ n) (ht1 : 1 ≤ t) (htn : t ≤ n)
    (hnN : n < curve.N) (secret : Octets) (hlead : secret.head? ≠ some 0)
    (hlt : BigInt.SetBytes secret < curve.N) (draw : Nat → Nat) :
    ∃ shares, ComplexSecretSplit n t secret curve (.ok draw) = (some shares, none)
      ∧ (shares.length : Int) = n
      ∧ ∀ sub : ShareMap, (∀ q ∈ sub, q ∈ shares) → sub.Nodup → t ≤ (sub.length : Int) →
          ComplexSecretRetrieve sub curve = some (secret, none) := by
  obtain ⟨shares, hsplit, hlen⟩ := ComplexSecretSplit_succeeds curve n t hn htn secret draw
  refine ⟨shares, hsplit, by omega, ?_⟩
  intro sub hsub hnd hsublen
  rw [ComplexSecretRetrieve_of_split curve hprime n t ht1 hnN secret _ shares hsplit sub hsub
    hnd hsublen]
  have hnonneg : 0 ≤ BigInt.SetBytes secret := Int.natCast_nonneg _
  rw [Int.emod_eq_of_lt hnonneg hlt, Bytes_SetBytes secret hlead]

theorem sampleP256_prime : Nat.Prime sampleP256.N.toNat := by
  have h : sampleP256.N.toNat = 65537 := by simp [sampleP256]
  rw [h]
  norm_num

/-- C5, amended, at `n = 5`, `t = 3`, the secret `[1, 0]` and the sample
curve. -/
theorem retrieve_recovers_secret_witness :
    Nat.Prime sampleP256.N.toNat ∧ (2 : Int) ≤ 5 ∧ (1 : Int) ≤ 3 ∧ (3 : Int) ≤ 5
    ∧ 5 < sampleP256.N ∧ ([1, 0] : Octets).head? ≠ some 0
    ∧ BigInt.SetBytes [1, 0] < sampleP256.N
    ∧ ∃ shares,
        ComplexSecretSplit 5 3 [1, 0] sampleP256 (.ok (fun i => 1000 * i + 77777))
          = (some shares, none)
        ∧ (shares.length : Int) = 5
        ∧ ∀ sub : ShareMap, (∀ q ∈ sub, q ∈ shares) → sub.Nodup → 3 ≤ (sub.length : Int) →
            ComplexSecretRetrieve sub sampleP256 = some ([1, 0], none) :=
  ⟨sampleP256_prime, by decide, by decide, by decide, by simp [sampleP256], by decide,
    by decide,
    retrieve_recovers_secret sampleP256 sampleP256_prime 5 3 (by decide) (by decide) (by decide)
      (by simp [sampleP256]) [1, 0] (by decide) (by decide) (fun i => 1000 * i + 77777)⟩

/-- C5 as stated fails: the secret `[0, 1]`, split with `n = 5` and `t = 3`
over the sample curve, is retrieved from the first three shares as `[1]`,
which is not the original byte string. -/
theorem retrieve_drops_leading_zero :
    ∃ shares,
      ComplexSecretSplit 5 3 [0, 1] sampleP256 sampleEntropy = (some shares, none)
      ∧ (shares.take 3).length = 3
      ∧ ComplexSecretRetrieve (shares.take 3) sampleP256 = some ([1], none)
      ∧ ComplexSecretRetrieve (shares.take 3) sampleP256 ≠ some ([0, 1], none) := by
  obtain ⟨shares, hsplit, hlen⟩ := ComplexSecretSplit_succeeds sampleP256 5 3 (by decide)
    (by decide) [0, 1] (fun i => 1000 * i + 77777)
  have hlen3 : (shares.take 3).length = 3 := by
    rw [List.length_take, hlen]
    decide
  have hnd : shares.Nodup := by
    obtain ⟨poly, _, hs⟩ := ComplexSecretSplit_ok 5 3 [0, 1] sampleP256
      (.ok (fun i => 1000 * i + 77777)) (by rw [hsplit])
    rw [hsplit] at hs
    have : shares = evaluateShares sampleP256.N poly 5 := by simpa using hs
    rw [this]
    exact evaluateShares_nodup _ _ _
  have hret := ComplexSecretRetrieve_of_split sampleP256 sampleP256_prime 5 3 (by decide)
    (by simp [sampleP256]) [0, 1] _ shares hsplit (shares.take 3)
    (fun q hq => List.mem_of_mem_take hq) (hnd.sublist (List.take_sublist _ _))
    (by rw [hlen3]; decide)
  have hval : BigInt.Bytes (BigInt.SetBytes [0, 1] % sampleP256.N) = [1] := by
    have h1 : BigInt.SetBytes [0, 1] % sampleP256.N = 1 := by decide
    rw [h1]
    simp [BigInt.Bytes]
    decide
  rw [hval] at hret
  refine ⟨shares, hsplit, hlen3, hret, ?_⟩
  rw [hret]
  decide

/-! ## Retrieval without threshold, and re-issued shares -/

/-- C11: `ComplexSecretRetrieve` makes no threshold or share-count check: on
every non-empty share map, whatever its size, it returns a nil error and the
big-endian bytes of the last coefficient of the polynomial interpolated
through the given points modulo the curve order, which is the constant term
of the Lagrange formula. -/
theorem ComplexSecretRetrieve_no_threshold {Pt : Type} (shares : ShareMap) (curve : Curve Pt)
    (hne : shares ≠ []) :
    ∃ v, (BigPolynomial.GetPolynomialByPoints curve.N shares).getLast? = some v
      ∧ ComplexSecretRetrieve shares curve = some (BigInt.Bytes v, none)
      ∧ v = (shares.map (fun p =>
          p.2 * BigInt.ModInverse (lagrangeDenominator shares p.1) curve.N
            * (((shares.filter (fun q => q.1 ≠ p.1)).map Prod.fst).map (fun x => -x)).prod)).sum
          % curve.N := by
  have h := lagrangeInterpolate_eq shares curve hne
  refine ⟨_, h, ?_, rfl⟩
  simp only [ComplexSecretRetrieve, h]

/-- C11 at a single share `(1, 5)`, far below any threshold: the result is
the byte 5 and a nil error. -/
theorem ComplexSecretRetrieve_no_threshold_witness :
    ([((1 : Int), (5 : Int))] : ShareMap) ≠ []
    ∧ ∃ v, (BigPolynomial.GetPolynomialByPoints sampleP256.N [(1, 5)]).getLast? = some v
      ∧ ComplexSecretRetrieve [(1, 5)] sampleP256 = some (BigInt.Bytes v, none)
      ∧ v = (([((1 : Int), (5 : Int))] : ShareMap).map (fun p =>
          p.2 * BigInt.ModInverse (lagrangeDenominator [(1, 5)] p.1) sampleP256.N
            * (((([((1 : Int), (5 : Int))] : ShareMap).filter
                (fun q => q.1 ≠ p.1)).map Prod.fst).map (fun x => -x)).prod)).sum
          % sampleP256.N :=
  ⟨by simp, ComplexSecretRetrieve_no_threshold [(1, 5)] sampleP256 (by simp)⟩

/-- C12: for every polynomial, every curve and every `x` in `1..n`,
`GetSpecifiedSecretShareByPolynomial(poly, x, curve)` is the share that the
loop of `ComplexSecretSplit` and of `ComplexSecretSplitWithVerifyPoints`
stores under the key `x` for that polynomial and curve, and so it is the
share under `x` in what the two functions return when they generated this
polynomial. -/
theorem reissued_share_eq {Pt : Type} (P256 curve : Curve Pt) (poly : List Int) (n x : Int)
    (h1 : 1 ≤ x) (hn : x ≤ n) :
    (evaluateShares curve.N poly n).lookup x
        = some (GetSpecifiedSecretShareByPolynomial poly x curve)
    ∧ (∀ t secret entropy shares,
        ComplexSecretToPolynomial n t secret curve entropy = .ok poly →
        (ComplexSecretSplit n t secret curve entropy).1 = some shares →
        shares.lookup x = some (GetSpecifiedSecretShareByPolynomial poly x curve))
    ∧ (∀ t secret entropy shares,
        ComplexSecretToPolynomial n t secret curve entropy = .ok poly →
        (ComplexSecretSplitWithVerifyPoints P256 n t secret curve entropy).1 = some shares →
        shares.lookup x = some (GetSpecifiedSecretShareByPolynomial poly x curve)) := by
  have hlook : (evaluateShares curve.N poly n).lookup x
      = some (GetSpecifiedSecretShareByPolynomial poly x curve) :=
    lookup_of_mem_of_nodup_keys _ _ _ (evaluateShares_keys_nodup curve.N poly n)
      ((evaluateShares_mem _ _ _ (x, BigPolynomial.Evaluate curve.N poly x)).mpr ⟨h1, hn, rfl⟩)
  refine ⟨hlook, ?_, ?_⟩
  · intro t secret entropy shares hp hs
    simp only [ComplexSecretSplit, hp, Option.some.injEq] at hs
    rw [← hs]
    exact hlook
  · intro t secret entropy shares hp hs
    simp only [ComplexSecretSplitWithVerifyPoints, hp] at hs
    cases hl : verifyPointsLoop P256 curve poly none with
    | error e => simp [hl] at hs
    | ok pts =>
      simp only [hl, Option.some.injEq] at hs
      rw [← hs]
      exact hlook

/-- C12 at the polynomial `[256, 12240, 13240]`, `n = 5` and `x = 2` on the
sample curve. -/
theorem reissued_share_eq_witness :
    (1 : Int) ≤ 2 ∧ (2 : Int) ≤ 5
    ∧ (evaluateShares sampleP256.N [256, 12240, 13240] 5).lookup 2
        = some (GetSpecifiedSecretShareByPolynomial [256, 12240, 13240] 2 sampleP256) :=
  ⟨by decide, by decide,
    (reissued_share_eq sampleP256 sampleP256 [256, 12240, 13240] 5 2 (by decide)
      (by decide)).1⟩

/-! ## Encoding of keys and integer lists -/

theorem SetBytes_eq_bigEndianValue (b : Octets) :
    BigInt.SetBytes b = ((bigEndianValue b : Nat) : Int) := by
  unfold BigInt.SetBytes
  congr 1
  induction b with
  | nil => simp [bigEndianValue]
  | cons x r ih =>
    rw [List.reverse_cons, List.map_append, Nat.ofDigits_append, ih]
    simp [bigEndianValue, Nat.ofDigits]
    ring

theorem Bytes_zero : BigInt.Bytes 0 = [] := by
  simp [BigInt.Bytes]

theorem Bytes_head_ne_zero (x : Int) : (BigInt.Bytes x).head? ≠ some 0 := by
  unfold BigInt.Bytes
  by_cases hx : x.natAbs = 0
  · simp [hx]
  · have hlast := Nat.getLast_digit_ne_zero 256 hx
    have hne : Nat.digits 256 x.natAbs ≠ [] := Nat.digits_ne_nil_iff_ne_zero.mpr hx
    rw [List.head?_map, List.head?_reverse, List.getLast?_eq_getLast _ hne]
    intro h
    simp only [Option.map_some', Option.some.injEq] at h
    have hlt : (Nat.digits 256 x.natAbs).getLast hne < 256 :=
      Nat.digits_lt_base (by norm_num) (List.getLast_mem hne)
    apply hlast
    have := congrArg Fin.val h
    simpa [Fin.ofNat, Nat.mod_eq_of_lt hlt] using this

theorem Bytes_length_le_iff (x : Int) (k : Nat) :
    (BigInt.Bytes x).length ≤ k ↔ x.natAbs < 256 ^ k := by
  unfold BigInt.Bytes
  rw [List.length_map, List.length_reverse]
  constructor
  · intro h
    exact lt_of_lt_of_le (Nat.lt_base_pow_length_digits (by norm_num))
      (Nat.pow_le_pow_right (by norm_num) h)
  · intro h
    by_cases hx : x.natAbs = 0
    · simp [hx]
    · have h1 := Nat.base_pow_length_digits_le 256 x.natAbs (by norm_num) hx
      have h2 : 256 ^ (Nat.digits 256 x.natAbs).length < 256 ^ (k + 1) := by
        rw [pow_succ]
        omega
      have := (Nat.pow_lt_pow_iff_right (by norm_num : 1 < 256)).mp h2
      omega

theorem bigEndianValue_dropWhile_zero (b : Octets) :
    bigEndianValue (b.dropWhile (fun x => x = 0)) = bigEndianValue b := by
  induction b with
  | nil => rfl
  | cons x r ih =>
    by_cases hx : x = 0
    · subst hx
      simp [List.dropWhile_cons, ih, bigEndianValue]
    · simp [List.dropWhile_cons, hx]

theorem head?_dropWhile_zero (b : Octets) :
    (b.dropWhile (fun x => x = 0)).head? ≠ some 0 := by
  induction b with
  | nil => simp
  | cons x r ih =>
    by_cases hx : x = 0
    · subst hx
      simpa [List.dropWhile_cons] using ih
    · simp [List.dropWhile_cons, hx]

/-- Writing out the integer read from a buffer strips the leading zero
bytes of the buffer. -/
theorem Bytes_SetBytes_dropWhile (b : Octets) :
    BigInt.Bytes (BigInt.SetBytes b) = b.dropWhile (fun x => x = 0) := by
  have h : BigInt.SetBytes b = BigInt.SetBytes (b.dropWhile (fun x => x = 0)) := by
    rw [SetBytes_eq_bigEndianValue, SetBytes_eq_bigEndianValue, bigEndianValue_dropWhile_zero]
  rw [h, Bytes_SetBytes _ (head?_dropWhile_zero b)]

/-- C13: for every private key with a non-negative scalar,
`PrivateKeyFromByte(PrivateKeyToByte(k))` has the scalar of `k`; the scalar 0
is encoded as the empty buffer and decoded from it. -/
theorem PrivateKey_roundtrip (k : PrivateKey) (hk : 0 ≤ k.X) :
    (PrivateKeyFromByte (PrivateKeyToByte k)).X = k.X
    ∧ PrivateKeyFromByte (PrivateKeyToByte k) = k
    ∧ PrivateKeyToByte { X := 0 } = []
    ∧ (PrivateKeyFromByte []).X = 0 := by
  have h : (PrivateKeyFromByte (PrivateKeyToByte k)).X = k.X := SetBytes_Bytes k.X hk
  refine ⟨h, ?_, Bytes_zero, rfl⟩
  cases k
  simpa [PrivateKeyFromByte, PrivateKeyToByte] using h

/-- C13 at the scalar 65536. -/
theorem PrivateKey_roundtrip_witness :
    (0 : Int) ≤ ({ X := 65536 } : PrivateKey).X
    ∧ (PrivateKeyFromByte (PrivateKeyToByte { X := 65536 })).X = 65536 :=
  ⟨by decide, (PrivateKey_roundtrip { X := 65536 } (by decide)).1⟩

/-- C14: `PrivateKeyToByte` returns the big-endian unsigned encoding of the
scalar, of variable length: for a non-negative `X` the buffer has the value
`sum_i b[i] * 256^(len-1-i) = X` and no leading zero byte, and it is empty for
`X = 0`; `PrivateKeyFromByte` reads every buffer, as its big-endian value, and
`PrivateKeyToByte(PrivateKeyFromByte(b))` is `b` without its leading zero
bytes. -/
theorem PrivateKeyToByte_big_endian (X : Int) (hX : 0 ≤ X) :
    ((bigEndianValue (PrivateKeyToByte { X := X }) : Nat) : Int) = X
    ∧ (PrivateKeyToByte { X := X }).head? ≠ some 0
    ∧ (X = 0 → (PrivateKeyToByte { X := X }).length = 0)
    ∧ (∀ b : Octets, (PrivateKeyFromByte b).X = ((bigEndianValue b : Nat) : Int))
    ∧ (∀ b : Octets,
        PrivateKeyToByte (PrivateKeyFromByte b) = b.dropWhile (fun x => x = 0)) := by
  refine ⟨?_, Bytes_head_ne_zero X, ?_, ?_, ?_⟩
  · rw [← SetBytes_eq_bigEndianValue]
    exact SetBytes_Bytes X hX
  · intro h0
    subst h0
    simp [PrivateKeyToByte, Bytes_zero]
  · intro b
    exact SetBytes_eq_bigEndianValue b
  · intro b
    exact Bytes_SetBytes_dropWhile b

/-- C14 at the scalar 65536. -/
theorem PrivateKeyToByte_big_endian_witness :
    (0 : Int) ≤ 65536
    ∧ ((bigEndianValue (PrivateKeyToByte { X := 65536 }) : Nat) : Int) = 65536
    ∧ PrivateKeyToByte (PrivateKeyFromByte [0, 0, 1, 0])
        = ([0, 0, 1, 0] : Octets).dropWhile (fun x => x = 0) :=
  ⟨by decide, (PrivateKeyToByte_big_endian 65536 (by decide)).1,
    (PrivateKeyToByte_big_endian 65536 (by decide)).2.2.2.2 [0, 0, 1, 0]⟩

theorem PrivateKeyToByte_one : PrivateKeyToByte { X := 1 } = [1] := by
  simp [PrivateKeyToByte, BigInt.Bytes]
  decide

theorem PrivateKeyToByte_256 : PrivateKeyToByte { X := 256 } = [1, 0] := by
  simp [PrivateKeyToByte, BigInt.Bytes]
  decide

/-- C15 as stated fails: the scalars 1 and 256 are both in `[0, order)` for
the order of BLS12-381, and their encodings `[1]` and `[1, 0]` have the
lengths 1 and 2. -/
theorem PrivateKeyToByte_length_varies :
    (0 : Int) ≤ 1 ∧ 1 < sampleParams.order ∧ (0 : Int) ≤ 256 ∧ 256 < sampleParams.order
    ∧ (PrivateKeyToByte { X := 1 }).length = 1
    ∧ (PrivateKeyToByte { X := 256 }).length = 2
    ∧ (PrivateKeyToByte { X := 1 }).length ≠ (PrivateKeyToByte { X := 256 }).length := by
  rw [PrivateKeyToByte_one, PrivateKeyToByte_256]
  refine ⟨by decide, by simp [sampleParams], by decide, by simp [sampleParams], rfl, rfl,
    by decide⟩

theorem PrivateKeyToByte_length_le_iff (x : Int) (hx : 0 ≤ x) (k : Nat) :
    (PrivateKeyToByte { X := x }).length ≤ k ↔ x < 256 ^ k := by
  unfold PrivateKeyToByte
  rw [Bytes_length_le_iff]
  constructor
  · intro h
    have : ((x.natAbs : Nat) : Int) < ((256 ^ k : Nat) : Int) := by exact_mod_cast h
    rw [Int.natAbs_of_nonneg hx] at this
    exact_mod_cast this
  · intro h
    have : ((x.natAbs : Nat) : Int) < ((256 ^ k : Nat) : Int) := by
      rw [Int.natAbs_of_nonneg hx]
      exact_mod_cast h
    exact_mod_cast this

/-- C15, amended: the encoding of a private key has variable length, at most
32 bytes when the order is below `256^32` (as the order of BLS12-381 is): for
a scalar `x` in `[0, order)` the length of the buffer is at most `k` exactly
when `x < 256^k`, and two scalars of `[0, order)` get buffers of the same
length exactly when they are below the same powers of 256. -/
theorem PrivateKeyToByte_length {G1 G2 : Type} (P : PairingParams G1 G2)
    (hord : P.order ≤ 256 ^ 32) (x : Int) (hx : 0 ≤ x) (hlt : x < P.order) :
    (PrivateKeyToByte { X := x }).length ≤ 32
    ∧ (∀ k : Nat, (PrivateKeyToByte { X := x }).length ≤ k ↔ x < 256 ^ k)
    ∧ (∀ y : Int, 0 ≤ y → y < P.order →
        ((PrivateKeyToByte { X := x }).length = (PrivateKeyToByte { X := y }).length
          ↔ ∀ k : Nat, x < 256 ^ k ↔ y < 256 ^ k)) := by
  refine ⟨(PrivateKeyToByte_length_le_iff x hx 32).mpr (lt_of_lt_of_le hlt hord),
    PrivateKeyToByte_length_le_iff x hx, ?_⟩
  intro y hy _
  constructor
  · intro h k
    rw [← PrivateKeyToByte_length_le_iff x hx, ← PrivateKeyToByte_length_le_iff y hy, h]
  · intro h
    apply le_antisymm
    · exact (PrivateKeyToByte_length_le_iff x hx _).mpr
        ((h _).mpr ((PrivateKeyToByte_length_le_iff y hy _).mp le_rfl))
    · exact (PrivateKeyToByte_length_le_iff y hy _).mpr
        ((h _).mp ((PrivateKeyToByte_length_le_iff x hx _).mp le_rfl))

/-- C15, amended, at the scalar 256 and the order of BLS12-381. -/
theorem PrivateKeyToByte_length_witness :
    sampleParams.order ≤ 256 ^ 32 ∧ (0 : Int) ≤ 256 ∧ 256 < sampleParams.order
    ∧ (PrivateKeyToByte { X := 256 }).length ≤ 32
    ∧ (∀ k : Nat, (PrivateKeyToByte { X := 256 }).length ≤ k ↔ (256 : Int) < 256 ^ k) :=
  ⟨by simp [sampleParams], by decide, by simp [sampleParams],
    (PrivateKeyToByte_length sampleParams (by simp [sampleParams]) 256 (by decide)
      (by simp [sampleParams])).1,
    (PrivateKeyToByte_length sampleParams (by simp [sampleParams]) 256 (by decide)
      (by simp [sampleParams])).2.1⟩

theorem foldl_append_singleton {α β : Type} (f : α → β) (l : List α) (acc : List β) :
    l.foldl (fun ret n => ret ++ [f n]) acc = acc ++ l.map f := by
  induction l generalizing acc with
  | nil => simp
  | cons a l ih => simp [List.foldl_cons, ih]

theorem IntListToBytes_eq_map (l : List Int) : IntListToBytes l = l.map BigInt.Bytes := by
  simp [IntListToBytes, foldl_append_singleton]

theorem IntListFromBytes_eq_map (l : List Octets) :
    IntListFromBytes l = l.map BigInt.SetBytes := by
  simp [IntListFromBytes, foldl_append_singleton]

/-- C16: for a list `l` of non-negative integers, `IntListToBytes(l)` has
`len(l)` separate buffers, the `i`-th being the big-endian encoding of
`l[i]`, and `IntListFromBytes(IntListToBytes(l))` is `l`, element by element
in the same order. -/
theorem IntList_roundtrip (l : List Int) (hl : ∀ n ∈ l, 0 ≤ n) :
    (IntListToBytes l).length = l.length
    ∧ (∀ i : Nat, (IntListToBytes l)[i]? = (l[i]?).map BigInt.Bytes)
    ∧ (∀ (i : Nat) (n : Int), l[i]? = some n →
        ∃ b, (IntListToBytes l)[i]? = some b ∧ ((bigEndianValue b : Nat) : Int) = n
          ∧ b.head? ≠ some 0)
    ∧ IntListFromBytes (IntListToBytes l) = l
    ∧ (∀ i : Nat, (IntListFromBytes (IntListToBytes l))[i]? = l[i]?) := by
  have hrt : IntListFromBytes (IntListToBytes l) = l := by
    rw [IntListToBytes_eq_map, IntListFromBytes_eq_map, List.map_map]
    conv_rhs => rw [← List.map_id l]
    apply List.map_congr_left
    intro n hn
    exact SetBytes_Bytes n (hl n hn)
  refine ⟨by simp [IntListToBytes_eq_map], ?_, ?_, hrt, ?_⟩
  · intro i
    simp [IntListToBytes_eq_map]
  · intro i n hi
    refine ⟨BigInt.Bytes n, by simp [IntListToBytes_eq_map, hi], ?_, Bytes_head_ne_zero n⟩
    rw [← SetBytes_eq_bigEndianValue]
    exact SetBytes_Bytes n (hl n (List.getElem?_mem hi))
  · intro i
    rw [hrt]

/-- C16 at the list `[3, 0, 65536]`. -/
theorem IntList_roundtrip_witness :
    (∀ n ∈ [(3 : Int), 0, 65536], 0 ≤ n)
    ∧ (IntListToBytes [3, 0, 65536]).length = 3
    ∧ IntListFromBytes (IntListToBytes [3, 0, 65536]) = [3, 0, 65536] :=
  ⟨by decide, (IntList_roundtrip [3, 0, 65536] (by decide)).1,
    (IntList_roundtrip [3, 0, 65536] (by decide)).2.2.2.1⟩

/-! ## Decoding the parameters of a proof and of a verification -/

/-- C17: `VerifyParamsFromBytes` returns an error exactly when the sigma
buffer, the mu buffer or the public key buffer does not decode as a point;
they are tried in this order and the first failure is the error returned,
with the zero `VerifyParams`; on success every field is the decoding of its
argument, `Indices` and `RandomVs` element by element. -/
theorem VerifyParamsFromBytes_spec {G1 G2 : Type} (E : PointEncoding G1 G2)
    (sigma mu randV randU pubkey : Octets) (indices randVs : List Octets) :
    ((VerifyParamsFromBytes E sigma mu randV randU pubkey indices randVs).2 ≠ none
        ↔ ((∃ e, E.G1Unmarshal sigma = .error e) ∨ (∃ e, E.G1Unmarshal mu = .error e)
            ∨ (∃ e, E.G2Unmarshal pubkey = .error e)))
    ∧ (∀ e, E.G1Unmarshal sigma = .error e →
        VerifyParamsFromBytes E sigma mu randV randU pubkey indices randVs
          = (VerifyParams.zero, some e))
    ∧ (∀ s e, E.G1Unmarshal sigma = .ok s → E.G1Unmarshal mu = .error e →
        VerifyParamsFromBytes E sigma mu randV randU pubkey indices randVs
          = (VerifyParams.zero, some e))
    ∧ (∀ s m e, E.G1Unmarshal sigma = .ok s → E.G1Unmarshal mu = .ok m →
        E.G2Unmarshal pubkey = .error e →
        VerifyParamsFromBytes E sigma mu randV randU pubkey indices randVs
          = (VerifyParams.zero, some e))
    ∧ ((VerifyParamsFromBytes E sigma mu randV randU pubkey indices randVs).2 ≠ none →
        (VerifyParamsFromBytes E sigma mu randV randU pubkey indices randVs).1
          = VerifyParams.zero)
    ∧ (∀ s m pub, E.G1Unmarshal sigma = .ok s → E.G1Unmarshal mu = .ok m →
        E.G2Unmarshal pubkey = .ok pub →
        VerifyParamsFromBytes E sigma mu randV randU pubkey indices randVs
          = ({ Sigma := some s
               Mu := some m
               RandomV := some (BigInt.SetBytes randV)
               RandomU := some (BigInt.SetBytes randU)
               Indices := indices.map BigInt.SetBytes
               RandomVs := randVs.map BigInt.SetBytes
               Pubkey := some { P := pub } }, none))
    ∧ (IntListFromBytes indices).length = indices.length
    ∧ (IntListFromBytes randVs).length = randVs.length := by
  unfold VerifyParamsFromBytes G1FromByte PublicKeyFromByte
  simp only [IntListFromBytes_eq_map, List.length_map]
  cases hs : E.G1Unmarshal sigma with
  | error e => simp
  | ok s =>
    cases hm : E.G1Unmarshal mu with
    | error e => simp
    | ok m =>
      cases hp : E.G2Unmarshal pubkey with
      | error e => simp
      | ok pub => simp

/-- C17 on the sample encoding: the empty sigma buffer and a mu buffer with a
leading zero byte both fail to decode, and the error returned is the one of
sigma. -/
theorem VerifyParamsFromBytes_spec_witness :
    sampleEncoding.G1Unmarshal [] = .error Error.badPointEncoding
    ∧ sampleEncoding.G1Unmarshal [0, 1] = .error Error.pointNotOnCurve
    ∧ VerifyParamsFromBytes sampleEncoding [] [0, 1] [7] [3] [5] [[1], [2]] [[3], [5]]
        = (VerifyParams.zero, some Error.badPointEncoding) :=
  ⟨rfl, rfl,
    (VerifyParamsFromBytes_spec sampleEncoding [] [0, 1] [7] [3] [5] [[1], [2]]
      [[3], [5]]).2.1 Error.badPointEncoding rfl⟩

theorem G1sFromBytesLoop_ok {G1 G2 : Type} (E : PointEncoding G1 G2) (gs : List Octets)
    (pts acc : List G1) (h : List.Forall₂ (fun g p => E.G1Unmarshal g = .ok p) gs pts) :
    G1sFromBytesLoop E gs acc = (acc ++ pts, none) := by
  induction h generalizing acc with
  | nil => simp [G1sFromBytesLoop]
  | cons hgp _ ih =>
    simp only [G1sFromBytesLoop, hgp]
    rw [ih]
    simp

theorem G1sFromBytesLoop_error {G1 G2 : Type} (E : PointEncoding G1 G2)
    (pre post : List Octets) (g : Octets) (e : Error) (acc : List G1)
    (hpre : ∀ x ∈ pre, ∃ p, E.G1Unmarshal x = .ok p) (hg : E.G1Unmarshal g = .error e) :
    G1sFromBytesLoop E (pre ++ g :: post) acc = ([], some e) := by
  induction pre generalizing acc with
  | nil => simp [G1sFromBytesLoop, hg]
  | cons x pre ih =>
    obtain ⟨p, hp⟩ := hpre x (List.mem_cons_self _ _)
    simp only [List.cons_append, G1sFromBytesLoop, hp]
    exact ih _ (fun y hy => hpre y (List.mem_cons_of_mem _ hy))

theorem exists_decoded_points {G1 G2 : Type} (E : PointEncoding G1 G2)
    (gs : List Octets) (h : ∀ g ∈ gs, ∃ p, E.G1Unmarshal g = .ok p) :
    ∃ pts, List.Forall₂ (fun g p => E.G1Unmarshal g = .ok p) gs pts := by
  induction gs with
  | nil => exact ⟨[], List.Forall₂.nil⟩
  | cons g gs ih =>
    obtain ⟨p, hp⟩ := h g (List.mem_cons_self _ _)
    obtain ⟨pts, hpts⟩ := ih (fun x hx => h x (List.mem_cons_of_mem _ hx))
    exact ⟨p :: pts, List.Forall₂.cons hp hpts⟩

theorem exists_first_undecodable {G1 G2 : Type} (E : PointEncoding G1 G2)
    (gs : List Octets) (h : ¬ ∀ g ∈ gs, ∃ p, E.G1Unmarshal g = .ok p) :
    ∃ pre g post e, gs = pre ++ g :: post ∧ (∀ x ∈ pre, ∃ p, E.G1Unmarshal x = .ok p)
      ∧ E.G1Unmarshal g = .error e := by
  induction gs with
  | nil => exact absurd (by simp) h
  | cons g gs ih =>
    cases hg : E.G1Unmarshal g with
    | error e => exact ⟨[], g, gs, e, rfl, by simp, hg⟩
    | ok p =>
      have h2 : ¬ ∀ x ∈ gs, ∃ p, E.G1Unmarshal x = .ok p := by
        intro hall
        apply h
        intro x hx
        rcases List.mem_cons.mp hx with rfl | hx
        · exact ⟨p, hg⟩
        · exact hall x hx
      obtain ⟨pre, g2, post, e, hsplit, hpre, herr⟩ := ih h2
      refine ⟨g :: pre, g2, post, e, by rw [hsplit]; rfl, ?_, herr⟩
      intro x hx
      rcases List.mem_cons.mp hx with rfl | hx
      · exact ⟨p, hg⟩
      · exact hpre x hx

/-- C18: `ProofParamsFromBytes` succeeds exactly when every buffer of the
sigma list decodes as a point of G1; then `Sigmas` are the decoded points in
the order of the list, `Content` and `RandThisRound` are the arguments, and
`Indices` and `RandomVs` are the element-wise decodings; at the first sigma
that does not decode it returns the zero `ProofParams` and that error. -/
theorem ProofParamsFromBytes_spec {G1 G2 : Type} (E : PointEncoding G1 G2)
    (content indices randVs sigmas : List Octets) (rand : Octets) :
    ((ProofParamsFromBytes E content indices randVs sigmas rand).2 = none
        ↔ ∀ g ∈ sigmas, ∃ p, E.G1Unmarshal g = .ok p)
    ∧ (∀ pts, List.Forall₂ (fun g p => E.G1Unmarshal g = .ok p) sigmas pts →
        pts.length = sigmas.length
        ∧ ProofParamsFromBytes E content indices randVs sigmas rand
          = ({ Content := content
               Indices := indices.map BigInt.SetBytes
               RandomVs := randVs.map BigInt.SetBytes
               Sigmas := pts
               RandThisRound := rand }, none))
    ∧ (∀ pre g post e, sigmas = pre ++ g :: post →
        (∀ x ∈ pre, ∃ p, E.G1Unmarshal x = .ok p) → E.G1Unmarshal g = .error e →
        ProofParamsFromBytes E content indices randVs sigmas rand
          = (ProofParams.zero, some e)) := by
  have hok : ∀ pts, List.Forall₂ (fun g p => E.G1Unmarshal g = .ok p) sigmas pts →
      ProofParamsFromBytes E content indices randVs sigmas rand
        = ({ Content := content
             Indices := indices.map BigInt.SetBytes
             RandomVs := randVs.map BigInt.SetBytes
             Sigmas := pts
             RandThisRound := rand }, none) := by
    intro pts hpts
    simp [ProofParamsFromBytes, G1sFromBytes, G1sFromBytesLoop_ok E sigmas pts [] hpts,
      IntListFromBytes_eq_map]
  have herr : ∀ pre g post e, sigmas = pre ++ g :: post →
      (∀ x ∈ pre, ∃ p, E.G1Unmarshal x = .ok p) → E.G1Unmarshal g = .error e →
      ProofParamsFromBytes E content indices randVs sigmas rand
        = (ProofParams.zero, some e) := by
    intro pre g post e hsplit hpre hg
    simp [ProofParamsFromBytes, G1sFromBytes, hsplit,
      G1sFromBytesLoop_error E pre post g e [] hpre hg]
  refine ⟨?_, fun pts hpts => ⟨hpts.length_eq.symm, hok pts hpts⟩, herr⟩
  constructor
  · intro hnone
    by_contra hall
    obtain ⟨pre, g, post, e, hsplit, hpre, hg⟩ := exists_first_undecodable E sigmas hall
    rw [herr pre g post e hsplit hpre hg] at hnone
    simp at hnone
  · intro hall
    obtain ⟨pts, hpts⟩ := exists_decoded_points E sigmas hall
    rw [hok pts hpts]

/-- C18 on the sample encoding: the second sigma buffer is empty and does not
decode, so the zero `ProofParams` and its error are returned although the
first buffer decodes. -/
theorem ProofParamsFromBytes_spec_witness :
    ([[5], [], [7]] : List Octets) = [[5]] ++ [] :: [[7]]
    ∧ (∀ x ∈ ([[5]] : List Octets), ∃ p, sampleEncoding.G1Unmarshal x = .ok p)
    ∧ sampleEncoding.G1Unmarshal [] = .error Error.badPointEncoding
    ∧ ProofParamsFromBytes sampleEncoding [alphaBytes, betaBytes] [[1], [2]] [[3], [5]]
        [[5], [], [7]] [9] = (ProofParams.zero, some Error.badPointEncoding) :=
  ⟨rfl, by simp [sampleEncoding], rfl,
    (ProofParamsFromBytes_spec sampleEncoding [alphaBytes, betaBytes] [[1], [2]] [[3], [5]]
      [[5], [], [7]] [9]).2.2 [[5]] [] [[7]] Error.badPointEncoding rfl
      (by simp [sampleEncoding]) rfl⟩

/-! ## Determinism of the tag -/

theorem String_of_neg (x : Int) (hx : x < 0) :
    BigInt.String x = '-' :: decDigits x.natAbs := by
  unfold BigInt.String
  rw [if_pos hx]

/-- A decimal representation followed by a minus sign does not read back. -/
theorem SetString_decDigits_minus (a : Nat) (t : List Char) :
    BigInt.SetString (decDigits a ++ '-' :: t) = none := by
  have hm : digitVal '-' = none := by decide
  have hscan : scanDigits (decDigits a ++ '-' :: t) 0 = none := by
    rw [scanDigits_append, scanDigits_decDigits]
    simp [scanDigits, hm]
  rcases hda : decDigits a with _ | ⟨c, r⟩
  · exact absurd hda (decDigits_ne_nil a)
  · obtain ⟨h1, h2⟩ := decDigits_head_not_sign a c r hda
    rw [hda] at hscan
    simp only [List.cons_append] at hscan ⊢
    simp only [BigInt.SetString, if_neg h1, if_neg h2, hscan, Option.map_none']

/-- One turn of the loop of `concatBigInt` fails on a negative element. -/
theorem concatBigIntStep_neg (m ret n : Int) (hret : 0 ≤ ret) (hn : n < 0) :
    concatBigIntStep m ret n
      = .error (Error.badBigIntString (BigInt.String ret ++ BigInt.String n)) := by
  unfold concatBigIntStep
  have h : BigInt.SetString (BigInt.String ret ++ BigInt.String n) = none := by
    rw [String_of_nonneg ret hret, String_of_neg n hn]
    exact SetString_decDigits_minus _ _
  simp only [h]

/-- The error of `CalculateSigmaI` on a negative `RandomV` or `Index`. -/
theorem CalculateSigmaI_error {G1 G2 : Type} [AddCommGroup G1] (P : PairingParams G1 G2)
    (param : CalculateSigmaIParams) (hord : 0 < P.order)
    (hneg : param.RandomV < 0 ∨ param.Index < 0) :
    CalculateSigmaI P param
      = .error (Error.badBigIntString
          (if param.RandomV < 0 then BigInt.String 0 ++ BigInt.String param.RandomV
           else BigInt.String (param.RandomV % P.order) ++ BigInt.String param.Index)) := by
  unfold CalculateSigmaI concatBigInt
  by_cases hV : param.RandomV < 0
  · simp only [concatBigIntFrom, concatBigIntStep_neg P.order 0 _ le_rfl hV, if_pos hV]
  · have hI : param.Index < 0 := by
      rcases hneg with h | h
      · exact absurd h hV
      · exact h
    have hV0 : 0 ≤ param.RandomV := not_lt.mp hV
    have hstep := concatBigIntStep_nonneg P.order hord 0 param.RandomV hV0
    simp only [Nat.cast_zero, Int.zero_emod, zero_mul, zero_add] at hstep
    have hval : ((param.RandomV.toNat : Nat) : Int) % P.order = param.RandomV % P.order := by
      rw [Int.toNat_of_nonneg hV0]
    simp only [concatBigIntFrom, hstep, hval,
      concatBigIntStep_neg P.order _ _ (Int.emod_nonneg _ (ne_of_gt hord)) hI, if_neg hV]

theorem goAppend_bytes (s : ContentBuffer) (t : Octets) : (goAppend s t).1 = s.data ++ t := by
  unfold goAppend
  split <;> rfl

theorem goAppend_spare_length (s : ContentBuffer) (t : Octets) :
    (goAppend s t).2.length = s.spare.length := by
  unfold goAppend
  split
  · rename_i h
    simp only [List.length_append, List.length_drop]
    omega
  · rfl

/-- The result of `CalculateSigmaI` does not depend on the spare bytes of the
backing array of `Content`. -/
theorem CalculateSigmaI_withBuffer_result {G1 G2 : Type} [AddCommGroup G1]
    (P : PairingParams G1 G2) (param : CalculateSigmaIParams) (spare : Octets) :
    (CalculateSigmaI.withBuffer P param spare).1 = CalculateSigmaI P param := by
  unfold CalculateSigmaI.withBuffer CalculateSigmaI
  cases concatBigInt [param.RandomV, param.Index] P.order with
  | error err => rfl
  | ok vi => simp only [goAppend_bytes]

/-- What `CalculateSigmaI` leaves in the spare bytes of the backing array of
`Content`. -/
theorem CalculateSigmaI_withBuffer_spare {G1 G2 : Type} [AddCommGroup G1]
    (P : PairingParams G1 G2) (param : CalculateSigmaIParams) (spare : Octets) :
    (CalculateSigmaI.withBuffer P param spare).2
      = (match CalculateSigmaI P param with
        | .error _ => spare
        | .ok _ =>
          if (genRandNumByRound P param.Round param.Privkey.X).length ≤ spare.length then
            genRandNumByRound P param.Round param.Privkey.X
              ++ spare.drop (genRandNumByRound P param.Round param.Privkey.X).length
          else spare) := by
  unfold CalculateSigmaI.withBuffer CalculateSigmaI
  cases concatBigInt [param.RandomV, param.Index] P.order with
  | error err => rfl
  | ok vi =>
    simp only [goAppend]
    split <;> rfl

/-- C19: two calls of `CalculateSigmaI` with equal `Content`, `Index`,
`RandomV`, `RandomU`, private scalar and `Round` return the same result, the
same point or the same error, whatever the capacity of the two `Content`
slices and whatever lies in their backing arrays beyond the length; the result
is the value of the six arguments and the group parameters alone. The call
does write: when it computes a tag and the capacity of `Content` has room for
the round mask, `append` puts the mask into the caller's array right after the
content. The content itself is untouched, so a second call on the buffer the
first one left returns the same result again. -/
theorem CalculateSigmaI_deterministic {G1 G2 : Type} [AddCommGroup G1]
    (P : PairingParams G1 G2) (p q : CalculateSigmaIParams) (sp sq : Octets)
    (hC : p.Content = q.Content) (hI : p.Index = q.Index) (hV : p.RandomV = q.RandomV)
    (hU : p.RandomU = q.RandomU) (hK : p.Privkey.X = q.Privkey.X) (hR : p.Round = q.Round) :
    (CalculateSigmaI.withBuffer P p sp).1 = (CalculateSigmaI.withBuffer P q sq).1
    ∧ (CalculateSigmaI.withBuffer P p sp).1 = CalculateSigmaI P p
    ∧ (CalculateSigmaI.withBuffer P q (CalculateSigmaI.withBuffer P p sp).2).1
        = (CalculateSigmaI.withBuffer P p sp).1
    ∧ (CalculateSigmaI.withBuffer P p sp).2.length = sp.length
    ∧ (∀ sigma, (CalculateSigmaI.withBuffer P p sp).1 = .ok sigma →
        (genRandNumByRound P p.Round p.Privkey.X).length ≤ sp.length →
        (CalculateSigmaI.withBuffer P p sp).2
          = genRandNumByRound P p.Round p.Privkey.X
              ++ sp.drop (genRandNumByRound P p.Round p.Privkey.X).length)
    ∧ (((∃ err, (CalculateSigmaI.withBuffer P p sp).1 = .error err)
          ∨ sp.length < (genRandNumByRound P p.Round p.Privkey.X).length) →
        (CalculateSigmaI.withBuffer P p sp).2 = sp) := by
  have hpq : p = q := by
    cases p with
    | mk c i v u k r =>
      cases q with
      | mk c2 i2 v2 u2 k2 r2 =>
        cases k
        cases k2
        simp only at hC hI hV hU hK hR
        subst hC hI hV hU hK hR
        rfl
  subst hpq
  have hres := CalculateSigmaI_withBuffer_result P p
  have hspare := CalculateSigmaI_withBuffer_spare P p sp
  refine ⟨by rw [hres sp, hres sq], hres sp, by rw [hres, hres], ?_, ?_, ?_⟩
  · rw [hspare]
    cases CalculateSigmaI P p with
    | error err => rfl
    | ok sigma =>
      simp only
      split
      · rename_i h
        simp only [List.length_append, List.length_drop]
        omega
      · rfl
  · intro sigma hok hroom
    rw [hres] at hok
    rw [hspare, hok]
    simp only [hroom, if_true]
  · intro h
    rw [hspare]
    rcases h with ⟨err, herr⟩ | hshort
    · rw [hres] at herr
      rw [herr]
    · cases CalculateSigmaI P p with
      | error err => rfl
      | ok sigma =>
        simp only [not_le.2 hshort, if_false]

/-- C19 at `sampleSigmaParams`, once on a `Content` slice without spare
capacity and once, with the parameters written out field by field, on a slice
with 64 spare bytes: the results are equal. -/
theorem CalculateSigmaI_deterministic_witness :
    sampleSigmaParams.Content = alphaBytes ∧ sampleSigmaParams.Index = 1
    ∧ sampleSigmaParams.RandomV = 7 ∧ sampleSigmaParams.RandomU = 3
    ∧ sampleSigmaParams.Privkey.X = 5 ∧ sampleSigmaParams.Round = 2
    ∧ (CalculateSigmaI.withBuffer sampleParams sampleSigmaParams []).1
        = (CalculateSigmaI.withBuffer sampleParams ⟨alphaBytes, 1, 7, 3, ⟨5⟩, 2⟩
            (List.replicate 64 0)).1 :=
  ⟨rfl, rfl, rfl, rfl, rfl, rfl,
    (CalculateSigmaI_deterministic sampleParams sampleSigmaParams ⟨alphaBytes, 1, 7, 3, ⟨5⟩, 2⟩
      [] (List.replicate 64 0) rfl rfl rfl rfl rfl rfl).1⟩

/-! ## Verification of a proof over altered content -/

theorem IsBilinear.sub_left {G1 G2 GT : Type} [AddCommGroup G1] [AddCommGroup G2]
    [AddCommGroup GT] {e : G1 → G2 → GT} (he : IsBilinear e) (a b : G1) (q : G2) :
    e (a - b) q = e a q - e b q :=
  map_sub (AddMonoidHom.mk' (fun x => e x q) (fun x y => he.add_left x y q)) a b

/-- A bilinear map that is non-degenerate at `g2` separates the points of G1. -/
theorem IsBilinear.eq_iff_of_nondegenerate {G1 G2 GT : Type} [AddCommGroup G1]
    [AddCommGroup G2] [AddCommGroup GT] {e : G1 → G2 → GT} (he : IsBilinear e) (g2 : G2)
    (hnd : ∀ x : G1, e x g2 = 0 → x = 0) (a b : G1) : e a g2 = e b g2 ↔ a = b := by
  constructor
  · intro h
    have h0 : e (a - b) g2 = 0 := by rw [he.sub_left, h, sub_self]
    exact sub_eq_zero.mp (hnd _ h0)
  · intro h
    rw [h]

theorem recomputeHashes_nonneg {G1 G2 : Type} [AddCommGroup G1] (P : PairingParams G1 G2)
    (hord : 0 < P.order) (V : Int) (hV : 0 ≤ V) (l : List Int) (hl : ∀ i ∈ l, 0 ≤ i) :
    recomputeHashes P V l
      = .ok (l.map (fun i => hashToG1 P
          (((decimalValue (BigInt.String V ++ BigInt.String i) : Nat) : Int) % P.order))) := by
  induction l with
  | nil => rfl
  | cons i rest ih =>
    simp only [recomputeHashes, concatBigInt_pair P.order V i hord hV
      (hl i (List.mem_cons_self _ _)), ih (fun x hx => hl x (List.mem_cons_of_mem _ hx)),
      List.map_cons]

theorem zipWith_map_left_sum {α G : Type} [AddCommGroup G] (l : List α) (c : α → Int)
    (f : α → G) :
    (List.zipWith (fun v p => v • p) (l.map c) (l.map f)).sum
      = (l.map (fun s => c s • f s)).sum := by
  induction l with
  | nil => rfl
  | cons a l ih => simp [ih]

theorem sum_smul_comm {α G : Type} [AddCommGroup G] (l : List α) (c : α → Int) (u : Int)
    (f : α → G) :
    (l.map (fun s => c s • (u • f s))).sum = u • (l.map (fun s => c s • f s)).sum := by
  induction l with
  | nil => simp
  | cons a l ih =>
    rw [List.map_cons, List.sum_cons, ih, List.map_cons, List.sum_cons, smul_add,
      smul_comm (c a) u]

/-- What the verification tests, for honest tags and a proof whose `mu` is
any point: acceptance is the equality of `sk * U * mu` with the value for the
tagged content. -/
theorem Verify_accepts_iff {G1 G2 GT : Type} [AddCommGroup G1] [AddCommGroup G2]
    [AddCommGroup GT] [DecidableEq GT] (P : PairingParams G1 G2) (e : G1 → G2 → GT)
    (he : IsBilinear e) (hnd : ∀ x : G1, e x P.g2Gen = 0 → x = 0) (hord : 0 < P.order)
    (sk : PrivateKey) (pk : PublicKey G2) (hpk : pk.P = sk.X • P.g2Gen)
    (V U round : Int) (hV : 0 ≤ V) (segs : List ChallengedSegment)
    (hI : ∀ s ∈ segs, 0 ≤ s.index) (hdist : (segs.map ChallengedSegment.index).Nodup)
    (mu2 : G1) :
    ∃ b : Bool,
      Verify P e
        { Sigma := some ((List.zipWith (fun v s => v • s)
            (segs.map ChallengedSegment.coeff)
            (segs.map (fun s => sk.X •
              (hashToG1 P (((decimalValue (BigInt.String V ++ BigInt.String s.index) : Nat)
                  : Int) % P.order)
                + U • (BigInt.SetBytes (P.sha256 (s.content
                    ++ genRandNumByRound P round sk.X)) • P.g1Gen))))).sum)
          Mu := some mu2
          RandomV := some V
          RandomU := some U
          Indices := segs.map ChallengedSegment.index
          RandomVs := segs.map ChallengedSegment.coeff
          Pubkey := some pk } = some (.ok b)
      ∧ (b = true ↔ (sk.X * U) • mu2
          = (sk.X * U) • (segs.map (fun s => s.coeff •
              (BigInt.SetBytes (P.sha256 (s.content
                ++ genRandNumByRound P round sk.X)) • P.g1Gen))).sum) := by
  have hI2 : ∀ i ∈ segs.map ChallengedSegment.index, 0 ≤ i := by
    intro i hi
    obtain ⟨s, hs, rfl⟩ := List.mem_map.mp hi
    exact hI s hs
  have hverify : Verify P e
        { Sigma := some ((List.zipWith (fun v s => v • s)
            (segs.map ChallengedSegment.coeff)
            (segs.map (fun s => sk.X •
              (hashToG1 P (((decimalValue (BigInt.String V ++ BigInt.String s.index) : Nat)
                  : Int) % P.order)
                + U • (BigInt.SetBytes (P.sha256 (s.content
                    ++ genRandNumByRound P round sk.X)) • P.g1Gen))))).sum)
          Mu := some mu2
          RandomV := some V
          RandomU := some U
          Indices := segs.map ChallengedSegment.index
          RandomVs := segs.map ChallengedSegment.coeff
          Pubkey := some pk }
      = some (.ok (decide (e ((List.zipWith (fun v s => v • s)
            (segs.map ChallengedSegment.coeff)
            (segs.map (fun s => sk.X •
              (hashToG1 P (((decimalValue (BigInt.String V ++ BigInt.String s.index) : Nat)
                  : Int) % P.order)
                + U • (BigInt.SetBytes (P.sha256 (s.content
                    ++ genRandNumByRound P round sk.X)) • P.g1Gen))))).sum) P.g2Gen
          = e ((List.zipWith (fun v h => v • h) (segs.map ChallengedSegment.coeff)
              ((segs.map ChallengedSegment.index).map (fun i => hashToG1 P
                (((decimalValue (BigInt.String V ++ BigInt.String i) : Nat) : Int)
                  % P.order)))).sum + U • mu2) pk.P))) := by
    simp only [Verify, List.length_map, hdist, and_self, if_true,
      recomputeHashes_nonneg P hord V hV _ hI2]
  refine ⟨_, hverify, ?_⟩
  rw [decide_eq_true_iff, zipWith_map_left_sum, sum_weighted_tags, sum_smul_comm, List.map_map]
  have hA : (List.zipWith (fun v h => v • h) (segs.map ChallengedSegment.coeff)
      (segs.map ((fun i => hashToG1 P
        (((decimalValue (BigInt.String V ++ BigInt.String i) : Nat) : Int) % P.order))
        ∘ ChallengedSegment.index))).sum
      = (segs.map (fun s => s.coeff • hashToG1 P
        (((decimalValue (BigInt.String V ++ BigInt.String s.index) : Nat) : Int)
          % P.order))).sum := by
    rw [zipWith_map_left_sum]
    rfl
  rw [hA, hpk, ← he.smul_swap sk.X _ P.g2Gen, he.eq_iff_of_nondegenerate P.g2Gen hnd,
    smul_add, smul_add, add_right_inj, smul_smul, smul_smul]
  exact eq_comm

/-- The holder's proof over any contents, for honest tags, and what the
verification answers to it. -/
theorem Verify_altered_content_aux {G1 G2 GT : Type} [AddCommGroup G1] [AddCommGroup G2]
    [AddCommGroup GT] [DecidableEq GT] (P : PairingParams G1 G2) (e : G1 → G2 → GT)
    (he : IsBilinear e) (hnd : ∀ x : G1, e x P.g2Gen = 0 → x = 0) (hord : 0 < P.order)
    (sk : PrivateKey) (pk : PublicKey G2) (hpk : pk.P = sk.X • P.g2Gen)
    (V U round : Int) (hV : 0 ≤ V) (segs : List ChallengedSegment)
    (hI : ∀ s ∈ segs, 0 ≤ s.index) (hdist : (segs.map ChallengedSegment.index).Nodup)
    (altered : List Octets) (hlen : altered.length = segs.length) :
    ∃ (sigmas : List G1) (sigma mu2 : G1) (b : Bool),
      List.Forall₂ (fun s σ =>
          CalculateSigmaI P ⟨s.content, s.index, V, U, sk, round⟩ = .ok σ) segs sigmas
      ∧ Prove P { Content := altered
                  Indices := segs.map ChallengedSegment.index
                  RandomVs := segs.map ChallengedSegment.coeff
                  Sigmas := sigmas
                  RandThisRound := genRandNumByRound P round sk.X } = .ok (sigma, mu2)
      ∧ mu2 = (List.zipWith (fun v m =>
            v • (BigInt.SetBytes (P.sha256 (m ++ genRandNumByRound P round sk.X)) • P.g1Gen))
            (segs.map ChallengedSegment.coeff) altered).sum
      ∧ Verify P e { Sigma := some sigma
                     Mu := some mu2
                     RandomV := some V
                     RandomU := some U
                     Indices := segs.map ChallengedSegment.index
                     RandomVs := segs.map ChallengedSegment.coeff
                     Pubkey := some pk } = some (.ok b)
      ∧ (b = false ↔ (sk.X * U) • mu2
          ≠ (sk.X * U) • (segs.map (fun s => s.coeff •
              (BigInt.SetBytes (P.sha256 (s.content
                ++ genRandNumByRound P round sk.X)) • P.g1Gen))).sum) := by
  obtain ⟨b, hb, hiff⟩ := Verify_accepts_iff P e he hnd hord sk pk hpk V U round hV segs hI
    hdist ((List.zipWith (fun v m =>
      v • (BigInt.SetBytes (P.sha256 (m ++ genRandNumByRound P round sk.X)) • P.g1Gen))
      (segs.map ChallengedSegment.coeff) altered).sum)
  refine ⟨segs.map (fun s => sk.X •
      (hashToG1 P (((decimalValue (BigInt.String V ++ BigInt.String s.index) : Nat) : Int)
          % P.order)
        + U • (BigInt.SetBytes (P.sha256 (s.content ++ genRandNumByRound P round sk.X))
            • P.g1Gen))), _, _, b, ?_, ?_, rfl, hb, ?_⟩
  · rw [List.forall₂_map_right_iff, List.forall₂_same]
    intro s hs
    exact CalculateSigmaI_eq P _ hord hV (hI s hs)
  · simp [Prove, hlen, hdist]
  · rw [Ne, ← hiff]
    cases b <;> simp

/-- C20, amended: when the tags are the ones `CalculateSigmaI` computed for
the tagged content and the holder builds its proof over other contents, with
the verifier's indices, coefficients, `RandomV`, `RandomU` and public key
unchanged, the verification of a non-degenerate pairing rejects exactly when
`sk * U * mu2` differs from `sk * U * mu`, where `mu2` and `mu` are the
weighted sums of the points `SHA256(content || r_j) * g1` over the contents
of the proof and over the tagged contents. -/
theorem Verify_altered_content {G1 G2 GT : Type} [AddCommGroup G1] [AddCommGroup G2]
    [AddCommGroup GT] [DecidableEq GT] (P : PairingParams G1 G2) (e : G1 → G2 → GT)
    (he : IsBilinear e) (hnd : ∀ x : G1, e x P.g2Gen = 0 → x = 0) (hord : 0 < P.order)
    (sk : PrivateKey) (pk : PublicKey G2) (hpk : pk.P = sk.X • P.g2Gen)
    (V U round : Int) (hV : 0 ≤ V) (segs : List ChallengedSegment)
    (hI : ∀ s ∈ segs, 0 ≤ s.index) (hdist : (segs.map ChallengedSegment.index).Nodup)
    (altered : List Octets) (hlen : altered.length = segs.length) :
    ∃ (sigmas : List G1) (sigma mu2 : G1) (b : Bool),
      List.Forall₂ (fun s σ =>
          CalculateSigmaI P ⟨s.content, s.index, V, U, sk, round⟩ = .ok σ) segs sigmas
      ∧ Prove P { Content := altered
                  Indices := segs.map ChallengedSegment.index
                  RandomVs := segs.map ChallengedSegment.coeff
                  Sigmas := sigmas
                  RandThisRound := genRandNumByRound P round sk.X } = .ok (sigma, mu2)
      ∧ mu2 = (List.zipWith (fun v m =>
            v • (BigInt.SetBytes (P.sha256 (m ++ genRandNumByRound P round sk.X)) • P.g1Gen))
            (segs.map ChallengedSegment.coeff) altered).sum
      ∧ Verify P e { Sigma := some sigma
                     Mu := some mu2
                     RandomV := some V
                     RandomU := some U
                     Indices := segs.map ChallengedSegment.index
                     RandomVs := segs.map ChallengedSegment.coeff
                     Pubkey := some pk } = some (.ok b)
      ∧ (b = false ↔ (sk.X * U) • mu2
          ≠ (sk.X * U) • (segs.map (fun s => s.coeff •
              (BigInt.SetBytes (P.sha256 (s.content
                ++ genRandNumByRound P round sk.X)) • P.g1Gen))).sum) :=
  Verify_altered_content_aux P e he hnd hord sk pk hpk V U round hV segs hI hdist altered hlen

theorem samplePairing_nondegenerate :
    ∀ x : Int, samplePairing x sampleParams.g2Gen = 0 → x = 0 := by
  intro x hx
  simpa [samplePairing, sampleParams] using hx

theorem sampleSegments_index_nodup : (sampleSegments.map ChallengedSegment.index).Nodup := by
  decide

/-- C20, amended, at the scenario of `sampleSegments` with the two contents
exchanged in the proof of the holder. -/
theorem Verify_altered_content_witness :
    IsBilinear samplePairing
    ∧ (∀ x : Int, samplePairing x sampleParams.g2Gen = 0 → x = 0)
    ∧ 0 < sampleParams.order
    ∧ ({ P := 5 } : PublicKey Int).P = ({ X := 5 } : PrivateKey).X • sampleParams.g2Gen
    ∧ (0 : Int) ≤ 7 ∧ (∀ s ∈ sampleSegments, 0 ≤ s.index)
    ∧ (sampleSegments.map ChallengedSegment.index).Nodup
    ∧ [betaBytes, alphaBytes].length = sampleSegments.length
    ∧ ∃ (sigmas : List Int) (sigma mu2 : Int) (b : Bool),
      List.Forall₂ (fun s σ =>
          CalculateSigmaI sampleParams ⟨s.content, s.index, 7, 3, ⟨5⟩, 2⟩ = .ok σ)
          sampleSegments sigmas
      ∧ Prove sampleParams
          { Content := [betaBytes, alphaBytes]
            Indices := sampleSegments.map ChallengedSegment.index
            RandomVs := sampleSegments.map ChallengedSegment.coeff
            Sigmas := sigmas
            RandThisRound := genRandNumByRound sampleParams 2 5 } = .ok (sigma, mu2)
      ∧ mu2 = (List.zipWith (fun v m =>
            v • (BigInt.SetBytes (sampleParams.sha256 (m ++ genRandNumByRound sampleParams 2 5))
              • sampleParams.g1Gen))
            (sampleSegments.map ChallengedSegment.coeff) [betaBytes, alphaBytes]).sum
      ∧ Verify sampleParams samplePairing
          { Sigma := some sigma
            Mu := some mu2
            RandomV := some 7
            RandomU := some 3
            Indices := sampleSegments.map ChallengedSegment.index
            RandomVs := sampleSegments.map ChallengedSegment.coeff
            Pubkey := some { P := 5 } } = some (.ok b)
      ∧ (b = false ↔ ((5 : Int) * 3) • mu2
          ≠ ((5 : Int) * 3) • (sampleSegments.map (fun s => s.coeff •
              (BigInt.SetBytes (sampleParams.sha256 (s.content
                ++ genRandNumByRound sampleParams 2 5)) • sampleParams.g1Gen))).sum) :=
  ⟨samplePairing_bilinear, samplePairing_nondegenerate, sampleParams_order_pos,
    by simp [sampleParams], by decide, sampleSegments_index_nonneg, sampleSegments_index_nodup,
    rfl,
    Verify_altered_content sampleParams samplePairing samplePairing_bilinear
      samplePairing_nondegenerate sampleParams_order_pos { X := 5 } { P := 5 }
      (by simp [sampleParams]) 7 3 2 (by decide) sampleSegments sampleSegments_index_nonneg
      sampleSegments_index_nodup [betaBytes, alphaBytes] rfl⟩

/-- C20 as stated fails: the segment of index 2 is tagged with the content
"beta" and challenged with the coefficient 0; the holder builds its proof
with the content "alpha" in its place, and the verification accepts. -/
theorem Verify_accepts_altered_content :
    betaBytes ≠ alphaBytes
    ∧ ∃ (sigmas : List Int) (sigma mu2 : Int),
      List.Forall₂ (fun s σ =>
          CalculateSigmaI sampleParams ⟨s.content, s.index, 7, 3, ⟨5⟩, 2⟩ = .ok σ)
          sampleSegmentsZeroCoeff sigmas
      ∧ Prove sampleParams
          { Content := [alphaBytes, alphaBytes]
            Indices := sampleSegmentsZeroCoeff.map ChallengedSegment.index
            RandomVs := sampleSegmentsZeroCoeff.map ChallengedSegment.coeff
            Sigmas := sigmas
            RandThisRound := genRandNumByRound sampleParams 2 5 } = .ok (sigma, mu2)
      ∧ Verify sampleParams samplePairing
          { Sigma := some sigma
            Mu := some mu2
            RandomV := some 7
            RandomU := some 3
            Indices := sampleSegmentsZeroCoeff.map ChallengedSegment.index
            RandomVs := sampleSegmentsZeroCoeff.map ChallengedSegment.coeff
            Pubkey := some { P := 5 } } = some (.ok true) := by
  have hI : ∀ s ∈ sampleSegmentsZeroCoeff, 0 ≤ s.index := by
    intro s hs
    simp only [sampleSegmentsZeroCoeff, List.mem_cons, List.mem_singleton, List.not_mem_nil,
      or_false] at hs
    rcases hs with rfl | rfl <;> decide
  obtain ⟨sigmas, sigma, mu2, b, h1, h2, h3, h4, h5⟩ :=
    Verify_altered_content_aux sampleParams samplePairing samplePairing_bilinear
      samplePairing_nondegenerate sampleParams_order_pos { X := 5 } { P := 5 }
      (by simp [sampleParams]) 7 3 2 (by decide) sampleSegmentsZeroCoeff hI (by decide)
      [alphaBytes, alphaBytes] rfl
  refine ⟨by decide, sigmas, sigma, mu2, h1, h2, ?_⟩
  have hb : b = true := by
    by_contra hne
    have hfalse : b = false := by simpa using hne
    apply h5.mp hfalse
    rw [h3]
    simp [sampleSegmentsZeroCoeff]
  rw [hb] at h4
  exact h4

/-! ## What the decoders do not check -/

/-- The result of `ProofParamsFromBytes` when every sigma buffer decodes. -/
theorem ProofParamsFromBytes_ok_aux {G1 G2 : Type} (E : PointEncoding G1 G2)
    (content indices randVs sigmas : List Octets) (rand : Octets) (pts : List G1)
    (hpts : List.Forall₂ (fun g p => E.G1Unmarshal g = .ok p) sigmas pts) :
    ProofParamsFromBytes E content indices randVs sigmas rand
      = ({ Content := content
           Indices := indices.map BigInt.SetBytes
           RandomVs := randVs.map BigInt.SetBytes
           Sigmas := pts
           RandThisRound := rand }, none) := by
  simp [ProofParamsFromBytes, G1sFromBytes, G1sFromBytesLoop_ok E sigmas pts [] hpts,
    IntListFromBytes_eq_map]

/-- The error of `ProofParamsFromBytes` is the one of `G1sFromBytes` on the
sigma list, whatever the other arguments are. -/
theorem ProofParamsFromBytes_error_aux {G1 G2 : Type} (E : PointEncoding G1 G2)
    (content indices randVs sigmas : List Octets) (rand : Octets) :
    (ProofParamsFromBytes E content indices randVs sigmas rand).2
      = (G1sFromBytes E sigmas).2 := by
  unfold ProofParamsFromBytes
  rcases h : G1sFromBytes E sigmas with ⟨s, _ | err⟩ <;> simp

/-- The result of `VerifyParamsFromBytes` when the three point buffers
decode. -/
theorem VerifyParamsFromBytes_ok_aux {G1 G2 : Type} (E : PointEncoding G1 G2)
    (sigma mu randV randU pubkey : Octets) (indices randVs : List Octets)
    (s m : G1) (pub : G2) (hs : E.G1Unmarshal sigma = .ok s) (hm : E.G1Unmarshal mu = .ok m)
    (hp : E.G2Unmarshal pubkey = .ok pub) :
    VerifyParamsFromBytes E sigma mu randV randU pubkey indices randVs
      = ({ Sigma := some s
           Mu := some m
           RandomV := some (BigInt.SetBytes randV)
           RandomU := some (BigInt.SetBytes randU)
           Indices := indices.map BigInt.SetBytes
           RandomVs := randVs.map BigInt.SetBytes
           Pubkey := some { P := pub } }, none) := by
  simp [VerifyParamsFromBytes, G1FromByte, PublicKeyFromByte, hs, hm, hp,
    IntListFromBytes_eq_map]

/-- The error of `VerifyParamsFromBytes` does not depend on the index and
coefficient lists. -/
theorem VerifyParamsFromBytes_error_aux {G1 G2 : Type} (E : PointEncoding G1 G2)
    (sigma mu randV randU pubkey : Octets) (indices randVs indices2 randVs2 : List Octets) :
    (VerifyParamsFromBytes E sigma mu randV randU pubkey indices randVs).2
      = (VerifyParamsFromBytes E sigma mu randV randU pubkey indices2 randVs2).2 := by
  unfold VerifyParamsFromBytes G1FromByte PublicKeyFromByte
  cases E.G1Unmarshal sigma <;> cases E.G1Unmarshal mu <;> cases E.G2Unmarshal pubkey <;> rfl

theorem sampleEncoding_G1_five : sampleEncoding.G1Unmarshal [5] = .ok 5 := by
  simp [sampleEncoding, BigInt.SetBytes, Nat.ofDigits]
  rfl

theorem sampleEncoding_G1_seven : sampleEncoding.G1Unmarshal [7] = .ok 7 := by
  simp [sampleEncoding, BigInt.SetBytes, Nat.ofDigits]
  rfl

theorem sampleEncoding_G2_five : sampleEncoding.G2Unmarshal [5] = .ok 5 := by
  simp [sampleEncoding, BigInt.SetBytes, Nat.ofDigits]
  rfl

/-- C21 as stated fails: both decoders accept an index list that holds the
index 1 twice. -/
theorem FromBytes_accept_repeated_index :
    (ProofParamsFromBytes sampleEncoding [alphaBytes, betaBytes] [[1], [1]] [[3], [5]]
        [[5], [7]] [9]).2 = none
    ∧ (ProofParamsFromBytes sampleEncoding [alphaBytes, betaBytes] [[1], [1]] [[3], [5]]
        [[5], [7]] [9]).1.Indices = [1, 1]
    ∧ (VerifyParamsFromBytes sampleEncoding [5] [7] [7] [3] [5] [[1], [1]] [[3], [5]]).2 = none
    ∧ (VerifyParamsFromBytes sampleEncoding [5] [7] [7] [3] [5] [[1], [1]] [[3], [5]]).1.Indices
        = [1, 1] := by
  have hpts : List.Forall₂ (fun g p => sampleEncoding.G1Unmarshal g = .ok p) [[5], [7]] [5, 7] :=
    List.Forall₂.cons sampleEncoding_G1_five
      (List.Forall₂.cons sampleEncoding_G1_seven List.Forall₂.nil)
  rw [ProofParamsFromBytes_ok_aux sampleEncoding _ _ _ _ _ [5, 7] hpts,
    VerifyParamsFromBytes_ok_aux sampleEncoding _ _ _ _ _ _ _ 5 7 5 sampleEncoding_G1_five
      sampleEncoding_G1_seven sampleEncoding_G2_five]
  refine ⟨rfl, by decide, rfl, by decide⟩

/-- C21, amended: `ProofParamsFromBytes` and `VerifyParamsFromBytes` do not
inspect the index list: whether they return an error is the same for every
index list, and when the point buffers decode they succeed with `Indices` the
element-wise decoding of the index buffers, repeated indices included. -/
theorem FromBytes_ignore_indices {G1 G2 : Type} (E : PointEncoding G1 G2)
    (content randVs sigmas : List Octets) (rand sigma mu randV randU pubkey : Octets)
    (pts : List G1) (s m : G1) (pub : G2)
    (hpts : List.Forall₂ (fun g p => E.G1Unmarshal g = .ok p) sigmas pts)
    (hs : E.G1Unmarshal sigma = .ok s) (hm : E.G1Unmarshal mu = .ok m)
    (hp : E.G2Unmarshal pubkey = .ok pub) (indices : List Octets) :
    (ProofParamsFromBytes E content indices randVs sigmas rand).2 = none
    ∧ (ProofParamsFromBytes E content indices randVs sigmas rand).1.Indices
        = indices.map BigInt.SetBytes
    ∧ (VerifyParamsFromBytes E sigma mu randV randU pubkey indices randVs).2 = none
    ∧ (VerifyParamsFromBytes E sigma mu randV randU pubkey indices randVs).1.Indices
        = indices.map BigInt.SetBytes
    ∧ (∀ (c2 i2 v2 g2 : List Octets) (r2 : Octets),
        (ProofParamsFromBytes E c2 i2 v2 g2 r2).2
          = (ProofParamsFromBytes E c2 indices v2 g2 r2).2)
    ∧ (∀ (a b c d f : Octets) (i2 v2 : List Octets),
        (VerifyParamsFromBytes E a b c d f i2 v2).2
          = (VerifyParamsFromBytes E a b c d f indices v2).2) := by
  rw [ProofParamsFromBytes_ok_aux E _ _ _ _ _ pts hpts,
    VerifyParamsFromBytes_ok_aux E _ _ _ _ _ _ _ s m pub hs hm hp]
  refine ⟨rfl, rfl, rfl, rfl, ?_, ?_⟩
  · intro c2 i2 v2 g2 r2
    rw [ProofParamsFromBytes_error_aux, ProofParamsFromBytes_error_aux]
  · intro a b c d f i2 v2
    exact VerifyParamsFromBytes_error_aux E a b c d f i2 v2 indices v2

/-- C21, amended, on the sample encoding with the index 1 given twice. -/
theorem FromBytes_ignore_indices_witness :
    List.Forall₂ (fun g p => sampleEncoding.G1Unmarshal g = .ok p) [[5], [7]] [5, 7]
    ∧ sampleEncoding.G1Unmarshal [5] = .ok 5 ∧ sampleEncoding.G1Unmarshal [7] = .ok 7
    ∧ sampleEncoding.G2Unmarshal [5] = .ok 5
    ∧ (ProofParamsFromBytes sampleEncoding [alphaBytes, betaBytes] [[1], [1]] [[3], [5]]
        [[5], [7]] [9]).2 = none
    ∧ (VerifyParamsFromBytes sampleEncoding [5] [7] [7] [3] [5] [[1], [1]] [[3], [5]]).2
        = none :=
  ⟨List.Forall₂.cons sampleEncoding_G1_five
      (List.Forall₂.cons sampleEncoding_G1_seven List.Forall₂.nil),
    sampleEncoding_G1_five, sampleEncoding_G1_seven, sampleEncoding_G2_five,
    (FromBytes_ignore_indices sampleEncoding [alphaBytes, betaBytes] [[3], [5]] [[5], [7]] [9]
      [5] [7] [7] [3] [5] [5, 7] 5 7 5
      (List.Forall₂.cons sampleEncoding_G1_five
        (List.Forall₂.cons sampleEncoding_G1_seven List.Forall₂.nil))
      sampleEncoding_G1_five sampleEncoding_G1_seven sampleEncoding_G2_five [[1], [1]]).1,
    (FromBytes_ignore_indices sampleEncoding [alphaBytes, betaBytes] [[3], [5]] [[5], [7]] [9]
      [5] [7] [7] [3] [5] [5, 7] 5 7 5
      (List.Forall₂.cons sampleEncoding_G1_five
        (List.Forall₂.cons sampleEncoding_G1_seven List.Forall₂.nil))
      sampleEncoding_G1_five sampleEncoding_G1_seven sampleEncoding_G2_five [[1], [1]]).2.2.1⟩

/-- C22 as stated fails: `ProofParamsFromBytes` succeeds on two indices with
no content, one sigma and one coefficient. -/
theorem ProofParamsFromBytes_accepts_missing_entries :
    ([] : List Octets).length < ([[1], [2]] : List Octets).length
    ∧ ([[5]] : List Octets).length < ([[1], [2]] : List Octets).length
    ∧ ([[3]] : List Octets).length ≠ ([[1], [2]] : List Octets).length
    ∧ (ProofParamsFromBytes sampleEncoding [] [[1], [2]] [[3]] [[5]] [9]).2 = none
    ∧ (ProofParamsFromBytes sampleEncoding [] [[1], [2]] [[3]] [[5]] [9]).1.Indices.length = 2
    ∧ (ProofParamsFromBytes sampleEncoding [] [[1], [2]] [[3]] [[5]] [9]).1.Content.length = 0
    ∧ (ProofParamsFromBytes sampleEncoding [] [[1], [2]] [[3]] [[5]] [9]).1.Sigmas.length
        = 1 := by
  have hpts : List.Forall₂ (fun g p => sampleEncoding.G1Unmarshal g = .ok p) [[5]] [5] :=
    List.Forall₂.cons sampleEncoding_G1_five List.Forall₂.nil
  rw [ProofParamsFromBytes_ok_aux sampleEncoding _ _ _ _ _ [5] hpts]
  refine ⟨by decide, by decide, by decide, rfl, rfl, rfl, rfl⟩

/-- C22, amended: `ProofParamsFromBytes` compares no lengths: its error is the
one of decoding the sigma list, whatever the content, index and coefficient
lists are, and when every sigma buffer decodes it succeeds with `Content`,
`Indices`, `RandomVs` and `Sigmas` as long as the corresponding arguments. -/
theorem ProofParamsFromBytes_ignores_lengths {G1 G2 : Type} (E : PointEncoding G1 G2)
    (content indices randVs sigmas : List Octets) (rand : Octets) (pts : List G1)
    (hpts : List.Forall₂ (fun g p => E.G1Unmarshal g = .ok p) sigmas pts) :
    (ProofParamsFromBytes E content indices randVs sigmas rand).2 = none
    ∧ (ProofParamsFromBytes E content indices randVs sigmas rand).1.Content.length
        = content.length
    ∧ (ProofParamsFromBytes E content indices randVs sigmas rand).1.Indices.length
        = indices.length
    ∧ (ProofParamsFromBytes E content indices randVs sigmas rand).1.RandomVs.length
        = randVs.length
    ∧ (ProofParamsFromBytes E content indices randVs sigmas rand).1.Sigmas.length
        = sigmas.length
    ∧ (∀ (c2 i2 v2 g2 : List Octets) (r2 : Octets),
        (ProofParamsFromBytes E c2 i2 v2 g2 r2).2 = (G1sFromBytes E g2).2) := by
  rw [ProofParamsFromBytes_ok_aux E _ _ _ _ _ pts hpts]
  refine ⟨rfl, rfl, by simp, by simp, hpts.length_eq.symm, ?_⟩
  intro c2 i2 v2 g2 r2
  exact ProofParamsFromBytes_error_aux E c2 i2 v2 g2 r2

/-- C22, amended, on the sample encoding: two indices, no content, one
sigma. -/
theorem ProofParamsFromBytes_ignores_lengths_witness :
    List.Forall₂ (fun g p => sampleEncoding.G1Unmarshal g = .ok p) [[5]] [5]
    ∧ (ProofParamsFromBytes sampleEncoding [] [[1], [2]] [[3]] [[5]] [9]).2 = none
    ∧ (ProofParamsFromBytes sampleEncoding [] [[1], [2]] [[3]] [[5]] [9]).1.Indices.length
        = ([[1], [2]] : List Octets).length :=
  ⟨List.Forall₂.cons sampleEncoding_G1_five List.Forall₂.nil,
    (ProofParamsFromBytes_ignores_lengths sampleEncoding [] [[1], [2]] [[3]] [[5]] [9] [5]
      (List.Forall₂.cons sampleEncoding_G1_five List.Forall₂.nil)).1,
    (ProofParamsFromBytes_ignores_lengths sampleEncoding [] [[1], [2]] [[3]] [[5]] [9] [5]
      (List.Forall₂.cons sampleEncoding_G1_five List.Forall₂.nil)).2.2.1⟩

/-! ## Splitting returns all or nothing -/

/-- The loop over the coefficients stops with the error of the first point
that is not on the curve of the caller, whatever was accumulated before. -/
theorem verifyPointsLoop_error {Pt : Type} (P256 curve : Curve Pt) (pre post : List Int)
    (c : Int) (acc : Option (List (Point Pt)))
    (hpre : ∀ d ∈ pre, curve.IsOnCurve (P256.ScalarBaseMult (BigInt.Bytes d)) = true)
    (hc : curve.IsOnCurve (P256.ScalarBaseMult (BigInt.Bytes c)) = false) :
    verifyPointsLoop P256 curve (pre ++ c :: post) acc = .error Error.pointNotOnCurve := by
  induction pre generalizing acc with
  | nil => simp [verifyPointsLoop, NewPoint, hc]
  | cons d pre ih =>
    simp only [List.cons_append, verifyPointsLoop, NewPoint, hpre d (List.mem_cons_self _ _),
      if_true]
    exact ih _ (fun x hx => hpre x (List.mem_cons_of_mem _ hx))

/-- C23: the two split functions return their results whole or not at all:
with a non-nil error the share map is nil and the point list is nil, also
when `ecc.NewPoint` rejects a point after earlier points were accumulated;
with a nil error the map has the `n` shares and, for
`ComplexSecretSplitWithVerifyPoints`, the list has one point per coefficient
of the generated polynomial. -/
theorem split_whole_or_nothing {Pt : Type} (P256 curve : Curve Pt) (n t : Int)
    (secret : Octets) (entropy : Except Error (Nat → Nat)) :
    ((ComplexSecretSplit n t secret curve entropy).2 ≠ none →
        (ComplexSecretSplit n t secret curve entropy).1 = none)
    ∧ ((ComplexSecretSplit n t secret curve entropy).2 = none →
        ∃ shares, (ComplexSecretSplit n t secret curve entropy).1 = some shares
          ∧ (shares.length : Int) = n
          ∧ ∀ x : Int, 1 ≤ x → x ≤ n → ∃ y, shares.lookup x = some y)
    ∧ ((ComplexSecretSplitWithVerifyPoints P256 n t secret curve entropy).2.2 ≠ none →
        (ComplexSecretSplitWithVerifyPoints P256 n t secret curve entropy).1 = none
        ∧ (ComplexSecretSplitWithVerifyPoints P256 n t secret curve entropy).2.1 = none)
    ∧ ((ComplexSecretSplitWithVerifyPoints P256 n t secret curve entropy).2.2 = none →
        ∃ shares points poly,
          (ComplexSecretSplitWithVerifyPoints P256 n t secret curve entropy).1 = some shares
          ∧ (ComplexSecretSplitWithVerifyPoints P256 n t secret curve entropy).2.1
              = some points
          ∧ ComplexSecretToPolynomial n t secret curve entropy = .ok poly
          ∧ (shares.length : Int) = n
          ∧ (∀ x : Int, 1 ≤ x → x ≤ n → ∃ y, shares.lookup x = some y)
          ∧ points.length = poly.length)
    ∧ (∀ poly pre c post, ComplexSecretToPolynomial n t secret curve entropy = .ok poly →
        poly = pre ++ c :: post →
        (∀ d ∈ pre, curve.IsOnCurve (P256.ScalarBaseMult (BigInt.Bytes d)) = true) →
        curve.IsOnCurve (P256.ScalarBaseMult (BigInt.Bytes c)) = false →
        ComplexSecretSplitWithVerifyPoints P256 n t secret curve entropy
          = (none, none, some Error.pointNotOnCurve)) := by
  have hlook : ∀ poly, ∀ x : Int, 1 ≤ x → x ≤ n →
      ∃ y, (evaluateShares curve.N poly n).lookup x = some y := by
    intro poly x h1 h2
    exact ⟨_, lookup_of_mem_of_nodup_keys _ _ _ (evaluateShares_keys_nodup curve.N poly n)
      ((evaluateShares_mem _ _ _ (x, BigPolynomial.Evaluate curve.N poly x)).mpr ⟨h1, h2, rfl⟩)⟩
  have hlen : ∀ poly, 2 ≤ n → ((evaluateShares curve.N poly n).length : Int) = n := by
    intro poly hn
    simp [evaluateShares]
    omega
  refine ⟨?_, ?_, ?_, ?_, ?_⟩
  · intro h
    unfold ComplexSecretSplit at h ⊢
    cases hp : ComplexSecretToPolynomial n t secret curve entropy with
    | error e => rfl
    | ok poly => simp [hp] at h
  · intro h
    obtain ⟨poly, hp, hs⟩ := ComplexSecretSplit_ok n t secret curve entropy h
    rw [hs]
    exact ⟨_, rfl, hlen poly (ComplexSecretToPolynomial_ok n t secret curve entropy poly hp).1,
      hlook poly⟩
  · intro h
    unfold ComplexSecretSplitWithVerifyPoints at h ⊢
    cases hp : ComplexSecretToPolynomial n t secret curve entropy with
    | error e => exact ⟨rfl, rfl⟩
    | ok poly =>
      simp only [hp] at h ⊢
      cases hl : verifyPointsLoop P256 curve poly none with
      | error e => exact ⟨rfl, rfl⟩
      | ok pts => simp [hl] at h
  · intro h
    obtain ⟨poly, hp, hs, _⟩ := ComplexSecretSplitWithVerifyPoints_ok P256 curve n t secret
      entropy h
    rw [hs]
    exact ⟨_, _, poly, rfl, rfl, hp,
      hlen poly (ComplexSecretToPolynomial_ok n t secret curve entropy poly hp).1, hlook poly,
      by simp⟩
  · intro poly pre c post hp hsplit hpre hc
    simp only [ComplexSecretSplitWithVerifyPoints, hp, hsplit,
      verifyPointsLoop_error P256 curve pre post c none hpre hc]

theorem samplePolynomial_zero_draws :
    ComplexSecretToPolynomial 5 3 [1, 0] sampleP256 (.ok (fun _ => 0))
      = .ok ([256] ++ 0 :: [0]) := by
  simp [ComplexSecretToPolynomial, BigPolynomial.RandomGenerate, sampleP256,
    List.range_succ, BigInt.SetBytes, Nat.ofDigits]

theorem sampleP256_256_on_curve :
    ∀ d ∈ [(256 : Int)], sampleP256.IsOnCurve (sampleP256.ScalarBaseMult (BigInt.Bytes d))
      = true := by
  intro d hd
  simp only [List.mem_singleton] at hd
  subst hd
  simp only [sampleP256, SetBytes_Bytes 256 (by decide), decide_eq_true_eq]
  decide

theorem sampleP256_zero_off_curve :
    sampleP256.IsOnCurve (sampleP256.ScalarBaseMult (BigInt.Bytes 0)) = false := by
  simp [sampleP256, Bytes_zero, BigInt.SetBytes]

/-- C23 on the sample curve with an entropy source that draws zeros: the
point of the constant term 256 is accepted, the point of the next coefficient
0 is the point at infinity and is rejected, and nothing is returned but the
error. -/
theorem split_whole_or_nothing_witness :
    ComplexSecretToPolynomial 5 3 [1, 0] sampleP256 (.ok (fun _ => 0))
      = .ok ([256] ++ 0 :: [0])
    ∧ (∀ d ∈ [(256 : Int)],
        sampleP256.IsOnCurve (sampleP256.ScalarBaseMult (BigInt.Bytes d)) = true)
    ∧ sampleP256.IsOnCurve (sampleP256.ScalarBaseMult (BigInt.Bytes 0)) = false
    ∧ ComplexSecretSplitWithVerifyPoints sampleP256 5 3 [1, 0] sampleP256 (.ok (fun _ => 0))
        = (none, none, some Error.pointNotOnCurve) :=
  ⟨samplePolynomial_zero_draws, sampleP256_256_on_curve, sampleP256_zero_off_curve,
    (split_whole_or_nothing sampleP256 sampleP256 5 3 [1, 0] (.ok (fun _ => 0))).2.2.2.2
      ([256] ++ 0 :: [0]) [256] 0 [0] samplePolynomial_zero_draws rfl sampleP256_256_on_curve
      sampleP256_zero_off_curve⟩

/-! ## Machine learning: helper lemmas -/

theorem F64_le_eq_not_lt (a b : F64) (ha : a ≠ F64.nan) (hb : b ≠ F64.nan) :
    F64.le a b = !F64.lt b a := by
  cases a <;> cases b <;> simp_all [F64.le, F64.lt]
  rename_i p q
  by_cases h : p ≤ q
  · simp [h, not_lt.2 h]
  · simp [h, not_le.1 h]

theorem F64_le_of_lt (a b : F64) (h : F64.lt a b = true) : F64.le b a = false := by
  cases a <;> cases b <;> simp_all [F64.le, F64.lt]

theorem F64_le_of_nan (a b : F64) (h : a = F64.nan ∨ b = F64.nan) : F64.le a b = false := by
  rcases h with h | h
  · rw [h]
    cases b <;> rfl
  · rw [h]
    cases a <;> rfl

theorem utf8ByteSize_eq_zero_iff (s : String) : s.utf8ByteSize = 0 ↔ s = "" := by
  constructor
  · intro h
    cases s with
    | mk cs =>
      cases cs with
      | nil => rfl
      | cons c cs =>
        exfalso
        have hpos := Char.utf8Size_pos c
        simp [String.utf8ByteSize, String.utf8ByteSize.go] at h
        omega
  · intro h
    subst h
    rfl

theorem labelIndexFrom_some_iff (label : String) (xs : List String) (i k : Nat) :
    labelIndexFrom label xs i = some k ↔
      ∃ c, k = i + c ∧ xs[c]? = some label ∧ ∀ j < c, xs[j]? ≠ some label := by
  induction xs generalizing i with
  | nil => simp [labelIndexFrom]
  | cons v vs ih =>
    unfold labelIndexFrom
    by_cases hv : v = label
    · simp only [hv, if_true, Option.some.injEq]
      constructor
      · intro h
        exact ⟨0, by omega, by simp, by intro j hj; omega⟩
      · rintro ⟨c, hk, hc, hfirst⟩
        cases c with
        | zero => omega
        | succ c => exact absurd (by simp) (hfirst 0 (by omega))
    · simp only [hv, if_false]
      rw [ih]
      constructor
      · rintro ⟨c, hk, hc, hfirst⟩
        refine ⟨c + 1, by omega, by simpa using hc, ?_⟩
        intro j hj
        cases j with
        | zero => simpa using hv
        | succ j => simpa using hfirst j (by omega)
      · rintro ⟨c, hk, hc, hfirst⟩
        cases c with
        | zero => simp at hc; exact absurd hc hv
        | succ c =>
          refine ⟨c, by omega, by simpa using hc, ?_⟩
          intro j hj
          simpa using hfirst (j + 1) (by omega)

theorem labelIndexFrom_none_iff (label : String) (xs : List String) (i : Nat) :
    labelIndexFrom label xs i = none ↔ label ∉ xs := by
  induction xs generalizing i with
  | nil => simp [labelIndexFrom]
  | cons v vs ih =>
    unfold labelIndexFrom
    by_cases hv : v = label
    · simp [hv]
    · simp only [hv, if_false, ih, List.mem_cons, not_or]
      constructor
      · intro h
        exact ⟨fun h' => hv h'.symm, h⟩
      · intro h
        exact h.2

theorem labelIndexFrom_first (label : String) (header : List String) (c : Nat)
    (hc : header[c]? = some label) (hfirst : ∀ j < c, header[j]? ≠ some label) :
    labelIndexFrom label header 0 = some c :=
  (labelIndexFrom_some_iff label header 0 c).2 ⟨c, by omega, hc, hfirst⟩

theorem sliceIndex_of_nonneg {α : Type} (xs : List α) (i : Int) (h : 0 ≤ i) :
    sliceIndex xs i = xs[i.toNat]? := by
  simp [sliceIndex, not_lt.2 h]

theorem sliceIndex_of_neg {α : Type} (xs : List α) (i : Int) (h : i < 0) :
    sliceIndex xs i = none := by
  simp [sliceIndex, h]

theorem GetValidSet_not_split (s : splitter) (idx : Int) (h : s.folds = []) :
    s.GetValidSet idx = some ([], some (Error.msg "the file has not been split")) := by
  simp [splitter.GetValidSet, h]

theorem GetValidSet_fold (s : splitter) (idx : Int) (fold : Rows) (h0 : 0 ≤ idx)
    (hfold : s.folds[idx.toNat]? = some fold) : s.GetValidSet idx = some (fold, none) := by
  have hlt : idx.toNat < s.folds.length := by
    rcases List.getElem?_eq_some_iff.1 hfold with ⟨h, _⟩
    exact h
  have hne : ¬ ((s.folds.length : Int) = 0) := by omega
  have hge : ¬ (idx ≥ (s.folds.length : Int)) := by omega
  simp only [splitter.GetValidSet, hne, hge, if_false, sliceIndex_of_nonneg _ _ h0, hfold]

theorem GetValidSet_large (s : splitter) (idx : Int) (hne : s.folds ≠ [])
    (h : idx ≥ (s.folds.length : Int)) :
    s.GetValidSet idx
      = some ([], some (Error.msg "invalid index referring to validation set ")) := by
  have hl : ¬ ((s.folds.length : Int) = 0) := by
    have := List.length_pos.2 hne
    omega
  simp only [splitter.GetValidSet, hl, h, if_false, if_true]

theorem GetValidSet_negative (s : splitter) (idx : Int) (hne : s.folds ≠ [])
    (h : idx < 0) : s.GetValidSet idx = none := by
  have hl : ¬ ((s.folds.length : Int) = 0) := by
    have := List.length_pos.2 hne
    omega
  have hge : ¬ (idx ≥ (s.folds.length : Int)) := by omega
  simp only [splitter.GetValidSet, hl, hge, if_false, sliceIndex_of_neg _ _ h]

/-! ## An empty dataset -/

/-- C24: the three import functions return the error "empty file content" and
no features for the nil slice, the only input they test for. A slice that is
not nil and has no rows passes that test and the next statement,
`len(fileRows[0])`, is a run-time panic (`none`). -/
theorem ImportFeatures_zero_rows (ParseFloat : String → Except String F64)
    ( label labelName : String) :
    (ImportFeaturesForLinReg ParseFloat none
        = some (none, some (Error.msg "empty file content"))
      ∧ ImportFeaturesForLogReg ParseFloat none label labelName
        = some (none, some (Error.msg "empty file content"))
      ∧ ImportFeaturesForDT none = some (none, some (Error.msg "empty file content")))
    ∧ (ImportFeaturesForLinReg ParseFloat (some []) = none
      ∧ ImportFeaturesForLogReg ParseFloat (some []) label labelName = none
      ∧ ImportFeaturesForDT (some []) = none) :=
  ⟨⟨rfl, rfl, rfl⟩, rfl, rfl, rfl⟩

/-! ## Reading the folds -/

/-- C28: before a split `GetAllFolds` and `GetValidSet` return the error "the
file has not been split" for every index; after a split `GetAllFolds` returns
the folds, `GetValidSet` returns fold `idx` for `0 ≤ idx < len(folds)` and an
error for `idx ≥ len(folds)`; for a negative `idx` it reaches `s.folds[idx]`
and panics (`none`) instead of returning an error. -/
theorem GetValidSet_cases (s : splitter) (idx : Int) :
    (s.folds = [] →
        s.GetAllFolds = ([], some (Error.msg "the file has not been split"))
        ∧ s.GetValidSet idx = some ([], some (Error.msg "the file has not been split")))
    ∧ (s.folds ≠ [] → s.GetAllFolds = (s.folds, none))
    ∧ (s.folds ≠ [] → 0 ≤ idx → idx < (s.folds.length : Int) →
        ∃ fold, s.folds[idx.toNat]? = some fold ∧ s.GetValidSet idx = some (fold, none))
    ∧ (s.folds ≠ [] → idx ≥ (s.folds.length : Int) →
        s.GetValidSet idx
          = some ([], some (Error.msg "invalid index referring to validation set ")))
    ∧ (s.folds ≠ [] → idx < 0 → s.GetValidSet idx = none) := by
  refine ⟨?_, ?_, ?_, ?_, ?_⟩
  · intro h
    exact ⟨by simp [splitter.GetAllFolds, h], GetValidSet_not_split s idx h⟩
  · intro h
    have := List.length_pos.2 h
    have hl : ¬ (s.folds.length = 0) := by omega
    simp [splitter.GetAllFolds, hl]
  · intro _ h0 hlt
    have hlt' : idx.toNat < s.folds.length := by omega
    exact ⟨s.folds[idx.toNat], List.getElem?_eq_getElem hlt',
      GetValidSet_fold s idx _ h0 (List.getElem?_eq_getElem hlt')⟩
  · intro h hge
    exact GetValidSet_large s idx h hge
  · intro h hneg
    exact GetValidSet_negative s idx h hneg

/-- C28 on the sample splitter, which has three folds: index 1 gives the
second fold, index 3 an error, index -1 a panic. -/
theorem GetValidSet_cases_witness :
    sampleSplitter.folds ≠ []
    ∧ sampleSplitter.GetAllFolds = (sampleSplitter.folds, none)
    ∧ (∃ fold, sampleSplitter.folds[(1 : Int).toNat]? = some fold
        ∧ sampleSplitter.GetValidSet 1 = some (fold, none))
    ∧ sampleSplitter.GetValidSet 3
        = some ([], some (Error.msg "invalid index referring to validation set "))
    ∧ sampleSplitter.GetValidSet (-1) = none :=
  have hne : sampleSplitter.folds ≠ [] := by decide
  ⟨hne, (GetValidSet_cases sampleSplitter 0).2.1 hne,
    (GetValidSet_cases sampleSplitter 1).2.2.1 hne (by decide) (by decide),
    (GetValidSet_cases sampleSplitter 3).2.2.2.1 hne (by decide),
    (GetValidSet_cases sampleSplitter (-1)).2.2.2.2 hne (by decide)⟩

/-! ## The prediction set -/

theorem dropLabelCell_past (idxL : Nat) (r : List String) (i : Nat) (newR : List String)
    (hi : idxL < i) : dropLabelCell idxL r i newR = newR ++ r := by
  induction r generalizing i newR with
  | nil => simp [dropLabelCell]
  | cons cell r ih =>
    unfold dropLabelCell
    have hne : ¬ (i = idxL) := by omega
    simp only [hne, if_false]
    rw [ih (i + 1) _ (by omega)]
    simp

theorem dropLabelCell_eq (idxL : Nat) (r : List String) (i k : Nat) (newR : List String)
    (hk : i + k = idxL) : dropLabelCell idxL r i newR = newR ++ r.eraseIdx k := by
  induction r generalizing i k newR with
  | nil => simp [dropLabelCell]
  | cons cell r ih =>
    unfold dropLabelCell
    cases k with
    | zero =>
      have hi : i = idxL := by omega
      simp only [hi, if_true, List.eraseIdx_cons_zero]
      exact dropLabelCell_past idxL r (idxL + 1) newR (by omega)
    | succ k =>
      have hi : ¬ (i = idxL) := by omega
      simp only [hi, if_false, List.eraseIdx_cons_succ]
      rw [ih (i + 1) k _ (by omega)]
      simp

theorem predictFileLoop_ok (idxL : Nat) (rows predictFile : Rows)
    (h : ∀ r ∈ rows, idxL < r.length) :
    predictFileLoop idxL rows predictFile
      = .ok (predictFile ++ rows.map (fun r => r.eraseIdx idxL)) := by
  induction rows generalizing predictFile with
  | nil => simp [predictFileLoop]
  | cons r rs ih =>
    unfold predictFileLoop
    have hr : ¬ (r.length ≤ idxL) := by
      have := h r (List.mem_cons_self _ _)
      omega
    simp only [hr, if_false]
    rw [ih _ (fun r' hr' => h r' (List.mem_cons_of_mem _ hr')),
      dropLabelCell_eq idxL r 0 idxL [] (by omega)]
    simp

theorem predictFileLoop_error (idxL : Nat) (rows predictFile : Rows)
    (h : ∃ r ∈ rows, r.length ≤ idxL) :
    predictFileLoop idxL rows predictFile = .error (Error.msg "invalid file") := by
  induction rows generalizing predictFile with
  | nil => simp at h
  | cons r rs ih =>
    unfold predictFileLoop
    by_cases hr : r.length ≤ idxL
    · simp [hr]
    · simp only [hr, if_false]
      apply ih
      rcases h with ⟨r', hmem, hle⟩
      rcases List.mem_cons.1 hmem with rfl | hmem
      · exact absurd hle hr
      · exact ⟨r', hmem, hle⟩

/-- C25: on a fold with a header, when the label first occurs in the header
at column `c`, `GetPredictSet` returns the rows of the fold, in order, each
without its cell at column `c`, if every row has more than `c` cells, and the
error "invalid file" with an empty result if some row has at most `c` cells;
when the label does not occur in the header it returns the fold unchanged. -/
theorem GetPredictSet_spec (s : splitter) (idx : Int) (fold : Rows) (header : List String)
    (rest : Rows) (hidx : 0 ≤ idx) (hfold : s.folds[idx.toNat]? = some fold)
    (hrows : fold = header :: rest) :
    (∀ c, header[c]? = some s.label → (∀ j < c, header[j]? ≠ some s.label) →
      ((∀ r ∈ fold, c < r.length) →
        s.GetPredictSet idx = some (fold.map (fun r => r.eraseIdx c), none))
      ∧ ((∃ r ∈ fold, r.length ≤ c) →
        s.GetPredictSet idx = some ([], some (Error.msg "invalid file"))))
    ∧ (s.label ∉ header → s.GetPredictSet idx = some (fold, none)) := by
  have hvalid := GetValidSet_fold s idx fold hidx hfold
  subst hrows
  refine ⟨?_, ?_⟩
  · intro c hc hfirst
    have hlabel := labelIndexFrom_first s.label header c hc hfirst
    refine ⟨?_, ?_⟩
    · intro hall
      simp only [splitter.GetPredictSet, hvalid, hlabel, predictFileLoop_ok c _ [] hall,
        List.nil_append]
    · intro hsome
      simp only [splitter.GetPredictSet, hvalid, hlabel, predictFileLoop_error c _ [] hsome]
  · intro hnot
    have hlabel := (labelIndexFrom_none_iff s.label header 0).2 hnot
    simp only [splitter.GetPredictSet, hvalid, hlabel]

/-- C25 on the sample splitter: the second fold is the header and the data row
of sample 2; the label `y` is at column 1 and is removed from both rows. -/
theorem GetPredictSet_spec_witness :
    sampleSplitter.GetPredictSet 1 = some ([["id", "x"], ["2", "1.5"]], none) :=
  ((GetPredictSet_spec sampleSplitter 1 [["id", "y", "x"], ["2", "no", "1.5"]]
    ["id", "y", "x"] [["2", "no", "1.5"]] (by decide) (by decide) rfl).1 1 (by decide)
    (by decide)).1 (by decide)

/-! ## The training set -/

theorem trainSetLoop_past (idxHO : Int) (folds : List Rows) (i : Int) (trainSet : Rows)
    (hne : ∀ fold ∈ folds, fold ≠ []) (hi : idxHO < i) :
    trainSetLoop idxHO folds i trainSet = some (trainSet ++ folds.flatMap List.tail) := by
  induction folds generalizing i trainSet with
  | nil => simp [trainSetLoop]
  | cons fold folds ih =>
    unfold trainSetLoop
    have hi' : ¬ (i = idxHO) := by omega
    simp only [hi', if_false]
    cases fold with
    | nil => exact absurd rfl (hne [] (List.mem_cons_self _ _))
    | cons h dataRows =>
      simp only
      rw [ih (i + 1) _ (fun f hf => hne f (List.mem_cons_of_mem _ hf)) (by omega)]
      simp [List.flatMap_cons]

theorem trainSetLoop_eq (idxHO : Int) (folds : List Rows) (i : Int) (k : Nat)
    (trainSet : Rows) (hne : ∀ fold ∈ folds, fold ≠ []) (hk : i + (k : Int) = idxHO) :
    trainSetLoop idxHO folds i trainSet
      = some (trainSet ++ (folds.eraseIdx k).flatMap List.tail) := by
  induction folds generalizing i k trainSet with
  | nil => simp [trainSetLoop]
  | cons fold folds ih =>
    unfold trainSetLoop
    have hne' : ∀ f ∈ folds, f ≠ [] := fun f hf => hne f (List.mem_cons_of_mem _ hf)
    cases k with
    | zero =>
      have hi : i = idxHO := by simpa using hk
      simp only [hi, if_true, List.eraseIdx_cons_zero]
      exact trainSetLoop_past idxHO folds (idxHO + 1) trainSet hne' (by omega)
    | succ k =>
      have hi : ¬ (i = idxHO) := by
        push_cast at hk
        omega
      simp only [hi, if_false, List.eraseIdx_cons_succ]
      cases fold with
      | nil => exact absurd rfl (hne [] (List.mem_cons_self _ _))
      | cons h dataRows =>
        simp only
        rw [ih (i + 1) k _ hne' (by push_cast at hk; omega)]
        simp [List.flatMap_cons]

theorem length_flatMap_tail (folds : List Rows) :
    (folds.flatMap List.tail).length = (folds.map (fun fold => fold.length - 1)).sum := by
  induction folds with
  | nil => simp
  | cons fold folds ih => simp [List.flatMap_cons, ih]

/-- C26: in a splitter whose file has a header row and whose folds all have
rows, for `0 ≤ idxHO < len(folds)` with a held-out fold of at most
`len(fileRows) + 1` rows, `GetTrainSet` returns the header of the file followed
by the data rows of the other folds in fold order, `1 + Σ (len(fold) - 1)`
rows in all; before a split and for `idxHO ≥ len(folds)` it returns an error
and an empty set. -/
theorem GetTrainSet_spec (s : splitter) (idxHO : Int) :
    (∀ header rest foldHO, s.fileRows = header :: rest → (∀ fold ∈ s.folds, fold ≠ []) →
      0 ≤ idxHO → s.folds[idxHO.toNat]? = some foldHO →
      foldHO.length ≤ s.fileRows.length + 1 →
      ∃ trainSet, s.GetTrainSet idxHO = some (trainSet, none)
        ∧ trainSet = header :: (s.folds.eraseIdx idxHO.toNat).flatMap List.tail
        ∧ trainSet.length
            = 1 + ((s.folds.eraseIdx idxHO.toNat).map (fun fold => fold.length - 1)).sum)
    ∧ (s.folds = [] →
        s.GetTrainSet idxHO = some ([], some (Error.msg "the file has not been split")))
    ∧ (s.folds ≠ [] → idxHO ≥ (s.folds.length : Int) →
        s.GetTrainSet idxHO
          = some ([], some (Error.msg "invalid index referring to subset held out"))) := by
  refine ⟨?_, ?_, ?_⟩
  · intro header rest foldHO hfile hne h0 hfold hlen
    have hlt : idxHO.toNat < s.folds.length := (List.getElem?_eq_some_iff.1 hfold).1
    have hl : ¬ ((s.folds.length : Int) = 0) := by omega
    have hge : ¬ (idxHO ≥ (s.folds.length : Int)) := by omega
    have hcap : ¬ ((s.fileRows.length : Int) - (foldHO.length : Int) + 1 < 0) := by omega
    have hloop := trainSetLoop_eq idxHO s.folds 0 idxHO.toNat [header] hne (by omega)
    refine ⟨header :: (s.folds.eraseIdx idxHO.toNat).flatMap List.tail, ?_, rfl, ?_⟩
    · simp only [splitter.GetTrainSet, hl, hge, if_false, sliceIndex_of_nonneg _ _ h0, hfold,
        hcap]
      rw [hfile]
      simp only [hloop, List.singleton_append]
    · rw [List.length_cons, length_flatMap_tail, Nat.add_comm]
  · intro h
    simp [splitter.GetTrainSet, h]
  · intro hne hge
    have hl : ¬ ((s.folds.length : Int) = 0) := by
      have := List.length_pos.2 hne
      omega
    simp only [splitter.GetTrainSet, hl, hge, if_false, if_true]

/-- C26 on the sample splitter: holding out the second of the three folds
leaves the header and the data rows of samples 1 and 3. -/
theorem GetTrainSet_spec_witness :
    ∃ trainSet, sampleSplitter.GetTrainSet 1 = some (trainSet, none)
      ∧ trainSet = ["id", "y", "x"]
          :: (sampleSplitter.folds.eraseIdx (1 : Int).toNat).flatMap List.tail
      ∧ trainSet.length
          = 1 + ((sampleSplitter.folds.eraseIdx (1 : Int).toNat).map
              (fun fold => fold.length - 1)).sum :=
  (GetTrainSet_spec sampleSplitter 1).1 ["id", "y", "x"]
    [["1", "yes", "0.5"], ["2", "no", "1.5"], ["3", "maybe", "2.5"]]
    [["id", "y", "x"], ["2", "no", "1.5"]] rfl (by decide) (by decide) (by decide) (by decide)

/-! ## The split methods -/

/-- C29: `Split` and `ShuffleSplit` return the error "percents must between 1
and 100" for `percents < 1` or `percents > 100`; a split method that returns
an error leaves the splitter as it was; after a `Split` without error the
folds are the first two parts of the package function `Split`, first part
first, and the other fields are as before. -/
theorem split_methods_frame (F : SplitFunctions) (s : splitter) (percents k : Int)
    (seed : String) :
    ((percents < 1 ∨ percents > 100) →
        s.Split F percents = some (s, some (Error.msg "percents must between 1 and 100"))
        ∧ s.ShuffleSplit F percents seed
            = some (s, some (Error.msg "percents must between 1 and 100")))
    ∧ (∀ s' err, s.Split F percents = some (s', some err) → s' = s)
    ∧ (∀ s' err, s.ShuffleSplit F percents seed = some (s', some err) → s' = s)
    ∧ (∀ err, (s.KFoldsSplit F k).2 = some err → (s.KFoldsSplit F k).1 = s)
    ∧ (∀ err, (s.ShuffleKFoldsSplit F k seed).2 = some err →
        (s.ShuffleKFoldsSplit F k seed).1 = s)
    ∧ (∀ err, (s.LooSplit F).2 = some err → (s.LooSplit F).1 = s)
    ∧ (∀ s', s.Split F percents = some (s', none) →
        ∃ first second others, F.Split s.fileRows percents = .ok (first :: second :: others)
          ∧ s'.folds = [first, second] ∧ s'.fileRows = s.fileRows
          ∧ s'.idName = s.idName ∧ s'.label = s.label) := by
  refine ⟨?_, ?_, ?_, ?_, ?_, ?_, ?_⟩
  · intro h
    simp [splitter.Split, splitter.ShuffleSplit, h]
  · intro s' err h
    unfold splitter.Split at h
    split at h
    · simp only [Option.some.injEq, Prod.mk.injEq] at h
      exact h.1.symm
    · split at h
      · simp only [Option.some.injEq, Prod.mk.injEq] at h
        exact h.1.symm
      · split at h <;> simp at h
  · intro s' err h
    unfold splitter.ShuffleSplit at h
    split at h
    · simp only [Option.some.injEq, Prod.mk.injEq] at h
      exact h.1.symm
    · split at h
      · simp only [Option.some.injEq, Prod.mk.injEq] at h
        exact h.1.symm
      · split at h <;> simp at h
  · intro err h
    unfold splitter.KFoldsSplit at h ⊢
    split <;> simp_all
  · intro err h
    unfold splitter.ShuffleKFoldsSplit at h ⊢
    split <;> simp_all
  · intro err h
    unfold splitter.LooSplit at h ⊢
    split <;> simp_all
  · intro s' h
    unfold splitter.Split at h
    split at h
    · simp at h
    · split at h
      · simp at h
      · rename_i splitSets hsplit
        split at h
        · rename_i first second others
          simp only [Option.some.injEq, Prod.mk.injEq, and_true] at h
          subst h
          exact ⟨first, second, others, hsplit, rfl, rfl, rfl, rfl⟩
        · simp at h

/-- C29 on the sample file: `Split(0)` is refused and leaves the splitter as
it was. -/
theorem split_methods_frame_witness :
    (NewSplitter sampleFile "id" "y").Split sampleSplitFunctions 0
        = some (NewSplitter sampleFile "id" "y",
            some (Error.msg "percents must between 1 and 100"))
    ∧ (NewSplitter sampleFile "id" "y").ShuffleSplit sampleSplitFunctions 0 "seed"
        = some (NewSplitter sampleFile "id" "y",
            some (Error.msg "percents must between 1 and 100")) :=
  (split_methods_frame sampleSplitFunctions (NewSplitter sampleFile "id" "y") 0 5 "seed").1
    (Or.inl (by decide))

/-! ## Binary classification: the label column -/

theorem resetLabelLoop_ok (idx : Nat) (posClass negClass : String) (rows newFile : Rows)
    (h : ∀ r ∈ rows, idx < r.length) :
    resetLabelLoop idx posClass negClass rows newFile
      = .ok (newFile ++ rows.map (fun r =>
          r.set idx (if r[idx]? = some posClass then posClass else negClass))) := by
  induction rows generalizing newFile with
  | nil => simp [resetLabelLoop]
  | cons r rs ih =>
    unfold resetLabelLoop
    have hr : idx < r.length := h r (List.mem_cons_self _ _)
    have hr' : ¬ (r.length ≤ idx) := by omega
    simp only [hr', dite_false]
    rw [ih _ (fun r' hr' => h r' (List.mem_cons_of_mem _ hr'))]
    have hrow : (if r.length > idx + 1 then
          (if r.get ⟨idx, hr⟩ = posClass then r.take idx ++ [posClass]
            else r.take idx ++ [negClass]) ++ r.drop (idx + 1)
        else (if r.get ⟨idx, hr⟩ = posClass then r.take idx ++ [posClass]
            else r.take idx ++ [negClass]))
        = r.set idx (if r[idx]? = some posClass then posClass else negClass) := by
      rw [List.set_eq_take_cons_drop _ hr, List.getElem?_eq_getElem hr, List.get_eq_getElem]
      simp only [Option.some.injEq]
      by_cases hlen : r.length > idx + 1
      · by_cases hc : r[idx] = posClass <;> simp [hlen, hc]
      · have hdrop : r.drop (idx + 1) = [] := List.drop_eq_nil_of_le (by omega)
        by_cases hc : r[idx] = posClass <;> simp [hlen, hc, hdrop]
    rw [hrow]
    simp

theorem resetLabelLoop_error (idx : Nat) (posClass negClass : String) (rows newFile : Rows)
    (h : ∃ r ∈ rows, r.length ≤ idx) :
    resetLabelLoop idx posClass negClass rows newFile = .error (Error.msg "invalid file") := by
  induction rows generalizing newFile with
  | nil => simp at h
  | cons r rs ih =>
    unfold resetLabelLoop
    by_cases hr : r.length ≤ idx
    · simp [hr]
    · simp only [hr, dite_false]
      apply ih
      rcases h with ⟨r', hmem, hle⟩
      rcases List.mem_cons.1 hmem with rfl | hmem
      · exact absurd hle hr
      · exact ⟨r', hmem, hle⟩

theorem NewBinClassValidation_of_rows (header r0 : List String) (rs : Rows)
    ( label idName posClass negClass : String) (threshold : F64) (newFile : Rows)
    (h : (match labelIndexFrom label header 0 with
          | none => Except.ok (header :: r0 :: rs)
          | some idx => resetLabelLoop idx posClass
              (if negClass = "" then "non-" ++ posClass else negClass) (r0 :: rs) [header])
        = .ok newFile) :
    NewBinClassValidation (header :: r0 :: rs) label idName posClass negClass threshold
      = (some ⟨NewSplitter newFile idName label, label, posClass,
          if negClass = "" then "non-" ++ posClass else negClass,
          if F64.le threshold (F64.fin 0) then F64.fin (1 / 2) else threshold,
          GoMap.empty, GoMap.empty⟩, none) := by
  simp only [NewBinClassValidation, utf8ByteSize_eq_zero_iff]
  rw [h]

theorem NewBinClassValidation_of_error (header r0 : List String) (rs : Rows)
    ( label idName posClass negClass : String) (threshold : F64) (err : Error)
    (h : (match labelIndexFrom label header 0 with
          | none => Except.ok (header :: r0 :: rs)
          | some idx => resetLabelLoop idx posClass
              (if negClass = "" then "non-" ++ posClass else negClass) (r0 :: rs) [header])
        = .error err) :
    NewBinClassValidation (header :: r0 :: rs) label idName posClass negClass threshold
      = (none, some err) := by
  simp only [NewBinClassValidation, utf8ByteSize_eq_zero_iff]
  rw [h]

/-- C30: for a file of a header and at least one data row, when the label
first occurs in the header at column `c`: if every data row has more than `c`
cells, the file handed to the splitter is the header followed by the data rows
with cell `c` set to `posClass` where it was `posClass` and to the negative
class name otherwise (`negClass`, or `"non-" + posClass` when `negClass` is
empty), the same number of rows; if some data row has at most `c` cells the
error is "invalid file". A file of at most one row gives "invalid file", and
a file whose header lacks the label is handed on unchanged. -/
theorem NewBinClassValidation_resets_label (file : Rows) ( label idName posClass : String)
    (negClass : String) (threshold : F64) :
    (∀ header dataRows c, file = header :: dataRows → dataRows ≠ [] →
      header[c]? = some label → (∀ j < c, header[j]? ≠ some label) →
      ((∀ r ∈ dataRows, c < r.length) →
        ∃ bv, NewBinClassValidation file label idName posClass negClass threshold
            = (some bv, none)
          ∧ bv.Splitter.fileRows = header :: dataRows.map (fun r =>
              r.set c (if r[c]? = some posClass then posClass
                else if negClass = "" then "non-" ++ posClass else negClass))
          ∧ bv.Splitter.fileRows.length = file.length)
      ∧ ((∃ r ∈ dataRows, r.length ≤ c) →
        NewBinClassValidation file label idName posClass negClass threshold
          = (none, some (Error.msg "invalid file"))))
    ∧ (file.length ≤ 1 →
        NewBinClassValidation file label idName posClass negClass threshold
          = (none, some (Error.msg "invalid file")))
    ∧ (∀ header dataRows, file = header :: dataRows → dataRows ≠ [] → label ∉ header →
        ∃ bv, NewBinClassValidation file label idName posClass negClass threshold
            = (some bv, none)
          ∧ bv.Splitter.fileRows = file) := by
  refine ⟨?_, ?_, ?_⟩
  · intro header dataRows c hfile hdata hc hfirst
    subst hfile
    have hlabel := labelIndexFrom_first label header c hc hfirst
    obtain ⟨r0, rs, rfl⟩ := List.exists_cons_of_ne_nil hdata
    refine ⟨?_, ?_⟩
    · intro hall
      have hnew := NewBinClassValidation_of_rows header r0 rs label idName posClass negClass
        threshold (header :: (r0 :: rs).map (fun r =>
          r.set c (if r[c]? = some posClass then posClass
            else if negClass = "" then "non-" ++ posClass else negClass)))
        (by simp only [hlabel, resetLabelLoop_ok c _ _ _ _ hall, List.singleton_append])
      exact ⟨_, hnew, rfl, by simp [NewSplitter]⟩
    · intro hsome
      exact NewBinClassValidation_of_error header r0 rs label idName posClass negClass
        threshold _ (by simp only [hlabel, resetLabelLoop_error c _ _ _ _ hsome])
  · intro hlen
    match file, hlen with
    | [], _ => rfl
    | [_], _ => rfl
    | _ :: _ :: _, h => simp at h
  · intro header dataRows hfile hdata hnot
    subst hfile
    have hlabel := (labelIndexFrom_none_iff label header 0).2 hnot
    obtain ⟨r0, rs, rfl⟩ := List.exists_cons_of_ne_nil hdata
    exact ⟨_, NewBinClassValidation_of_rows header r0 rs label idName posClass negClass
      threshold (header :: r0 :: rs) (by simp only [hlabel]), rfl⟩

/-- C30 on the sample file with positive class `yes` and no name for the
negative class: the label column becomes `yes`, `non-yes`, `non-yes`. -/
theorem NewBinClassValidation_resets_label_witness :
    ∃ bv, NewBinClassValidation sampleFile "y" "id" "yes" "" (F64.fin (1 / 2))
        = (some bv, none)
      ∧ bv.Splitter.fileRows = ["id", "y", "x"] ::
          [["1", "yes", "0.5"], ["2", "no", "1.5"], ["3", "maybe", "2.5"]].map (fun r =>
            r.set 1 (if r[1]? = some "yes" then "yes"
              else if "" = "" then "non-" ++ "yes" else ""))
      ∧ bv.Splitter.fileRows.length = sampleFile.length :=
  ((NewBinClassValidation_resets_label sampleFile "y" "id" "yes" "" (F64.fin (1 / 2))).1
    ["id", "y", "x"] [["1", "yes", "0.5"], ["2", "no", "1.5"], ["3", "maybe", "2.5"]] 1 rfl
    (by decide) (by decide) (by decide)).1 (by decide)

/-! ## Binary classification: the predicted classes -/

theorem classifyLoop_eq (posClass negClass : String) (threshold : F64) (ps : List F64)
    (classes : List String) :
    classifyLoop posClass negClass threshold ps classes
      = classes ++ ps.map (fun p => if F64.le p threshold then negClass else posClass) := by
  induction ps generalizing classes with
  | nil => simp [classifyLoop]
  | cons p ps ih =>
    unfold classifyLoop
    simp only [ih, List.map_cons, List.append_assoc, List.singleton_append]

theorem NewBinClassValidation_fields (file : Rows) ( label idName posClass negClass : String)
    (threshold : F64) (bv : binClassValidation)
    (h : NewBinClassValidation file label idName posClass negClass threshold = (some bv, none)) :
    bv.posClass = posClass
    ∧ bv.negClass = (if negClass = "" then "non-" ++ posClass else negClass)
    ∧ bv.threshold = (if F64.le threshold (F64.fin 0) then F64.fin (1 / 2) else threshold) := by
  match file, h with
  | [], h => simp [NewBinClassValidation] at h
  | [_], h => simp [NewBinClassValidation] at h
  | header :: r0 :: rs, h =>
    cases hrows : (match labelIndexFrom label header 0 with
          | none => Except.ok (header :: r0 :: rs)
          | some idx => resetLabelLoop idx posClass
              (if negClass = "" then "non-" ++ posClass else negClass) (r0 :: rs) [header]) with
    | error err =>
      rw [NewBinClassValidation_of_error header r0 rs label idName posClass negClass threshold
        err hrows] at h
      simp at h
    | ok newFile =>
      rw [NewBinClassValidation_of_rows header r0 rs label idName posClass negClass threshold
        newFile hrows] at h
      simp only [Prod.mk.injEq, Option.some.injEq, and_true] at h
      subst h
      exact ⟨rfl, rfl, rfl⟩

theorem SetPredictOut_ok_aux (bv bv' : binClassValidation) (idx : Int) (probas : List F64)
    (h : bv.SetPredictOut idx probas = some (bv', none)) :
    bv' = { bv with
      predResults := bv.predResults.store idx probas,
      predClasses := bv.predClasses.store idx
        (probas.map (fun p => if F64.le p bv.threshold then bv.negClass else bv.posClass)) } := by
  unfold binClassValidation.SetPredictOut at h
  split at h
  · simp at h
  · simp at h
  · split at h
    · simp at h
    · simp only [Option.some.injEq, Prod.mk.injEq, and_true] at h
      rw [← h, classifyLoop_eq]
      simp

theorem sampleBinClassNew_eq :
    NewBinClassValidation sampleFile "y" "id" "yes" "" (F64.fin (1 / 2))
      = (some sampleBinClassNew, none) := by
  have hle : F64.le (F64.fin (1 / 2)) (F64.fin 0) = false := by
    simp [F64.le]
  have h := NewBinClassValidation_of_rows ["id", "y", "x"] ["1", "yes", "0.5"]
    [["2", "no", "1.5"], ["3", "maybe", "2.5"]] "y" "id" "yes" "" (F64.fin (1 / 2))
    [["id", "y", "x"], ["1", "yes", "0.5"], ["2", "non-yes", "1.5"], ["3", "non-yes", "2.5"]]
    rfl
  rw [hle] at h
  exact h

/-- In the sample validation (positive class `yes`, threshold 0.5) a value
that is not a number is stored as `yes`: the comparison `p <= threshold` is
false for it, and so is `p > threshold`. -/
theorem SetPredictOut_nan_is_positive :
    NewBinClassValidation sampleFile "y" "id" "yes" "" (F64.fin (1 / 2))
      = (some sampleBinClassNew, none)
    ∧ sampleBinClass.posClass = "yes" ∧ sampleBinClass.negClass = "non-yes"
    ∧ sampleBinClass.threshold = F64.fin (1 / 2)
    ∧ (∃ bv, sampleBinClass.SetPredictOut 0 [F64.nan] = some (bv, none)
        ∧ bv.GetAllPredictOuts 0 = some ["yes"])
    ∧ F64.lt (F64.fin (1 / 2)) F64.nan = false := by
  refine ⟨sampleBinClassNew_eq, rfl, rfl, rfl, ?_, rfl⟩
  have hset : sampleBinClass.Splitter.GetValidSet 0
      = some ([["id", "y", "x"], ["1", "yes", "0.5"]], none) := by decide
  refine ⟨{ sampleBinClass with
      predResults := sampleBinClass.predResults.store 0 [F64.nan],
      predClasses := sampleBinClass.predClasses.store 0 ["yes"] }, ?_, ?_⟩
  · simp only [binClassValidation.SetPredictOut, hset]
    simp [classifyLoop, F64.le, sampleBinClass, sampleBinClassNew]
  · simp [binClassValidation.GetAllPredictOuts, GoMap.store]

/-- C27: for a validation whose class names and threshold are those
`NewBinClassValidation` has set (a threshold `<= 0` replaced by 0.5, an empty
`negClass` by `"non-" + posClass`), after `SetPredictOut(idx, probas)` without
error `GetAllPredictOuts()[idx]` has the length of `probas`; its entry `i` is
`posClass` when `probas[i] > threshold` and the negative class name when
`probas[i] <= threshold`; and for a probability and a threshold that are
numbers the entry is `posClass` if the probability exceeds the threshold and
the negative class name if not, so that, the two names being different, the
sample is classified positive if and only if its probability exceeds the
threshold. The class names and the threshold stay as they were. -/
theorem SetPredictOut_classes (file : Rows) ( label idName posClass negClass : String)
    (threshold : F64) (bv0 bv bv' : binClassValidation) (idx : Int) (probas : List F64)
    (hnew : NewBinClassValidation file label idName posClass negClass threshold
      = (some bv0, none))
    (hpos : bv.posClass = bv0.posClass) (hneg : bv.negClass = bv0.negClass)
    (hthr : bv.threshold = bv0.threshold)
    (hset : bv.SetPredictOut idx probas = some (bv', none)) :
    bv.threshold = (if F64.le threshold (F64.fin 0) then F64.fin (1 / 2) else threshold)
    ∧ bv.negClass = (if negClass = "" then "non-" ++ posClass else negClass)
    ∧ bv.posClass = posClass
    ∧ bv'.posClass = bv.posClass ∧ bv'.negClass = bv.negClass
    ∧ bv'.threshold = bv.threshold
    ∧ ∃ classes, bv'.GetAllPredictOuts idx = some classes
      ∧ classes.length = probas.length
      ∧ ∀ (i : Nat) (p : F64), probas[i]? = some p →
          (F64.lt bv.threshold p = true → classes[i]? = some bv.posClass)
          ∧ (F64.le p bv.threshold = true → classes[i]? = some bv.negClass)
          ∧ (p ≠ F64.nan → bv.threshold ≠ F64.nan →
              classes[i]? = some (if F64.lt bv.threshold p then bv.posClass else bv.negClass)
              ∧ (bv.posClass ≠ bv.negClass →
                  (classes[i]? = some bv.posClass ↔ F64.lt bv.threshold p = true))) := by
  obtain ⟨h1, h2, h3⟩ := NewBinClassValidation_fields file label idName posClass negClass
    threshold bv0 hnew
  have hbv := SetPredictOut_ok_aux bv bv' idx probas hset
  refine ⟨hthr.trans h3, hneg.trans h2, hpos.trans h1, by rw [hbv], by rw [hbv], by rw [hbv],
    probas.map (fun p => if F64.le p bv.threshold then bv.negClass else bv.posClass),
    ?_, by simp, ?_⟩
  · rw [hbv]
    simp [binClassValidation.GetAllPredictOuts, GoMap.store]
  · intro i p hp
    have hentry : (probas.map
        (fun p => if F64.le p bv.threshold then bv.negClass else bv.posClass))[i]?
        = some (if F64.le p bv.threshold then bv.negClass else bv.posClass) := by
      rw [List.getElem?_map, hp]
      rfl
    rw [hentry]
    refine ⟨?_, fun h => by simp [h], ?_⟩
    · intro hlt
      simp [F64_le_of_lt bv.threshold p hlt]
    · intro hp' ht'
      have hle : F64.le p bv.threshold = !F64.lt bv.threshold p :=
        F64_le_eq_not_lt p bv.threshold hp' ht'
      rw [hle]
      cases hlt : F64.lt bv.threshold p
      · refine ⟨by simp, fun hne => ?_⟩
        simp only [Bool.not_false, if_true, Option.some.injEq]
        exact ⟨fun h => absurd h.symm hne, fun h => by simp at h⟩
      · refine ⟨by simp, fun _ => ?_⟩
        simp

/-- C27 on the sample validation after `LooSplit`: the fold of sample 1 gets
the one probability 0.75, which exceeds 0.5 and is classified `yes`. -/
theorem SetPredictOut_classes_witness :
    ∃ classes,
      (⟨sampleBinClass.Splitter, "y", "yes", "non-yes", F64.fin (1 / 2),
          GoMap.store sampleBinClass.predResults 0 [F64.fin (3 / 4)],
          GoMap.store sampleBinClass.predClasses 0 ["yes"]⟩
        : binClassValidation).GetAllPredictOuts 0 = some classes
      ∧ classes.length = [F64.fin (3 / 4)].length
      ∧ ∀ (i : Nat) (p : F64), [F64.fin (3 / 4)][i]? = some p →
          (F64.lt sampleBinClass.threshold p = true →
            classes[i]? = some sampleBinClass.posClass)
          ∧ (F64.le p sampleBinClass.threshold = true →
            classes[i]? = some sampleBinClass.negClass)
          ∧ (p ≠ F64.nan → sampleBinClass.threshold ≠ F64.nan →
              classes[i]? = some (if F64.lt sampleBinClass.threshold p
                then sampleBinClass.posClass else sampleBinClass.negClass)
              ∧ (sampleBinClass.posClass ≠ sampleBinClass.negClass →
                  (classes[i]? = some sampleBinClass.posClass
                    ↔ F64.lt sampleBinClass.threshold p = true))) :=
  (SetPredictOut_classes sampleFile "y" "id" "yes" "" (F64.fin (1 / 2)) sampleBinClassNew
    sampleBinClass
    ⟨sampleBinClass.Splitter, "y", "yes", "non-yes", F64.fin (1 / 2),
      GoMap.store sampleBinClass.predResults 0 [F64.fin (3 / 4)],
      GoMap.store sampleBinClass.predClasses 0 ["yes"]⟩
    0 [F64.fin (3 / 4)] sampleBinClassNew_eq rfl rfl rfl
    (by
      have hset : sampleBinClass.Splitter.GetValidSet 0
          = some ([["id", "y", "x"], ["1", "yes", "0.5"]], none) := by decide
      simp only [binClassValidation.SetPredictOut, hset]
      norm_num [classifyLoop, F64.le, sampleBinClass, sampleBinClassNew])).2.2.2.2.2.2

/-! ## When the concatenation fails, and what it cannot tell apart -/

/-- The loop of `concatBigInt` on a reduced accumulator fails exactly when an
element is negative. -/
theorem concatBigIntFrom_error_iff (m : Int) (hm : 0 < m) (l : List Int) (p : Nat) :
    (∃ err, concatBigIntFrom m l ((p : Int) % m) = .error err) ↔ ∃ n ∈ l, n < 0 := by
  induction l generalizing p with
  | nil => simp [concatBigIntFrom]
  | cons n t ih =>
    by_cases hn : 0 ≤ n
    · simp only [concatBigIntFrom, concatBigIntStep_nonneg m hm p n hn]
      rw [ih]
      constructor
      · rintro ⟨x, hx, hneg⟩
        exact ⟨x, List.mem_cons_of_mem _ hx, hneg⟩
      · rintro ⟨x, hx, hneg⟩
        rcases List.mem_cons.1 hx with rfl | hx
        · omega
        · exact ⟨x, hx, hneg⟩
    · have hneg : n < 0 := not_le.1 hn
      have hr : 0 ≤ (p : Int) % m := Int.emod_nonneg _ (ne_of_gt hm)
      simp only [concatBigIntFrom, concatBigIntStep_neg m _ n hr hneg]
      exact ⟨fun _ => ⟨n, List.mem_cons_self _ _, hneg⟩, fun _ => ⟨_, rfl⟩⟩

/-- C34: for a positive modulus `concatBigInt` returns an error exactly when
an element of the list is negative. `CalculateSigmaIParamsFromBytes` builds
`Index` and `RandomV` with `SetBytes`, so they are non-negative, and for a
positive group order `CalculateSigmaI` returns a tag, not an error, on the
parameters it builds. -/
theorem concatBigInt_error_iff {G1 G2 : Type} [AddCommGroup G1] (P : PairingParams G1 G2)
    (list : List Int) (modulus : Int) (content index randomV randomU privkey : Octets)
    (round : Int) (hm : 0 < modulus) (hord : 0 < P.order) :
    ((∃ err, concatBigInt list modulus = .error err) ↔ ∃ n ∈ list, n < 0)
    ∧ 0 ≤ (CalculateSigmaIParamsFromBytes content index randomV randomU privkey round).Index
    ∧ 0 ≤ (CalculateSigmaIParamsFromBytes content index randomV randomU privkey round).RandomV
    ∧ ∃ sigma, CalculateSigmaI P
        (CalculateSigmaIParamsFromBytes content index randomV randomU privkey round)
          = .ok sigma := by
  have hI : 0 ≤ (CalculateSigmaIParamsFromBytes content index randomV randomU privkey
      round).Index := Int.natCast_nonneg _
  have hV : 0 ≤ (CalculateSigmaIParamsFromBytes content index randomV randomU privkey
      round).RandomV := Int.natCast_nonneg _
  refine ⟨?_, hI, hV, _, CalculateSigmaI_eq P _ hord hV hI⟩
  have h := concatBigIntFrom_error_iff modulus hm list 0
  simpa [concatBigInt] using h

/-- C34 at the sample parameters: the list `[7, -1]` has a negative element
and is refused modulo 7, and the tag of parameters decoded from bytes is
computed. -/
theorem concatBigInt_error_iff_witness :
    (∃ err, concatBigInt [7, -1] 7 = .error err)
    ∧ ∃ sigma, CalculateSigmaI sampleParams
        (CalculateSigmaIParamsFromBytes alphaBytes [1] [7] [3] [5] 2) = .ok sigma :=
  have h := concatBigInt_error_iff sampleParams [7, -1] 7 alphaBytes [1] [7] [3] [5] 2
    (by decide) sampleParams_order_pos
  ⟨h.1.2 ⟨-1, by decide, by decide⟩, h.2.2.2⟩

theorem decimalValue_one_twenty_three :
    decimalValue (BigInt.String 1 ++ BigInt.String 23) = 123 := by
  have h1 : BigInt.String 1 = decDigits 1 := String_of_nonneg 1 (by decide)
  have h23 : BigInt.String 23 = decDigits 23 := String_of_nonneg 23 (by decide)
  have hlen : (decDigits 23).length = 2 := by
    simp [decDigits]
  rw [h1, h23, decimalValue_append, decimalValue_decDigits, decimalValue_decDigits, hlen]
  norm_num

theorem decimalValue_twelve_three :
    decimalValue (BigInt.String 12 ++ BigInt.String 3) = 123 := by
  have h12 : BigInt.String 12 = decDigits 12 := String_of_nonneg 12 (by decide)
  have h3 : BigInt.String 3 = decDigits 3 := String_of_nonneg 3 (by decide)
  have hlen : (decDigits 3).length = 1 := by
    simp [decDigits]
  rw [h12, h3, decimalValue_append, decimalValue_decDigits, decimalValue_decDigits, hlen]
  norm_num

/-- C35: the decimal concatenation does not tell `(1, 23)` from `(12, 3)`:
for a positive group order `concatBigInt` gives `123 mod order` for both, so
`hashToG1` is applied to the same number, and two tag computations that differ
only in `(RandomV, Index)` being `(1, 23)` or `(12, 3)` return the same tag.
In general two pairs of non-negative integers with the same concatenated
decimal string give the same result. -/
theorem concatBigInt_not_injective {G1 G2 : Type} [AddCommGroup G1]
    (P : PairingParams G1 G2) (hord : 0 < P.order) :
    ((1 : Int), (23 : Int)) ≠ (12, 3)
    ∧ concatBigInt [1, 23] P.order = .ok (123 % P.order)
    ∧ concatBigInt [12, 3] P.order = .ok (123 % P.order)
    ∧ (∀ (content : Octets) (randomU sk round : Int),
        CalculateSigmaI P ⟨content, 23, 1, randomU, ⟨sk⟩, round⟩
          = CalculateSigmaI P ⟨content, 3, 12, randomU, ⟨sk⟩, round⟩
        ∧ ∃ sigma, CalculateSigmaI P ⟨content, 23, 1, randomU, ⟨sk⟩, round⟩ = .ok sigma)
    ∧ (∀ v i v' i' : Int, 0 ≤ v → 0 ≤ i → 0 ≤ v' → 0 ≤ i' →
        BigInt.String v ++ BigInt.String i = BigInt.String v' ++ BigInt.String i' →
        concatBigInt [v, i] P.order = concatBigInt [v', i'] P.order) := by
  have h1 : concatBigInt [1, 23] P.order = .ok (123 % P.order) := by
    rw [concatBigInt_pair P.order 1 23 hord (by decide) (by decide),
      decimalValue_one_twenty_three]
    rfl
  have h2 : concatBigInt [12, 3] P.order = .ok (123 % P.order) := by
    rw [concatBigInt_pair P.order 12 3 hord (by decide) (by decide),
      decimalValue_twelve_three]
    rfl
  refine ⟨by decide, h1, h2, ?_, ?_⟩
  · intro content randomU sk round
    refine ⟨?_, ?_⟩
    · simp only [CalculateSigmaI, h1, h2]
    · simp only [CalculateSigmaI, h1]
      exact ⟨_, rfl⟩
  · intro v i v' i' hv hi hv' hi' hstr
    rw [concatBigInt_pair P.order v i hord hv hi, concatBigInt_pair P.order v' i' hord hv' hi',
      hstr]

/-- C35 at the sample parameters, whose order is that of BLS12-381: both
pairs are far below the order and give the same tag. -/
theorem concatBigInt_not_injective_witness :
    (23 : Int) < sampleParams.order
    ∧ concatBigInt [1, 23] sampleParams.order = concatBigInt [12, 3] sampleParams.order
    ∧ CalculateSigmaI sampleParams ⟨alphaBytes, 23, 1, 3, ⟨5⟩, 2⟩
        = CalculateSigmaI sampleParams ⟨alphaBytes, 3, 12, 3, ⟨5⟩, 2⟩ :=
  have h := concatBigInt_not_injective sampleParams sampleParams_order_pos
  ⟨by decide, h.2.1.trans h.2.2.1.symm, (h.2.2.2.1 alphaBytes 3 5 2).1⟩

/-! ## The round mask -/

/-- C36: for round 0 the round mask is the same for every private scalar,
the bytes of the hash of the identity point `0 * g1`; a mask depends on
`round` and `sk` through the product `round * sk` alone, and, the generator
having the group order, through that product modulo the order. -/
theorem genRandNumByRound_product {G1 G2 : Type} [AddCommGroup G1]
    (P : PairingParams G1 G2) (round round' sk sk' : Int) :
    genRandNumByRound P 0 sk = genRandNumByRound P 0 sk'
    ∧ genRandNumByRound P 0 sk = BigInt.Bytes (hashG1toBigInt P ((0 : Int) • P.g1Gen))
    ∧ (round * sk = round' * sk' →
        genRandNumByRound P round sk = genRandNumByRound P round' sk')
    ∧ (P.order • P.g1Gen = 0 → (round * sk) % P.order = (round' * sk') % P.order →
        genRandNumByRound P round sk = genRandNumByRound P round' sk') := by
  refine ⟨?_, ?_, ?_, ?_⟩
  · simp [genRandNumByRound]
  · simp [genRandNumByRound]
  · intro h
    simp only [genRandNumByRound, h]
  · intro hgen hmod
    have h : (round * sk) • P.g1Gen = (round' * sk') • P.g1Gen := by
      rw [← emod_smul_of_order P.g1Gen P.order (round * sk) hgen,
        ← emod_smul_of_order P.g1Gen P.order (round' * sk') hgen, hmod]
    simp only [genRandNumByRound, h]

/-- C36 in the group of order 7: round 2 with key 5 and round 3 with key 1
have the products 10 and 3, equal modulo 7, and the same mask. -/
theorem genRandNumByRound_product_witness :
    genRandNumByRound sampleCyclicParams 2 5 = genRandNumByRound sampleCyclicParams 3 1 :=
  (genRandNumByRound_product sampleCyclicParams 2 3 5 1).2.2.2 (by decide) (by decide)

/-! ## Importing features -/

theorem logRegCells_ok (ParseFloat : String → Except String F64) ( label labelName : String)
    (sample : Int) (fs : List DataFeature) (cells : List String)
    (hlen : fs.length ≤ cells.length)
    (hparse : ∀ (j : Nat) f c, fs[j]? = some f → cells[j]? = some c →
      f.FeatureName ≠ label → ∃ v, ParseFloat c = .ok v) :
    ∃ fs', logRegCells ParseFloat label labelName sample fs cells = some (.ok fs')
      ∧ fs'.length = fs.length
      ∧ ∀ (j : Nat) f c, fs[j]? = some f → cells[j]? = some c →
        ∃ f' v, fs'[j]? = some f' ∧ f'.FeatureName = f.FeatureName
          ∧ f'.Sets = f.Sets.store sample v
          ∧ (f.FeatureName = label → v = if c = labelName then F64.fin 1 else F64.fin 0)
          ∧ (f.FeatureName ≠ label → ParseFloat c = .ok v) := by
  induction fs generalizing cells with
  | nil => exact ⟨[], by simp [logRegCells], rfl, by simp⟩
  | cons f fs ih =>
    cases cells with
    | nil => simp at hlen
    | cons cell cells =>
      have hlen' : fs.length ≤ cells.length := by simpa using hlen
      obtain ⟨fs', hrec, hl, hall⟩ := ih cells hlen'
        (fun j f c hf hc => hparse (j + 1) f c (by simpa using hf) (by simpa using hc))
      by_cases hname : f.FeatureName = label
      · refine ⟨(⟨f.FeatureName, f.Sets.store sample
            (if cell = labelName then F64.fin 1 else F64.fin 0)⟩ : DataFeature) :: fs', ?_,
          by simp [hl], ?_⟩
        · unfold logRegCells
          simp only [hname, if_true, hrec]
          by_cases hc : cell = labelName <;> simp [hc]
        · intro j g c hg hc
          cases j with
          | zero =>
            simp only [List.getElem?_cons_zero, Option.some.injEq] at hg hc
            subst hg hc
            exact ⟨_, _, List.getElem?_cons_zero, rfl, rfl, fun _ => rfl, fun h => absurd hname h⟩
          | succ j =>
            simp only [List.getElem?_cons_succ] at hg hc ⊢
            exact hall j g c hg hc
      · obtain ⟨v, hv⟩ := hparse 0 f cell (by simp) (by simp) hname
        refine ⟨(⟨f.FeatureName, f.Sets.store sample v⟩ : DataFeature) :: fs', ?_,
          by simp [hl], ?_⟩
        · unfold logRegCells
          simp only [hname, if_false, hv, hrec]
        · intro j g c hg hc
          cases j with
          | zero =>
            simp only [List.getElem?_cons_zero, Option.some.injEq] at hg hc
            subst hg hc
            exact ⟨_, _, List.getElem?_cons_zero, rfl, rfl, fun h => absurd h hname, fun _ => hv⟩
          | succ j =>
            simp only [List.getElem?_cons_succ] at hg hc ⊢
            exact hall j g c hg hc

theorem logRegCells_error (ParseFloat : String → Except String F64) ( label labelName : String)
    (sample : Int) (fs : List DataFeature) (cells : List String)
    (hlen : fs.length ≤ cells.length)
    (hfail : ∃ (j : Nat) (f : DataFeature) (c : String), fs[j]? = some f ∧ cells[j]? = some c
      ∧ f.FeatureName ≠ label ∧ ∃ e, ParseFloat c = .error e) :
    ∃ e, logRegCells ParseFloat label labelName sample fs cells
      = some (.error (Error.msg ("failed to parse value, err: " ++ e))) := by
  induction fs generalizing cells with
  | nil =>
    obtain ⟨j, f, c, hf, _⟩ := hfail
    simp at hf
  | cons f fs ih =>
    cases cells with
    | nil => simp at hlen
    | cons cell cells =>
      have hlen' : fs.length ≤ cells.length := by simpa using hlen
      obtain ⟨j, g, c, hg, hc, hne, e, he⟩ := hfail
      unfold logRegCells
      by_cases hname : f.FeatureName = label
      · cases j with
        | zero =>
          simp only [List.getElem?_cons_zero, Option.some.injEq] at hg
          subst hg
          exact absurd hname hne
        | succ j =>
          simp only [List.getElem?_cons_succ] at hg hc
          obtain ⟨e', he'⟩ := ih cells hlen' ⟨j, g, c, hg, hc, hne, e, he⟩
          exact ⟨e', by simp only [hname, if_true, he']⟩
      · simp only [hname, if_false]
        cases hcell : ParseFloat cell with
        | error err => exact ⟨err, rfl⟩
        | ok v =>
          cases j with
          | zero =>
            simp only [List.getElem?_cons_zero, Option.some.injEq] at hg hc
            subst hc
            rw [hcell] at he
            simp at he
          | succ j =>
            simp only [List.getElem?_cons_succ] at hg hc
            obtain ⟨e', he'⟩ := ih cells hlen' ⟨j, g, c, hg, hc, hne, e, he⟩
            exact ⟨e', by simp only [he']⟩

theorem getElem?_of_same_length {α β : Type} (xs : List α) (ys : List β)
    (h : ys.length = xs.length) (j : Nat) (y : β) (hy : ys[j]? = some y) :
    ∃ x, xs[j]? = some x := by
  have hj : j < ys.length := (List.getElem?_eq_some_iff.1 hy).1
  exact ⟨xs[j], List.getElem?_eq_getElem (by omega)⟩

theorem getElem?_of_length_le {α β : Type} (xs : List α) (ys : List β)
    (h : xs.length ≤ ys.length) (j : Nat) (x : α) (hx : xs[j]? = some x) :
    ∃ y, ys[j]? = some y := by
  have hj : j < xs.length := (List.getElem?_eq_some_iff.1 hx).1
  exact ⟨ys[j], List.getElem?_eq_getElem (by omega)⟩

theorem logRegRows_ok (ParseFloat : String → Except String F64) ( label labelName : String)
    (rows : Rows) (s0 : Int) (fs : List DataFeature)
    (hlen : ∀ r ∈ rows, fs.length ≤ r.length)
    (hparse : ∀ r ∈ rows, ∀ (j : Nat) f c, fs[j]? = some f → r[j]? = some c →
      f.FeatureName ≠ label → ∃ v, ParseFloat c = .ok v) :
    ∃ fs', logRegRows ParseFloat label labelName rows s0 fs = some (.ok fs')
      ∧ fs'.length = fs.length
      ∧ ∀ (j : Nat) f, fs[j]? = some f →
        ∃ f', fs'[j]? = some f' ∧ f'.FeatureName = f.FeatureName
          ∧ (∀ k : Int, (k < s0 ∨ s0 + (rows.length : Int) ≤ k) → f'.Sets k = f.Sets k)
          ∧ ∀ (t : Nat) r c, rows[t]? = some r → r[j]? = some c →
            ∃ v, f'.Sets (s0 + (t : Int)) = some v
              ∧ (f.FeatureName = label → v = if c = labelName then F64.fin 1 else F64.fin 0)
              ∧ (f.FeatureName ≠ label → ParseFloat c = .ok v) := by
  induction rows generalizing s0 fs with
  | nil =>
    refine ⟨fs, by simp [logRegRows], rfl, ?_⟩
    intro j f hf
    exact ⟨f, hf, rfl, fun _ _ => rfl, by simp⟩
  | cons r rs ih =>
    have hr : fs.length ≤ r.length := hlen r (List.mem_cons_self _ _)
    obtain ⟨fs1, hcells, hl1, hall1⟩ := logRegCells_ok ParseFloat label labelName s0 fs r hr
      (hparse r (List.mem_cons_self _ _))
    have hname1 : ∀ (j : Nat) f1, fs1[j]? = some f1 →
        ∃ f, fs[j]? = some f ∧ f1.FeatureName = f.FeatureName := by
      intro j f1 hf1
      obtain ⟨f, hf⟩ := getElem?_of_same_length fs fs1 hl1 j f1 hf1
      obtain ⟨c, hc⟩ := getElem?_of_length_le fs r hr j f hf
      obtain ⟨f', v, hf', hn, _⟩ := hall1 j f c hf hc
      rw [hf1] at hf'
      simp only [Option.some.injEq] at hf'
      subst hf'
      exact ⟨f, hf, hn⟩
    obtain ⟨fs', hrec, hl, hall⟩ := ih (s0 + 1) fs1
      (fun r' hr' => by rw [hl1]; exact hlen r' (List.mem_cons_of_mem _ hr'))
      (fun r' hr' j f1 c hf1 hc hne => by
        obtain ⟨f, hf, hn⟩ := hname1 j f1 hf1
        exact hparse r' (List.mem_cons_of_mem _ hr') j f c hf hc (by rw [← hn]; exact hne))
    refine ⟨fs', ?_, by rw [hl, hl1], ?_⟩
    · unfold logRegRows
      simp only [hcells, hrec]
    · intro j f hf
      obtain ⟨c0, hc0⟩ := getElem?_of_length_le fs r hr j f hf
      obtain ⟨f1, v0, hf1, hn1, hsets1, hlab1, hnum1⟩ := hall1 j f c0 hf hc0
      obtain ⟨f', hf', hn', hout, hin⟩ := hall j f1 hf1
      refine ⟨f', hf', hn'.trans hn1, ?_, ?_⟩
      · intro k hk
        have hk1 : k < s0 + 1 ∨ s0 + 1 + (rs.length : Int) ≤ k := by
          simp only [List.length_cons, Nat.cast_add, Nat.cast_one] at hk
          omega
        have hk0 : k ≠ s0 := by
          simp only [List.length_cons, Nat.cast_add, Nat.cast_one] at hk
          omega
        rw [hout k hk1, hsets1]
        simp [GoMap.store, hk0]
      · intro t r' c hr' hc
        cases t with
        | zero =>
          simp only [List.getElem?_cons_zero, Option.some.injEq] at hr'
          subst hr'
          rw [hc0] at hc
          simp only [Option.some.injEq] at hc
          subst hc
          refine ⟨v0, ?_, hlab1, hnum1⟩
          rw [hout _ (Or.inl (by simp)), hsets1]
          simp [GoMap.store]
        | succ t =>
          simp only [List.getElem?_cons_succ] at hr'
          obtain ⟨v, hv, hlab, hnum⟩ := hin t r' c hr' hc
          refine ⟨v, ?_, fun h => hlab (hn1.trans h), fun h => hnum (by rw [hn1]; exact h)⟩
          rw [← hv]
          congr 1
          push_cast
          ring

theorem logRegRows_error (ParseFloat : String → Except String F64) ( label labelName : String)
    (rows : Rows) (s0 : Int) (fs : List DataFeature)
    (hlen : ∀ r ∈ rows, fs.length ≤ r.length)
    (hfail : ∃ r ∈ rows, ∃ (j : Nat) (f : DataFeature) (c : String), fs[j]? = some f
      ∧ r[j]? = some c ∧ f.FeatureName ≠ label ∧ ∃ e, ParseFloat c = .error e) :
    ∃ e, logRegRows ParseFloat label labelName rows s0 fs
      = some (.error (Error.msg ("failed to parse value, err: " ++ e))) := by
  induction rows generalizing s0 fs with
  | nil =>
    obtain ⟨r, hr, _⟩ := hfail
    simp at hr
  | cons r rs ih =>
    have hr : fs.length ≤ r.length := hlen r (List.mem_cons_self _ _)
    unfold logRegRows
    by_cases hrow : ∃ (j : Nat) (f : DataFeature) (c : String), fs[j]? = some f
        ∧ r[j]? = some c ∧ f.FeatureName ≠ label ∧ ∃ e, ParseFloat c = .error e
    · obtain ⟨e, he⟩ := logRegCells_error ParseFloat label labelName s0 fs r hr hrow
      exact ⟨e, by simp only [he]⟩
    · have hparse : ∀ (j : Nat) f c, fs[j]? = some f → r[j]? = some c →
          f.FeatureName ≠ label → ∃ v, ParseFloat c = .ok v := by
        intro j f c hf hc hne
        cases hp : ParseFloat c with
        | ok v => exact ⟨v, rfl⟩
        | error e => exact absurd ⟨j, f, c, hf, hc, hne, e, hp⟩ hrow
      obtain ⟨fs1, hcells, hl1, hall1⟩ :=
        logRegCells_ok ParseFloat label labelName s0 fs r hr hparse
      obtain ⟨r', hr', j, f, c, hf, hc, hne, e, he⟩ := hfail
      have hr'' : r' ∈ rs := by
        rcases List.mem_cons.1 hr' with rfl | h
        · exact absurd ⟨j, f, c, hf, hc, hne, e, he⟩ hrow
        · exact h
      obtain ⟨c0, hc0⟩ := getElem?_of_length_le fs r hr j f hf
      obtain ⟨f1, v0, hf1, hn1, _⟩ := hall1 j f c0 hf hc0
      obtain ⟨e', he'⟩ := ih (s0 + 1) fs1
        (fun x hx => by rw [hl1]; exact hlen x (List.mem_cons_of_mem _ hx))
        ⟨r', hr'', j, f1, c, hf1, hc, by rw [hn1]; exact hne, e, he⟩
      exact ⟨e', by simp only [hcells, he']⟩

theorem initial_features_getElem? (header : List String) (j : Nat) (name : String)
    (h : header[j]? = some name) :
    (header.map (fun name => ({ FeatureName := name, Sets := GoMap.empty } : DataFeature)))[j]?
      = some { FeatureName := name, Sets := GoMap.empty } := by
  simp [List.getElem?_map, h]

/-- C31: for a file of a header and data rows of the header's length. If
every cell outside the features named `label` parses, `ImportFeaturesForLogReg`
returns one feature per header cell, named after it, whose `Sets` has the
samples `0 .. len(dataRows) - 1` and nothing else: for a feature named
`label`, sample `s` is 1 when the cell of data row `s` equals `labelName` and
0 otherwise, whatever the cell is; for another feature it is the parsed cell.
If some cell outside the features named `label` does not parse, the result is
nil features and the error "failed to parse value, err: ...". -/
theorem ImportFeaturesForLogReg_spec (ParseFloat : String → Except String F64)
    (header : List String) (dataRows : Rows) ( label labelName : String)
    (hrect : ∀ r ∈ dataRows, r.length = header.length) :
    ((∀ r ∈ dataRows, ∀ (j : Nat) name c, header[j]? = some name → r[j]? = some c →
        name ≠ label → ∃ v, ParseFloat c = .ok v) →
      ∃ features, ImportFeaturesForLogReg ParseFloat (some (header :: dataRows)) label labelName
          = some (some features, none)
        ∧ features.length = header.length
        ∧ ∀ (j : Nat) name, header[j]? = some name →
          ∃ f, features[j]? = some f ∧ f.FeatureName = name
            ∧ (∀ k : Int, (k < 0 ∨ (dataRows.length : Int) ≤ k) → f.Sets k = none)
            ∧ ∀ (s : Nat) r c, dataRows[s]? = some r → r[j]? = some c →
              (name = label →
                f.Sets (s : Int) = some (if c = labelName then F64.fin 1 else F64.fin 0))
              ∧ (name ≠ label → ∃ v, ParseFloat c = .ok v ∧ f.Sets (s : Int) = some v))
    ∧ ((∃ r ∈ dataRows, ∃ (j : Nat) (name c : String), header[j]? = some name
          ∧ r[j]? = some c ∧ name ≠ label ∧ ∃ e, ParseFloat c = .error e) →
        ∃ e, ImportFeaturesForLogReg ParseFloat (some (header :: dataRows)) label labelName
          = some (none, some (Error.msg ("failed to parse value, err: " ++ e)))) := by
  have hlen : ∀ r ∈ dataRows,
      (header.map (fun name => ({ FeatureName := name, Sets := GoMap.empty } : DataFeature))).length
        ≤ r.length := by
    intro r hr
    rw [List.length_map, hrect r hr]
  have hback : ∀ (j : Nat) (f : DataFeature),
      (header.map (fun name => ({ FeatureName := name, Sets := GoMap.empty }
        : DataFeature)))[j]? = some f →
      header[j]? = some f.FeatureName := by
    intro j f hf
    rw [List.getElem?_map] at hf
    cases hh : header[j]? with
    | none => rw [hh] at hf; simp at hf
    | some name =>
      rw [hh] at hf
      simp only [Option.map_some', Option.some.injEq] at hf
      rw [← hf]
  refine ⟨?_, ?_⟩
  · intro hparse
    obtain ⟨fs', hrows, hl, hall⟩ := logRegRows_ok ParseFloat label labelName dataRows 0 _ hlen
      (fun r hr j f c hf hc hne => hparse r hr j f.FeatureName c (hback j f hf) hc hne)
    refine ⟨fs', ?_, by rw [hl, List.length_map], ?_⟩
    · simp only [ImportFeaturesForLogReg, hrows]
    · intro j name hname
      obtain ⟨f', hf', hn', hout, hin⟩ := hall j _ (initial_features_getElem? header j name hname)
      refine ⟨f', hf', hn', ?_, ?_⟩
      · intro k hk
        rw [hout k (by omega)]
        rfl
      · intro s r c hr hc
        obtain ⟨v, hv, hlab, hnum⟩ := hin s r c hr hc
        simp only [zero_add] at hv
        refine ⟨fun h => ?_, fun h => ⟨v, hnum h, hv⟩⟩
        rw [hv, hlab h]
  · rintro ⟨r, hr, j, name, c, hname, hc, hne, e, he⟩
    obtain ⟨e', he'⟩ := logRegRows_error ParseFloat label labelName dataRows 0 _ hlen
      ⟨r, hr, j, _, c, initial_features_getElem? header j name hname, hc, hne, e, he⟩
    exact ⟨e', by simp only [ImportFeaturesForLogReg, he']⟩

theorem sampleFile_parses :
    ∀ r ∈ [["1", "yes", "0.5"], ["2", "no", "1.5"], ["3", "maybe", "2.5"]],
      ∀ (j : Nat) (name c : String), ["id", "y", "x"][j]? = some name → r[j]? = some c →
        name ≠ "y" → ∃ v, sampleParseFloat c = .ok v := by
  intro r hr j name c hn hc hne
  have hj : j < 3 := (List.getElem?_eq_some_iff.1 hn).1
  simp only [List.mem_cons, List.mem_singleton, List.not_mem_nil, or_false] at hr
  interval_cases j
  · rcases hr with rfl | rfl | rfl <;>
      simp only [List.getElem?_cons_zero, Option.some.injEq] at hc <;> subst hc <;>
      exact ⟨_, rfl⟩
  · simp only [List.getElem?_cons_succ, List.getElem?_cons_zero, Option.some.injEq] at hn
    exact absurd hn.symm hne
  · rcases hr with rfl | rfl | rfl <;>
      simp only [List.getElem?_cons_succ, List.getElem?_cons_zero, Option.some.injEq] at hc <;>
      subst hc <;> exact ⟨_, rfl⟩

/-- C31 on the sample file with label `y` and target `yes`: the import
succeeds with three features. -/
theorem ImportFeaturesForLogReg_spec_witness :
    ∃ features, ImportFeaturesForLogReg sampleParseFloat
        (some (["id", "y", "x"]
          :: [["1", "yes", "0.5"], ["2", "no", "1.5"], ["3", "maybe", "2.5"]])) "y" "yes"
        = some (some features, none)
      ∧ features.length = ["id", "y", "x"].length
      ∧ ∀ (j : Nat) name, ["id", "y", "x"][j]? = some name →
        ∃ f, features[j]? = some f ∧ f.FeatureName = name
          ∧ (∀ k : Int,
              (k < 0 ∨ (([["1", "yes", "0.5"], ["2", "no", "1.5"],
                ["3", "maybe", "2.5"]] : Rows).length : Int) ≤ k) → f.Sets k = none)
          ∧ ∀ (s : Nat) r c,
              ([["1", "yes", "0.5"], ["2", "no", "1.5"], ["3", "maybe", "2.5"]] : Rows)[s]?
                = some r → r[j]? = some c →
              (name = "y" →
                f.Sets (s : Int) = some (if c = "yes" then F64.fin 1 else F64.fin 0))
              ∧ (name ≠ "y" → ∃ v, sampleParseFloat c = .ok v ∧ f.Sets (s : Int) = some v) :=
  (ImportFeaturesForLogReg_spec sampleParseFloat ["id", "y", "x"]
    [["1", "yes", "0.5"], ["2", "no", "1.5"], ["3", "maybe", "2.5"]] "y" "yes"
    (by decide)).1 sampleFile_parses

theorem dtCells_ok (sample : Int) (fs : List DTDataFeature) (cells : List String)
    (hlen : fs.length ≤ cells.length) :
    ∃ fs', dtCells sample fs cells = some fs' ∧ fs'.length = fs.length
      ∧ ∀ (j : Nat) f c, fs[j]? = some f → cells[j]? = some c →
        ∃ f', fs'[j]? = some f' ∧ f'.FeatureName = f.FeatureName
          ∧ f'.Sets = f.Sets.store sample c := by
  induction fs generalizing cells with
  | nil => exact ⟨[], by simp [dtCells], rfl, by simp⟩
  | cons f fs ih =>
    cases cells with
    | nil => simp at hlen
    | cons cell cells =>
      have hlen' : fs.length ≤ cells.length := by simpa using hlen
      obtain ⟨fs', hrec, hl, hall⟩ := ih cells hlen'
      refine ⟨(⟨f.FeatureName, f.Sets.store sample cell⟩ : DTDataFeature) :: fs', ?_,
        by simp [hl], ?_⟩
      · unfold dtCells
        simp only [hrec]
      · intro j g c hg hc
        cases j with
        | zero =>
          simp only [List.getElem?_cons_zero, Option.some.injEq] at hg hc
          subst hg hc
          exact ⟨_, List.getElem?_cons_zero, rfl, rfl⟩
        | succ j =>
          simp only [List.getElem?_cons_succ] at hg hc ⊢
          exact hall j g c hg hc

theorem dtRows_ok (rows : Rows) (s0 : Int) (fs : List DTDataFeature)
    (hlen : ∀ r ∈ rows, fs.length ≤ r.length) :
    ∃ fs', dtRows rows s0 fs = some fs' ∧ fs'.length = fs.length
      ∧ ∀ (j : Nat) f, fs[j]? = some f →
        ∃ f', fs'[j]? = some f' ∧ f'.FeatureName = f.FeatureName
          ∧ (∀ k : Int, (k < s0 ∨ s0 + (rows.length : Int) ≤ k) → f'.Sets k = f.Sets k)
          ∧ ∀ (t : Nat) r c, rows[t]? = some r → r[j]? = some c →
            f'.Sets (s0 + (t : Int)) = some c := by
  induction rows generalizing s0 fs with
  | nil =>
    refine ⟨fs, by simp [dtRows], rfl, ?_⟩
    intro j f hf
    exact ⟨f, hf, rfl, fun _ _ => rfl, by simp⟩
  | cons r rs ih =>
    have hr : fs.length ≤ r.length := hlen r (List.mem_cons_self _ _)
    obtain ⟨fs1, hcells, hl1, hall1⟩ := dtCells_ok s0 fs r hr
    obtain ⟨fs', hrec, hl, hall⟩ := ih (s0 + 1) fs1
      (fun r' hr' => by rw [hl1]; exact hlen r' (List.mem_cons_of_mem _ hr'))
    refine ⟨fs', ?_, by rw [hl, hl1], ?_⟩
    · unfold dtRows
      simp only [hcells, hrec]
    · intro j f hf
      obtain ⟨c0, hc0⟩ := getElem?_of_length_le fs r hr j f hf
      obtain ⟨f1, hf1, hn1, hsets1⟩ := hall1 j f c0 hf hc0
      obtain ⟨f', hf', hn', hout, hin⟩ := hall j f1 hf1
      refine ⟨f', hf', hn'.trans hn1, ?_, ?_⟩
      · intro k hk
        have hk1 : k < s0 + 1 ∨ s0 + 1 + (rs.length : Int) ≤ k := by
          simp only [List.length_cons, Nat.cast_add, Nat.cast_one] at hk
          omega
        have hk0 : k ≠ s0 := by
          simp only [List.length_cons, Nat.cast_add, Nat.cast_one] at hk
          omega
        rw [hout k hk1, hsets1]
        simp [GoMap.store, hk0]
      · intro t r' c hr' hc
        cases t with
        | zero =>
          simp only [List.getElem?_cons_zero, Option.some.injEq] at hr'
          subst hr'
          rw [hc0] at hc
          simp only [Option.some.injEq] at hc
          subst hc
          rw [hout _ (Or.inl (by simp)), hsets1]
          simp [GoMap.store]
        | succ t =>
          simp only [List.getElem?_cons_succ] at hr'
          rw [← hin t r' c hr' hc]
          congr 1
          push_cast
          ring

/-- C32: for a file of a header and data rows with at least as many cells as
the header, `ImportFeaturesForDT` returns, without error, one feature per
header cell in header order, named after that cell, whose `Sets` has exactly
the keys `0 .. len(dataRows) - 1`, with the cell of data row `s` in that column
under key `s`. -/
theorem ImportFeaturesForDT_spec (header : List String) (dataRows : Rows)
    (hlen : ∀ r ∈ dataRows, header.length ≤ r.length) :
    ∃ features, ImportFeaturesForDT (some (header :: dataRows)) = some (some features, none)
      ∧ features.length = header.length
      ∧ ∀ (j : Nat) name, header[j]? = some name →
        ∃ f, features[j]? = some f ∧ f.FeatureName = name
          ∧ (∀ k : Int, (f.Sets k).isSome = true ↔ (0 ≤ k ∧ k < (dataRows.length : Int)))
          ∧ ∀ (s : Nat) r c, dataRows[s]? = some r → r[j]? = some c →
              f.Sets (s : Int) = some c := by
  have hlen' : ∀ r ∈ dataRows,
      (header.map (fun name => ({ FeatureName := name, Sets := GoMap.empty }
        : DTDataFeature))).length ≤ r.length := by
    intro r hr
    rw [List.length_map]
    exact hlen r hr
  obtain ⟨fs', hrows, hl, hall⟩ := dtRows_ok dataRows 0 _ hlen'
  refine ⟨fs', ?_, by rw [hl, List.length_map], ?_⟩
  · simp only [ImportFeaturesForDT, hrows]
  · intro j name hname
    have hinit : (header.map (fun name => ({ FeatureName := name, Sets := GoMap.empty }
        : DTDataFeature)))[j]? = some { FeatureName := name, Sets := GoMap.empty } := by
      simp [List.getElem?_map, hname]
    obtain ⟨f', hf', hn', hout, hin⟩ := hall j _ hinit
    have hkey : ∀ (s : Nat) r c, dataRows[s]? = some r → r[j]? = some c →
        f'.Sets (s : Int) = some c := by
      intro s r c hr hc
      have h := hin s r c hr hc
      simpa using h
    refine ⟨f', hf', hn', ?_, hkey⟩
    intro k
    constructor
    · intro hsome
      by_contra hk
      have hk' : k < 0 ∨ (0 : Int) + (dataRows.length : Int) ≤ k := by omega
      rw [hout k hk'] at hsome
      simp [GoMap.empty] at hsome
    · rintro ⟨h0, hlt⟩
      have hs : k.toNat < dataRows.length := by omega
      have hr : dataRows[k.toNat]? = some dataRows[k.toNat] := List.getElem?_eq_getElem hs
      have hj : j < header.length := (List.getElem?_eq_some_iff.1 hname).1
      have hjr : j < (dataRows[k.toNat]).length := by
        have := hlen _ (List.getElem_mem hs)
        omega
      have hc : (dataRows[k.toNat])[j]? = some (dataRows[k.toNat])[j] :=
        List.getElem?_eq_getElem hjr
      have h := hkey k.toNat _ _ hr hc
      rw [Int.toNat_of_nonneg h0] at h
      rw [h]
      rfl

/-- C32 on the sample file: three features, each with the samples 0, 1, 2. -/
theorem ImportFeaturesForDT_spec_witness :
    ∃ features, ImportFeaturesForDT (some (["id", "y", "x"]
        :: [["1", "yes", "0.5"], ["2", "no", "1.5"], ["3", "maybe", "2.5"]]))
        = some (some features, none)
      ∧ features.length = ["id", "y", "x"].length
      ∧ ∀ (j : Nat) name, ["id", "y", "x"][j]? = some name →
        ∃ f, features[j]? = some f ∧ f.FeatureName = name
          ∧ (∀ k : Int, (f.Sets k).isSome = true ↔
              (0 ≤ k ∧ k < (([["1", "yes", "0.5"], ["2", "no", "1.5"],
                ["3", "maybe", "2.5"]] : Rows).length : Int)))
          ∧ ∀ (s : Nat) r c,
              ([["1", "yes", "0.5"], ["2", "no", "1.5"], ["3", "maybe", "2.5"]] : Rows)[s]?
                = some r → r[j]? = some c → f.Sets (s : Int) = some c :=
  ImportFeaturesForDT_spec ["id", "y", "x"]
    [["1", "yes", "0.5"], ["2", "no", "1.5"], ["3", "maybe", "2.5"]] (by decide)

/-! ## Storing predictions -/

/-- C33: `SetPredictOut` of `binClassValidation` and of
`regressionValidation` returns an error and leaves the value as it was when
the file has not been split, when `idx ≥ len(folds)` and when the number of
predictions is not `len(fold) - 1`; every call that returns an error leaves the
value as it was; a call without error changes the stored entries for `idx`
alone. For a negative `idx` on a split file the call reaches `s.folds[idx]`
in `GetValidSet` and panics (`none`) instead of returning an error. -/
theorem SetPredictOut_atomic (bv : binClassValidation) (rv : regressionValidation)
    (idx : Int) (preds : List F64) :
    ((∀ bv' err, bv.SetPredictOut idx preds = some (bv', some err) → bv' = bv)
      ∧ (bv.Splitter.folds = [] →
          bv.SetPredictOut idx preds
            = some (bv, some (Error.msg "the file has not been split")))
      ∧ (bv.Splitter.folds ≠ [] → idx ≥ (bv.Splitter.folds.length : Int) →
          bv.SetPredictOut idx preds
            = some (bv, some (Error.msg "invalid index referring to validation set ")))
      ∧ (∀ fold, 0 ≤ idx → bv.Splitter.folds[idx.toNat]? = some fold →
          (fold.length : Int) - 1 ≠ (preds.length : Int) →
          bv.SetPredictOut idx preds = some (bv, some (Error.msg
            "there is a mismatch between the number of predicted classes and that of prediction set")))
      ∧ (∀ bv', bv.SetPredictOut idx preds = some (bv', none) →
          bv'.Splitter = bv.Splitter ∧ bv'.predResults idx = some preds
          ∧ (∃ classes, bv'.GetAllPredictOuts idx = some classes)
          ∧ ∀ k, k ≠ idx → bv'.GetAllPredictOuts k = bv.GetAllPredictOuts k
              ∧ bv'.predResults k = bv.predResults k)
      ∧ (bv.Splitter.folds ≠ [] → idx < 0 → bv.SetPredictOut idx preds = none))
    ∧ ((∀ rv' err, rv.SetPredictOut idx preds = some (rv', some err) → rv' = rv)
      ∧ (rv.Splitter.folds = [] →
          rv.SetPredictOut idx preds
            = some (rv, some (Error.msg "the file has not been split")))
      ∧ (rv.Splitter.folds ≠ [] → idx ≥ (rv.Splitter.folds.length : Int) →
          rv.SetPredictOut idx preds
            = some (rv, some (Error.msg "invalid index referring to validation set ")))
      ∧ (∀ fold, 0 ≤ idx → rv.Splitter.folds[idx.toNat]? = some fold →
          (fold.length : Int) - 1 ≠ (preds.length : Int) →
          rv.SetPredictOut idx preds = some (rv, some (Error.msg
            "there is a mismatch between the number of predicted values and that of prediction set")))
      ∧ (∀ rv', rv.SetPredictOut idx preds = some (rv', none) →
          rv'.Splitter = rv.Splitter ∧ rv'.GetAllPredictOuts idx = some preds
          ∧ ∀ k, k ≠ idx → rv'.GetAllPredictOuts k = rv.GetAllPredictOuts k)
      ∧ (rv.Splitter.folds ≠ [] → idx < 0 → rv.SetPredictOut idx preds = none)) := by
  refine ⟨⟨?_, ?_, ?_, ?_, ?_, ?_⟩, ?_, ?_, ?_, ?_, ?_, ?_⟩
  · intro bv' err h
    unfold binClassValidation.SetPredictOut at h
    split at h
    · simp at h
    · simp only [Option.some.injEq, Prod.mk.injEq] at h
      exact h.1.symm
    · split at h
      · simp only [Option.some.injEq, Prod.mk.injEq] at h
        exact h.1.symm
      · simp at h
  · intro h
    simp only [binClassValidation.SetPredictOut, GetValidSet_not_split _ idx h]
  · intro hne hge
    simp only [binClassValidation.SetPredictOut, GetValidSet_large _ idx hne hge]
  · intro fold h0 hfold hlen
    simp only [binClassValidation.SetPredictOut, GetValidSet_fold _ idx fold h0 hfold, hlen,
      ne_eq, not_false_eq_true, if_true]
  · intro bv' h
    have hbv := SetPredictOut_ok_aux bv bv' idx preds h
    subst hbv
    refine ⟨rfl, by simp [GoMap.store],
      ⟨preds.map (fun p => if F64.le p bv.threshold then bv.negClass else bv.posClass),
        by simp [binClassValidation.GetAllPredictOuts, GoMap.store]⟩, ?_⟩
    intro k hk
    simp [binClassValidation.GetAllPredictOuts, GoMap.store, hk]
  · intro hne hneg
    simp only [binClassValidation.SetPredictOut, GetValidSet_negative _ idx hne hneg]
  · intro rv' err h
    unfold regressionValidation.SetPredictOut at h
    split at h
    · simp at h
    · simp only [Option.some.injEq, Prod.mk.injEq] at h
      exact h.1.symm
    · split at h
      · simp only [Option.some.injEq, Prod.mk.injEq] at h
        exact h.1.symm
      · simp at h
  · intro h
    simp only [regressionValidation.SetPredictOut, GetValidSet_not_split _ idx h]
  · intro hne hge
    simp only [regressionValidation.SetPredictOut, GetValidSet_large _ idx hne hge]
  · intro fold h0 hfold hlen
    simp only [regressionValidation.SetPredictOut, GetValidSet_fold _ idx fold h0 hfold, hlen,
      ne_eq, not_false_eq_true, if_true]
  · intro rv' h
    unfold regressionValidation.SetPredictOut at h
    split at h
    · simp at h
    · simp at h
    · split at h
      · simp at h
      · simp only [Option.some.injEq, Prod.mk.injEq, and_true] at h
        subst h
        refine ⟨rfl, by simp [regressionValidation.GetAllPredictOuts, GoMap.store], ?_⟩
        intro k hk
        simp [regressionValidation.GetAllPredictOuts, GoMap.store, hk]
  · intro hne hneg
    simp only [regressionValidation.SetPredictOut, GetValidSet_negative _ idx hne hneg]

/-- C33 on the sample validations, split in three folds of one data row: two
predictions for fold 0 are refused and nothing changes; index -1 panics. -/
theorem SetPredictOut_atomic_witness :
    sampleBinClass.SetPredictOut 0 [F64.fin 1, F64.fin 0] = some (sampleBinClass, some (Error.msg
      "there is a mismatch between the number of predicted classes and that of prediction set"))
    ∧ sampleRegression.SetPredictOut 0 [F64.fin 1, F64.fin 0]
      = some (sampleRegression, some (Error.msg
      "there is a mismatch between the number of predicted values and that of prediction set"))
    ∧ sampleBinClass.SetPredictOut (-1) [F64.fin 1] = none
    ∧ sampleRegression.SetPredictOut (-1) [F64.fin 1] = none :=
  ⟨(SetPredictOut_atomic sampleBinClass sampleRegression 0 [F64.fin 1, F64.fin 0]).1.2.2.2.1
      [["id", "y", "x"], ["1", "yes", "0.5"]] (by decide) (by decide) (by decide),
    (SetPredictOut_atomic sampleBinClass sampleRegression 0 [F64.fin 1, F64.fin 0]).2.2.2.2.1
      [["id", "y", "x"], ["1", "yes", "0.5"]] (by decide) (by decide) (by decide),
    (SetPredictOut_atomic sampleBinClass sampleRegression (-1) [F64.fin 1]).1.2.2.2.2.2
      (by decide) (by decide),
    (SetPredictOut_atomic sampleBinClass sampleRegression (-1) [F64.fin 1]).2.2.2.2.2.2
      (by decide) (by decide)⟩
